import Mathlib

/-!
# Physics core of the rotating-hexagon bouncing-spheres sketch (`src/script.js`)

Shallow embedding of the integrator, the wall collision resolver and the
pairwise collision resolver of `script.js`.

Conventions of the embedding

* JavaScript numbers are idealised as the elements of a linear ordered field
  `K` (exact arithmetic; rounding, `NaN` and infinities are outside the model).
* `Math.sqrt`, `Math.cos`, `Math.sin` and `Math.PI` belong to the JavaScript
  runtime, not to the repository; they are the parameter `M : JSMath K`.
  Theorems that need `Math.sqrt` to be an exact square root say so with
  `M.SqrtExact`; scenario theorems are stated over `ℝ` with the real functions.
* `p5.Vector` is an external library; the operations used by the script are
  modelled on two components (the script never touches `z`).
* Mutable arrays are lists, loops are folds over the index lists the loops run
  through, in-place updates are `List.set`.
* `random()` is modelled by the sequence `draws : Nat → K` of the numbers its successive
  calls return; a function that draws returns the rest of the sequence with its result.
-/

namespace HexSim

/-! ## Runtime mathematics and vectors -/

/-- The functions and the constant of the JavaScript `Math` object that the script uses. -/
structure JSMath (K : Type) where
  sqrt : K → K
  cos : K → K
  sin : K → K
  pi : K

/-- The statement that `Math.sqrt` is an exact square root on non-negative numbers. -/
def JSMath.SqrtExact {K : Type} [LinearOrderedField K] (M : JSMath K) : Prop :=
  ∀ x : K, 0 ≤ x → 0 ≤ M.sqrt x ∧ M.sqrt x * M.sqrt x = x

/-- A two-dimensional `p5.Vector`. -/
@[ext]
structure Vec (K : Type) where
  x : K
  y : K

namespace Vec

variable {K : Type} [LinearOrderedField K]

/-- The function `createVector(x, y)`. -/
def createVector (x y : K) : Vec K := ⟨x, y⟩

/-- Componentwise sum, `p5.Vector.add`. -/
def add (a b : Vec K) : Vec K := ⟨a.x + b.x, a.y + b.y⟩

/-- Componentwise difference, `p5.Vector.sub`. -/
def sub (a b : Vec K) : Vec K := ⟨a.x - b.x, a.y - b.y⟩

/-- Scaling by a number, `p5.Vector.mult`. -/
def mult (a : Vec K) (n : K) : Vec K := ⟨a.x * n, a.y * n⟩

/-- Division by a number, `p5.Vector.div`: dividing by zero leaves the vector as it is. -/
def div (a : Vec K) (n : K) : Vec K := if n = 0 then a else ⟨a.x / n, a.y / n⟩

/-- Scalar product, `p5.Vector.dot`. -/
def dot (a b : Vec K) : K := a.x * b.x + a.y * b.y

/-- Squared length, `p5.Vector.magSq`. -/
def magSq (a : Vec K) : K := a.x * a.x + a.y * a.y

/-- Length, `p5.Vector.mag`: the square root of the squared length. -/
def mag (M : JSMath K) (a : Vec K) : K := M.sqrt (magSq a)

/-- Scaling to unit length, `p5.Vector.normalize`: a vector of length zero is left as it is. -/
def normalize (M : JSMath K) (a : Vec K) : Vec K :=
  let len := mag M a
  if len ≠ 0 then mult a (1 / len) else a

end Vec

/-! ## Data model -/

/-- The display colour of a sphere (`hslToRgb` rounds to integers). -/
structure Color where
  r : Int
  g : Int
  b : Int

/-- One entry of the array `spheres`. -/
structure Sphere (K : Type) where
  position : Vec K
  velocity : Vec K
  radius : K
  mass : K
  color : Color

/-- The object `hexagon`. -/
structure Hexagon (K : Type) where
  center : Vec K
  radius : K
  angle : K

/-- The fields of `config` that the simulation reads (the rendering fields `enableTrails`,
`borderThickness` and `backgroundColor` are left out). -/
structure Config (K : Type) where
  sphereCount : Nat
  sphereRadius : K
  variableMass : Bool
  wallRestitution : K
  sphereRestitution : K
  gravity : K
  friction : K
  airResistance : K
  rotationSpeed : K
  velocityMultiplier : K

variable {K : Type} [LinearOrderedField K]

/-! ## Pairwise collision resolver -/

/-- The vector `delta` of `resolveSphereCollisions` once the `distance === 0` branch has run. -/
def contactDelta (M : JSMath K) (a b : Sphere K) : Vec K :=
  let delta := Vec.sub b.position a.position
  if Vec.mag M delta = 0 then ⟨1 / 10000, 0⟩ else delta

/-- The number `distance` of `resolveSphereCollisions` once the `distance === 0` branch has run. -/
def contactDistance (M : JSMath K) (a b : Sphere K) : K :=
  let delta := Vec.sub b.position a.position
  let distance := Vec.mag M delta
  if distance = 0 then Vec.mag M (contactDelta M a b) else distance

/-- The vector `normal` of `resolveSphereCollisions`. -/
def contactNormal (M : JSMath K) (a b : Sphere K) : Vec K :=
  Vec.div (contactDelta M a b) (contactDistance M a b)

/-- The number `impulseMagnitude` of `resolveSphereCollisions`. -/
def impulseMagnitude (cfg : Config K) (a b : Sphere K) (speedAlongNormal : K) : K :=
  -(1 + cfg.sphereRestitution) * speedAlongNormal / (1 / a.mass + 1 / b.mass)

/-- The body of the inner loop of `resolveSphereCollisions` for the spheres `a = spheres[i]`
and `b = spheres[j]`: the pair after the visit. -/
def resolvePair (M : JSMath K) (cfg : Config K) (a b : Sphere K) : Sphere K × Sphere K :=
  let distance := contactDistance M a b
  let minDistance := a.radius + b.radius
  if distance < minDistance ∧ distance > 0 then
    let overlap := minDistance - distance
    let normal := contactNormal M a b
    let totalMass := a.mass + b.mass
    let correctionA := Vec.mult normal (-overlap * (b.mass / totalMass))
    let correctionB := Vec.mult normal (overlap * (a.mass / totalMass))
    let a1 : Sphere K := { a with position := Vec.add a.position correctionA }
    let b1 : Sphere K := { b with position := Vec.add b.position correctionB }
    let relativeVelocity := Vec.sub b1.velocity a1.velocity
    let speedAlongNormal := Vec.dot relativeVelocity normal
    if speedAlongNormal < 0 then
      let impulse := Vec.mult normal (impulseMagnitude cfg a b speedAlongNormal)
      ({ a1 with velocity := Vec.sub a1.velocity (Vec.div impulse a.mass) },
       { b1 with velocity := Vec.add b1.velocity (Vec.div impulse b.mass) })
    else (a1, b1)
  else (a, b)

/-- One visit of the pair `(i, j)`: `spheres[i]` and `spheres[j]` are updated in place. -/
def resolvePairAt (M : JSMath K) (cfg : Config K) (spheres : List (Sphere K)) (i j : Nat) :
    List (Sphere K) :=
  match spheres[i]?, spheres[j]? with
  | some a, some b =>
    ((spheres.set i (resolvePair M cfg a b).1).set j (resolvePair M cfg a b).2)
  | _, _ => spheres

/-- The inner loop `for (let j = i + 1; j < spheres.length; j++)`. -/
def resolveRow (M : JSMath K) (cfg : Config K) (spheres : List (Sphere K)) (i : Nat) :
    List (Sphere K) :=
  (List.range' (i + 1) (spheres.length - (i + 1))).foldl
    (fun ss j => resolvePairAt M cfg ss i j) spheres

/-- The function `resolveSphereCollisions`: all pairs `i < j` in ascending order. -/
def resolveSphereCollisions (M : JSMath K) (cfg : Config K) (spheres : List (Sphere K)) :
    List (Sphere K) :=
  (List.range spheres.length).foldl (fun ss i => resolveRow M cfg ss i) spheres

/-! ## Geometry utilities -/

/-- The p5 function `constrain(n, low, high)`, which is `Math.max(Math.min(n, high), low)`. -/
def constrain (n low high : K) : K := max (min n high) low

/-- The function `closestPointOnSegment(a, b, point)`. -/
def closestPointOnSegment (a b point : Vec K) : Vec K :=
  let ab := Vec.sub b a
  let abMagSq := Vec.magSq ab
  if abMagSq = 0 then a
  else
    let t := constrain (Vec.dot (Vec.sub point a) ab / abMagSq) 0 1
    Vec.add a (Vec.mult ab t)

/-- The function `getHexagonVertices`: vertex `i` at angle `hexagon.angle + (Math.PI / 3) * i`. -/
def getHexagonVertices (M : JSMath K) (hexagon : Hexagon K) : List (Vec K) :=
  (List.range 6).map fun (i : Nat) =>
    let angle := hexagon.angle + (M.pi / 3) * (i : K)
    Vec.createVector (hexagon.center.x + hexagon.radius * M.cos angle)
      (hexagon.center.y + hexagon.radius * M.sin angle)

/-- The test of one edge `current → next` in `isInsideHexagon`: `false` is the early
`return false`, `true` lets the loop go on. -/
def insideEdge (M : JSMath K) (current next point : Vec K) (padding : K) : Bool :=
  let edge := Vec.sub next current
  let outwardNormal := Vec.createVector edge.y (-edge.x)
  let normalMagnitude := Vec.mag M outwardNormal
  if normalMagnitude = 0 then true
  else
    let unitNormal := Vec.div outwardNormal normalMagnitude
    let offset := Vec.sub point current
    if Vec.dot offset unitNormal > -padding then false else true

/-- Iteration `i` of the loop of `isInsideHexagon`, with `current = vertices[i]` and
`next = vertices[(i + 1) % vertices.length]`. -/
def insideEdgeAt (M : JSMath K) (vertices : List (Vec K)) (point : Vec K) (padding : K)
    (i : Nat) : Bool :=
  match vertices[i]?, vertices[(i + 1) % vertices.length]? with
  | some current, some next => insideEdge M current next point padding
  | _, _ => true

/-- The function `isInsideHexagon(point, padding)`. -/
def isInsideHexagon (M : JSMath K) (hexagon : Hexagon K) (point : Vec K) (padding : K) : Bool :=
  let vertices := getHexagonVertices M hexagon
  (List.range vertices.length).all fun i => insideEdgeAt M vertices point padding i

/-! ## Wall collision resolver -/

/-- The vector `outwardNormal` of `keepSphereInsideHexagon` after `normalize()`. -/
def edgeNormal (M : JSMath K) (p1 p2 : Vec K) : Vec K :=
  let edge := Vec.sub p2 p1
  Vec.normalize M (Vec.createVector edge.y (-edge.x))

/-- The number `penetration` of `keepSphereInsideHexagon` for the edge `p1 → p2`. -/
def penetration (M : JSMath K) (p1 p2 : Vec K) (sphere : Sphere K) : K :=
  let toCenter := Vec.sub sphere.position p1
  let distance := Vec.dot toCenter (edgeNormal M p1 p2)
  distance + sphere.radius

/-- The vector `wallVelocity` of `keepSphereInsideHexagon` for the edge `p1 → p2`. -/
def wallVelocity (cfg : Config K) (hexagon : Hexagon K) (p1 p2 : Vec K) (sphere : Sphere K) :
    Vec K :=
  let contactPoint := closestPointOnSegment p1 p2 sphere.position
  let relative := Vec.sub contactPoint hexagon.center
  let omega := cfg.rotationSpeed
  Vec.createVector (-omega * relative.y) (omega * relative.x)

/-- The body of the loop of `keepSphereInsideHexagon` for the edge `p1 → p2`. -/
def wallEdge (M : JSMath K) (cfg : Config K) (hexagon : Hexagon K) (p1 p2 : Vec K)
    (sphere : Sphere K) : Sphere K :=
  let edge := Vec.sub p2 p1
  if Vec.magSq (Vec.createVector edge.y (-edge.x)) = 0 then sphere
  else
    let outwardNormal := edgeNormal M p1 p2
    let pen := penetration M p1 p2 sphere
    if pen > 0 then
      let wallV := wallVelocity cfg hexagon p1 p2 sphere
      let s1 : Sphere K :=
        { sphere with position := Vec.add sphere.position (Vec.mult outwardNormal (-pen)) }
      let relativeVelocity := Vec.sub s1.velocity wallV
      let normalVelocity := Vec.dot relativeVelocity outwardNormal
      if normalVelocity > 0 then
        let tangent := Vec.sub relativeVelocity (Vec.mult outwardNormal normalVelocity)
        let tangentialScale := max 0 (1 - cfg.friction)
        let newNormalVelocity := -cfg.wallRestitution * normalVelocity
        let adjustedRelativeVelocity :=
          Vec.add (Vec.mult outwardNormal newNormalVelocity) (Vec.mult tangent tangentialScale)
        { s1 with velocity := Vec.add wallV adjustedRelativeVelocity }
      else s1
    else sphere

/-- Iteration `i` of the loop of `keepSphereInsideHexagon`, with `p1 = vertices[i]` and
`p2 = vertices[(i + 1) % vertices.length]`. -/
def wallEdgeAt (M : JSMath K) (cfg : Config K) (hexagon : Hexagon K) (vertices : List (Vec K))
    (sphere : Sphere K) (i : Nat) : Sphere K :=
  match vertices[i]?, vertices[(i + 1) % vertices.length]? with
  | some p1, some p2 => wallEdge M cfg hexagon p1 p2 sphere
  | _, _ => sphere

/-- The loop of `keepSphereInsideHexagon` over the edge indices `is` of the vertex list. -/
def wallEdges (M : JSMath K) (cfg : Config K) (hexagon : Hexagon K) (vertices : List (Vec K))
    (is : List Nat) (sphere : Sphere K) : Sphere K :=
  is.foldl (fun s i => wallEdgeAt M cfg hexagon vertices s i) sphere

/-- The function `keepSphereInsideHexagon(sphere)`: all edges, in index order. -/
def keepSphereInsideHexagon (M : JSMath K) (cfg : Config K) (hexagon : Hexagon K)
    (sphere : Sphere K) : Sphere K :=
  let vertices := getHexagonVertices M hexagon
  wallEdges M cfg hexagon vertices (List.range vertices.length) sphere

/-! ## Integrator and frame -/

/-- The function `updateHexagon(dt)`. -/
def updateHexagon (cfg : Config K) (dt : K) (hexagon : Hexagon K) : Hexagon K :=
  { hexagon with angle := hexagon.angle + cfg.rotationSpeed * dt }

/-- The first four statements of the loop body of `updateSpheres`: gravity, air factor,
friction factor, position. -/
def integrateSphere (cfg : Config K) (dt : K) (sphere : Sphere K) : Sphere K :=
  let gravityVector := Vec.createVector (0 : K) cfg.gravity
  let airFactor := max 0 (1 - cfg.airResistance * dt)
  let frictionFactor := max 0 (1 - cfg.friction * dt)
  let v1 := Vec.add sphere.velocity (Vec.mult gravityVector dt)
  let v2 := Vec.mult v1 airFactor
  let v3 := Vec.mult v2 frictionFactor
  { sphere with velocity := v3, position := Vec.add sphere.position (Vec.mult v3 dt) }

/-- One iteration of the loop of `updateSpheres` on the element of index `k`: the sphere is
integrated and then passed to `keepSphereInsideHexagon`, in place. -/
def updateSphereAt (M : JSMath K) (cfg : Config K) (hexagon : Hexagon K) (dt : K)
    (spheres : List (Sphere K)) (k : Nat) : List (Sphere K) :=
  match spheres[k]? with
  | some sphere =>
    spheres.set k (keepSphereInsideHexagon M cfg hexagon (integrateSphere cfg dt sphere))
  | none => spheres

/-- The function `updateSpheres(dt)`: the array is walked from the first element to the
last. -/
def updateSpheres (M : JSMath K) (cfg : Config K) (hexagon : Hexagon K) (dt : K)
    (spheres : List (Sphere K)) : List (Sphere K) :=
  (List.range spheres.length).foldl (fun ss k => updateSphereAt M cfg hexagon dt ss k) spheres

/-- The mutable globals `hexagon` and `spheres`. -/
structure State (K : Type) where
  hexagon : Hexagon K
  spheres : List (Sphere K)

/-- The timestep of `draw`: `Math.min(deltaTime / 1000, 0.05)`. -/
def frameDt (deltaTime : K) : K := min (deltaTime / 1000) (1 / 20)

/-- The physics of one frame of `draw` while `running`: `updateHexagon(dt)`,
`updateSpheres(dt)`, `resolveSphereCollisions()`. -/
def physicsStep (M : JSMath K) (cfg : Config K) (dt : K) (st : State K) : State K :=
  let hexagon := updateHexagon cfg dt st.hexagon
  let spheres := updateSpheres M cfg hexagon dt st.spheres
  { hexagon := hexagon, spheres := resolveSphereCollisions M cfg spheres }

/-- Successive frames with the timesteps `dts`, first to last. -/
def physicsSteps (M : JSMath K) (cfg : Config K) (dts : List K) (st : State K) : State K :=
  dts.foldl (fun s dt => physicsStep M cfg dt s) st

/-! ## Quantities the properties speak about -/

/-- Kinetic energy of one sphere, `½·mass·|velocity|²`. -/
def kineticEnergy (s : Sphere K) : K := 1 / 2 * s.mass * Vec.magSq s.velocity

/-- Total kinetic energy of a list of spheres. -/
def totalKineticEnergy (spheres : List (Sphere K)) : K :=
  (spheres.map kineticEnergy).sum

/-- The part of `v` orthogonal to `n`: `v − (v·n)·n`. -/
def tangentialPart (v n : Vec K) : Vec K := Vec.sub v (Vec.mult n (Vec.dot v n))

/-- The condition of the outer `if` of the pair visit. -/
def PairOverlaps (M : JSMath K) (a b : Sphere K) : Prop :=
  contactDistance M a b < a.radius + b.radius ∧ contactDistance M a b > 0

/-- The number `speedAlongNormal` of the pair visit: `(v_j − v_i)·normal`. -/
def speedAlongNormal (M : JSMath K) (a b : Sphere K) : K :=
  Vec.dot (Vec.sub b.velocity a.velocity) (contactNormal M a b)

/-- The edge `p1 → p2` is not skipped by `keepSphereInsideHexagon`: the vector
`(edge.y, -edge.x)` has non-zero `magSq()`. -/
def EdgeProper (p1 p2 : Vec K) : Prop :=
  Vec.magSq (Vec.createVector (Vec.sub p2 p1).y (-(Vec.sub p2 p1).x)) ≠ 0

/-- The body penetrates no edge that `keepSphereInsideHexagon` examines. -/
def ClearOfWalls (M : JSMath K) (hexagon : Hexagon K) (s : Sphere K) : Prop :=
  ∀ (i : Nat) (p1 p2 : Vec K),
    (getHexagonVertices M hexagon)[i]? = some p1 →
    (getHexagonVertices M hexagon)[(i + 1) % (getHexagonVertices M hexagon).length]? = some p2 →
    EdgeProper p1 p2 → penetration M p1 p2 s ≤ 0

/-- Along the frames with timesteps `dts`, after each position update no body penetrates an
edge of the hexagon of that frame. -/
def ClearAlong (M : JSMath K) (cfg : Config K) : State K → List K → Prop
  | _, [] => True
  | st, dt :: dts =>
    (∀ s ∈ st.spheres,
      ClearOfWalls M (updateHexagon cfg dt st.hexagon) (integrateSphere cfg dt s)) ∧
    ClearAlong M cfg (physicsStep M cfg dt st) dts

/-- Every body of the list has positive mass. -/
def MassesPositive (spheres : List (Sphere K)) : Prop := ∀ s ∈ spheres, 0 < s.mass

/-! ## Scenario data -/

/-- A colour for the scenario bodies (colour plays no part in the physics). -/
def scenarioColor : Color := ⟨0, 0, 0⟩

/-- First body of the two-body scenario: mass 1, radius 1, at `(0, 0)`, velocity `(1, 0)`. -/
def scenarioBodyA (K : Type) [LinearOrderedField K] : Sphere K :=
  { position := ⟨0, 0⟩, velocity := ⟨1, 0⟩, radius := 1, mass := 1, color := scenarioColor }

/-- Second body of the two-body scenario: mass 1, radius 1, at `(1.5, 0)`, velocity `(-1, 0)`. -/
def scenarioBodyB (K : Type) [LinearOrderedField K] : Sphere K :=
  { position := ⟨3 / 2, 0⟩, velocity := ⟨-1, 0⟩, radius := 1, mass := 1,
    color := scenarioColor }

/-- A configuration with the given restitutions and friction, no gravity, no drag and no
rotation. -/
def scenarioConfig (K : Type) [LinearOrderedField K] (wallRestitution sphereRestitution
    friction : K) : Config K :=
  { sphereCount := 2, sphereRadius := 5, variableMass := false,
    wallRestitution := wallRestitution,
    sphereRestitution := sphereRestitution, gravity := 0, friction := friction,
    airResistance := 0, rotationSpeed := 0, velocityMultiplier := 1 }

/-- A configuration with rotating walls: `wallRestitution = 0.8`, `friction = 0.5`,
`rotationSpeed = 1`. -/
def spinConfig (K : Type) [LinearOrderedField K] : Config K :=
  { sphereCount := 1, sphereRadius := 1, variableMass := false, wallRestitution := 4 / 5,
    sphereRestitution := 1, gravity := 0,
    friction := 1 / 2, airResistance := 0, rotationSpeed := 1, velocityMultiplier := 1 }

/-- A hexagon centred at `(-1, 0)`. -/
def spinHexagon (K : Type) [LinearOrderedField K] : Hexagon K :=
  { center := ⟨-1, 0⟩, radius := 1, angle := 0 }

/-- A body of radius 1 at `(0, 1/2)` with velocity `(1, 2)`. -/
def spinBody (K : Type) [LinearOrderedField K] : Sphere K :=
  { position := ⟨0, 1 / 2⟩, velocity := ⟨1, 2⟩, radius := 1, mass := 1, color := scenarioColor }

/-- The hexagon of the wall scenario: radius 100, centred at `(0, 0)`, angle 0. -/
def hex100 (K : Type) [LinearOrderedField K] : Hexagon K :=
  { center := ⟨0, 0⟩, radius := 100, angle := 0 }

/-- The six vertices of `hex100`, written with `r3` for the square root of 3. -/
def hex100Vertices (r3 : K) : List (Vec K) :=
  [⟨100, 0⟩, ⟨50, 50 * r3⟩, ⟨-50, 50 * r3⟩, ⟨-100, 0⟩, ⟨-50, -(50 * r3)⟩, ⟨50, -(50 * r3)⟩]

/-- The body of the wall scenario: radius 5 at `(98, 0)` with velocity `(50, 0)`. -/
def wallScenarioBody (K : Type) [LinearOrderedField K] : Sphere K :=
  { position := ⟨98, 0⟩, velocity := ⟨50, 0⟩, radius := 5, mass := 25, color := scenarioColor }

/-- A body of radius 5 at the centre with velocity `(10, 0)`. -/
def driftBody (K : Type) [LinearOrderedField K] : Sphere K :=
  { position := ⟨0, 0⟩, velocity := ⟨10, 0⟩, radius := 5, mass := 25, color := scenarioColor }

/-- A configuration with gravity 10, both restitutions 1, no friction, no drag, no rotation. -/
def gravityConfig (K : Type) [LinearOrderedField K] : Config K :=
  { sphereCount := 1, sphereRadius := 5, variableMass := false, wallRestitution := 1,
    sphereRestitution := 1, gravity := 10,
    friction := 0, airResistance := 0, rotationSpeed := 0, velocityMultiplier := 1 }

/-- A body of radius 5 and mass 25 at rest at the centre. -/
def restBody (K : Type) [LinearOrderedField K] : Sphere K :=
  { position := ⟨0, 0⟩, velocity := ⟨0, 0⟩, radius := 5, mass := 25, color := scenarioColor }

/-- A body of radius 5 and mass 40 at rest at `(0, 80)`. -/
def crowdLow (K : Type) [LinearOrderedField K] : Sphere K :=
  { position := ⟨0, 80⟩, velocity := ⟨0, 0⟩, radius := 5, mass := 40, color := scenarioColor }

/-- A body of radius 5 and mass 15 at rest at `(0, 81)`. -/
def crowdHigh (K : Type) [LinearOrderedField K] : Sphere K :=
  { position := ⟨0, 81⟩, velocity := ⟨0, 0⟩, radius := 5, mass := 15, color := scenarioColor }

/-! ## Momentum and the geometry of the edges -/

/-- Total linear momentum `Σ mass·velocity` of a list of spheres. -/
def totalMomentum (spheres : List (Sphere K)) : Vec K :=
  ⟨(spheres.map fun s => s.mass * s.velocity.x).sum,
    (spheres.map fun s => s.mass * s.velocity.y).sum⟩

/-- A far-away companion of `scenarioBodyA`: radius 5 at `(98, 0)`. -/
def farBody (K : Type) [LinearOrderedField K] : Sphere K :=
  { position := ⟨98, 0⟩, velocity := ⟨-3, 4⟩, radius := 5, mass := 25, color := scenarioColor }

/-- The point of the circle of the hexagon at angle `α`: what `getHexagonVertices` pushes for
`angle = α`. -/
def vertexAt (M : JSMath K) (hexagon : Hexagon K) (α : K) : Vec K :=
  Vec.createVector (hexagon.center.x + hexagon.radius * M.cos α)
    (hexagon.center.y + hexagon.radius * M.sin α)

/-- The unit direction from the centre of the hexagon to the midpoint of edge `k`: angle
`hexagon.angle + (π/3)·k + π/6`. -/
def edgeDirection (M : JSMath K) (hexagon : Hexagon K) (k : Nat) : Vec K :=
  ⟨M.cos (hexagon.angle + M.pi / 3 * (k : K) + M.pi / 6),
    M.sin (hexagon.angle + M.pi / 3 * (k : K) + M.pi / 6)⟩

/-- The number `offset.dot(outwardNormal)` that `isInsideHexagon` compares with `-padding`
for the edge `current → next`: the signed distance of `point` to the edge line. -/
def edgeDistance (M : JSMath K) (current next point : Vec K) : K :=
  let edge := Vec.sub next current
  let outwardNormal := Vec.createVector edge.y (-edge.x)
  Vec.dot (Vec.sub point current) (Vec.div outwardNormal (Vec.mag M outwardNormal))

/-! ## Random placement -/

/-- `Math.round` and the remainder operator `%` on numbers, which an ordered field does not
provide; only the colour conversion uses them. -/
structure JSNumeric (K : Type) where
  round : K → Int
  rem : K → K → K

/-- One call of the random source: `draws` are the numbers the successive calls return; the
call returns the first and leaves the rest. -/
def nextDraw (draws : Nat → K) : K × (Nat → K) := (draws 0, fun n => draws (n + 1))

/-- The p5 call `random(max)`: the draw times `max`. -/
def randomUpTo (draws : Nat → K) (max : K) : K × (Nat → K) :=
  ((nextDraw draws).1 * max, (nextDraw draws).2)

/-- The p5 call `random(min, max)`: the bounds are swapped when `min > max`, then
`rand * (max - min) + min`. -/
def randomBetween (draws : Nat → K) (min max : K) : K × (Nat → K) :=
  (if min > max then (nextDraw draws).1 * (min - max) + max
    else (nextDraw draws).1 * (max - min) + min,
   (nextDraw draws).2)

/-- The p5 constant `TWO_PI`. -/
def twoPi (M : JSMath K) : K := M.pi * 2

/-- The p5 call `p5.Vector.random2D()`: the unit vector at a random angle. -/
def random2D (M : JSMath K) (draws : Nat → K) : Vec K × (Nat → K) :=
  (⟨M.cos ((nextDraw draws).1 * twoPi M), M.sin ((nextDraw draws).1 * twoPi M)⟩,
   (nextDraw draws).2)

/-- The p5 call `p5.Vector.dist(v1, v2)`. -/
def Vec.dist (M : JSMath K) (v1 v2 : Vec K) : K := Vec.mag M (Vec.sub v2 v1)

/-- The function `hslToRgb(h, s, l)`. -/
def hslToRgb (A : JSNumeric K) (h s l : K) : Color :=
  let s1 := s / 100
  let l1 := l / 100
  let k := fun (n : K) => A.rem (n + h / 30) 12
  let a := s1 * min l1 (1 - l1)
  let f := fun (n : K) => l1 - a * max (-1) (min (k n - 3) (min (9 - k n) 1))
  { r := A.round (255 * f 0), g := A.round (255 * f 8), b := A.round (255 * f 4) }

/-- The function `randomSphereColor()`. -/
def randomSphereColor (A : JSNumeric K) (draws : Nat → K) : Color × (Nat → K) :=
  (hslToRgb A (randomBetween draws 180 250).1 65 60, (randomBetween draws 180 250).2)

/-- The function `computeSphereMass(radius)`. -/
def computeSphereMass (cfg : Config K) (radius : K) (draws : Nat → K) : K × (Nat → K) :=
  let baseMass := radius * radius
  if cfg.variableMass = false then (baseMass, draws)
  else (baseMass * (randomBetween draws (3 / 5) (8 / 5)).1, (randomBetween draws (3 / 5) (8 / 5)).2)

/-- The loop of `randomPointInsideHexagon()` with `remaining` attempts left. -/
def randomPointLoop (M : JSMath K) (cfg : Config K) (hexagon : Hexagon K) :
    Nat → (Nat → K) → Option (Vec K) × (Nat → K)
  | 0, draws => (none, draws)
  | remaining + 1, draws =>
    let angle := randomUpTo draws (twoPi M)
    let radius := randomBetween angle.2 0 (hexagon.radius * (9 / 10))
    let candidate := Vec.createVector (hexagon.center.x + radius.1 * M.cos angle.1)
      (hexagon.center.y + radius.1 * M.sin angle.1)
    if isInsideHexagon M hexagon candidate cfg.sphereRadius = true then (some candidate, radius.2)
    else randomPointLoop M cfg hexagon remaining radius.2

/-- The function `randomPointInsideHexagon()`: `maxAttempts = 200`; `none` is `null`. -/
def randomPointInsideHexagon (M : JSMath K) (cfg : Config K) (hexagon : Hexagon K)
    (draws : Nat → K) : Option (Vec K) × (Nat → K) :=
  randomPointLoop M cfg hexagon 200 draws

/-- The function `isPositionValid(position, radius)`. -/
def isPositionValid (M : JSMath K) (hexagon : Hexagon K) (spheres : List (Sphere K))
    (position : Vec K) (radius : K) : Bool :=
  if isInsideHexagon M hexagon position radius = false then false
  else spheres.all fun sphere =>
    if Vec.dist M position sphere.position < sphere.radius + radius + 2 then false else true

/-- The second operand of the `while` test of `initializeSpheres`:
`position === null || !isPositionValid(position, radius)`. -/
def positionRejected (M : JSMath K) (hexagon : Hexagon K) (spheres : List (Sphere K))
    (radius : K) : Option (Vec K) → Bool
  | none => true
  | some position => !isPositionValid M hexagon spheres position radius

/-- The `do … while` loop of `initializeSpheres`; `remaining` is `attemptsLimit - attempts`
after the increment of this run, so the loop goes on only while it is positive. -/
def positionLoop (M : JSMath K) (cfg : Config K) (hexagon : Hexagon K)
    (spheres : List (Sphere K)) (radius : K) :
    Nat → (Nat → K) → Option (Vec K) × (Nat → K)
  | 0, draws => randomPointInsideHexagon M cfg hexagon draws
  | remaining + 1, draws =>
    let found := randomPointInsideHexagon M cfg hexagon draws
    if positionRejected M hexagon spheres radius found.1 = true then
      positionLoop M cfg hexagon spheres radius remaining found.2
    else found

/-- One iteration of the outer loop of `initializeSpheres`: `attemptsLimit = 5000`. -/
def spawnSphere (M : JSMath K) (A : JSNumeric K) (cfg : Config K) (hexagon : Hexagon K)
    (spheres : List (Sphere K)) (draws : Nat → K) : List (Sphere K) × (Nat → K) :=
  let radius := cfg.sphereRadius
  let found := positionLoop M cfg hexagon spheres radius 4999 draws
  match found.1 with
  | none => (spheres, found.2)
  | some position =>
    let speed := randomBetween found.2 (1 / 5) 1
    let randomSpeed := speed.1 * cfg.velocityMultiplier * 120
    let unit := random2D M speed.2
    let direction := Vec.mult unit.1 randomSpeed
    let mass := computeSphereMass cfg radius unit.2
    let color := randomSphereColor A mass.2
    (spheres ++ [{ position := position, velocity := direction, radius := radius,
                   mass := mass.1, color := color.1 }], color.2)

/-- The function `initializeSpheres()`: the list built from `spheres = []` and the draws left
over. -/
def initializeSpheres (M : JSMath K) (A : JSNumeric K) (cfg : Config K) (hexagon : Hexagon K)
    (draws : Nat → K) : List (Sphere K) × (Nat → K) :=
  (List.range cfg.sphereCount).foldl
    (fun st _ => spawnSphere M A cfg hexagon st.1 st.2) ([], draws)

/-- The body of the loop of `repositionSpheresInsideHexagon` for one sphere. -/
def repositionSphere (M : JSMath K) (cfg : Config K) (hexagon : Hexagon K) (sphere : Sphere K)
    (draws : Nat → K) : Sphere K × (Nat → K) :=
  if isInsideHexagon M hexagon sphere.position sphere.radius = false then
    match (randomPointInsideHexagon M cfg hexagon draws).1 with
    | some newPosition =>
      ({ sphere with position := newPosition }, (randomPointInsideHexagon M cfg hexagon draws).2)
    | none => (sphere, (randomPointInsideHexagon M cfg hexagon draws).2)
  else (sphere, draws)

/-- The function `repositionSpheresInsideHexagon()`: the spheres are visited in order, each
updated in place. -/
def repositionSpheresInsideHexagon (M : JSMath K) (cfg : Config K) (hexagon : Hexagon K) :
    List (Sphere K) → (Nat → K) → List (Sphere K) × (Nat → K)
  | [], draws => ([], draws)
  | sphere :: rest, draws =>
    let moved := repositionSphere M cfg hexagon sphere draws
    let others := repositionSpheresInsideHexagon M cfg hexagon rest moved.2
    (moved.1 :: others.1, others.2)

/-! ## Data of the placement scenario -/

/-- The random source that always returns 0. -/
def zeroDraws (K : Type) [LinearOrderedField K] : Nat → K := fun _ => 0

/-- A configuration asking for two bodies of radius 60 (fixed mass). -/
def crampedConfig (K : Type) [LinearOrderedField K] : Config K :=
  { sphereCount := 2, sphereRadius := 60, variableMass := false, wallRestitution := 4 / 5,
    sphereRestitution := 1, gravity := 0, friction := 0, airResistance := 0,
    rotationSpeed := 0, velocityMultiplier := 1 }

/-- What `repositionSpheresInsideHexagon` may do to one body: everything but the position is
kept, the position is kept when the body already passes the inside test with its radius,
and a changed position passes the test with padding `config.sphereRadius`. -/
def RepositionFrame (M : JSMath K) (cfg : Config K) (hexagon : Hexagon K)
    (before after : Sphere K) : Prop :=
  after.velocity = before.velocity ∧ after.radius = before.radius ∧
    after.mass = before.mass ∧ after.color = before.color ∧
    (isInsideHexagon M hexagon before.position before.radius = true →
      after.position = before.position) ∧
    (after.position ≠ before.position →
      isInsideHexagon M hexagon after.position cfg.sphereRadius = true ∧
      (before.radius ≤ cfg.sphereRadius →
        isInsideHexagon M hexagon after.position after.radius = true))

/-! ## Exact square roots -/

theorem sqrt_nonneg_of_exact {M : JSMath K} (hM : M.SqrtExact) {x : K} (hx : 0 ≤ x) :
    0 ≤ M.sqrt x := (hM x hx).1

theorem sqrt_mul_self_of_exact {M : JSMath K} (hM : M.SqrtExact) {x : K} (hx : 0 ≤ x) :
    M.sqrt x * M.sqrt x = x := (hM x hx).2

theorem sqrt_pos_of_exact {M : JSMath K} (hM : M.SqrtExact) {x : K} (hx : 0 < x) :
    0 < M.sqrt x := by
  have h1 := sqrt_nonneg_of_exact hM hx.le
  have h2 := sqrt_mul_self_of_exact hM hx.le
  rcases h1.eq_or_lt with h | h
  · rw [← h] at h2; simp at h2; exact absurd h2.symm hx.ne'
  · exact h

theorem sqrt_zero_of_exact {M : JSMath K} (hM : M.SqrtExact) : M.sqrt 0 = 0 := by
  have h2 := sqrt_mul_self_of_exact hM (le_refl (0 : K))
  exact mul_self_eq_zero.mp h2

theorem sqrt_of_mul_self {M : JSMath K} (hM : M.SqrtExact) {y : K} (hy : 0 ≤ y) :
    M.sqrt (y * y) = y := by
  have h0 : 0 ≤ y * y := mul_self_nonneg y
  have h1 := sqrt_nonneg_of_exact hM h0
  have h2 := sqrt_mul_self_of_exact hM h0
  nlinarith [mul_self_nonneg (M.sqrt (y * y) - y), mul_nonneg h1 hy]

theorem magSq_nonneg (v : Vec K) : 0 ≤ Vec.magSq v := by
  unfold Vec.magSq; nlinarith [mul_self_nonneg v.x, mul_self_nonneg v.y]

theorem magSq_eq_zero_iff (v : Vec K) : Vec.magSq v = 0 ↔ v = ⟨0, 0⟩ := by
  constructor
  · intro h
    unfold Vec.magSq at h
    have hx : v.x = 0 := by nlinarith [mul_self_nonneg v.x, mul_self_nonneg v.y]
    have hy : v.y = 0 := by nlinarith [mul_self_nonneg v.x, mul_self_nonneg v.y]
    exact Vec.ext hx hy
  · intro h; rw [h]; simp [Vec.magSq]

theorem mag_eq_zero_iff {M : JSMath K} (hM : M.SqrtExact) (v : Vec K) :
    Vec.mag M v = 0 ↔ Vec.magSq v = 0 := by
  unfold Vec.mag
  constructor
  · intro h
    have h2 := sqrt_mul_self_of_exact hM (magSq_nonneg v)
    rw [h] at h2; simpa using h2.symm
  · intro h; rw [h]; exact sqrt_zero_of_exact hM

theorem mag_nonneg {M : JSMath K} (hM : M.SqrtExact) (v : Vec K) : 0 ≤ Vec.mag M v :=
  sqrt_nonneg_of_exact hM (magSq_nonneg v)

theorem mag_mul_self {M : JSMath K} (hM : M.SqrtExact) (v : Vec K) :
    Vec.mag M v * Vec.mag M v = Vec.magSq v :=
  sqrt_mul_self_of_exact hM (magSq_nonneg v)

theorem sub_eq_zero_vec_iff (a b : Vec K) : Vec.sub b a = ⟨0, 0⟩ ↔ a = b := by
  constructor
  · intro h
    have hx : b.x - a.x = 0 := congrArg Vec.x h
    have hy : b.y - a.y = 0 := congrArg Vec.y h
    exact Vec.ext (by linarith) (by linarith)
  · intro h; subst h; simp [Vec.sub]

/-! ## The contact frame of a pair -/

theorem contact_of_ne {M : JSMath K} (hM : M.SqrtExact) (a b : Sphere K)
    (h : a.position ≠ b.position) :
    contactDelta M a b = Vec.sub b.position a.position ∧
      contactDistance M a b = Vec.mag M (Vec.sub b.position a.position) := by
  have hne : Vec.mag M (Vec.sub b.position a.position) ≠ 0 := by
    intro h0
    rw [mag_eq_zero_iff hM, magSq_eq_zero_iff, sub_eq_zero_vec_iff] at h0
    exact h h0
  simp [contactDelta, contactDistance, hne]

theorem contact_of_eq {M : JSMath K} (hM : M.SqrtExact) (a b : Sphere K)
    (h : a.position = b.position) :
    contactDelta M a b = ⟨1 / 10000, 0⟩ ∧ contactDistance M a b = 1 / 10000 := by
  have h0 : Vec.mag M (Vec.sub b.position a.position) = 0 := by
    rw [mag_eq_zero_iff hM, magSq_eq_zero_iff, sub_eq_zero_vec_iff]; exact h
  have hd : contactDelta M a b = ⟨1 / 10000, 0⟩ := by simp [contactDelta, h0]
  refine ⟨hd, ?_⟩
  have : contactDistance M a b = Vec.mag M (contactDelta M a b) := by
    simp [contactDistance, h0]
  rw [this, hd]
  have hsq : Vec.magSq (⟨1 / 10000, 0⟩ : Vec K) = (1 / 10000) * (1 / 10000) := by
    simp [Vec.magSq]
  unfold Vec.mag
  rw [hsq]
  exact sqrt_of_mul_self hM (by norm_num)

theorem contactDistance_mul_self {M : JSMath K} (hM : M.SqrtExact) (a b : Sphere K) :
    contactDistance M a b * contactDistance M a b = Vec.magSq (contactDelta M a b) := by
  by_cases h : a.position = b.position
  · obtain ⟨h1, h2⟩ := contact_of_eq hM a b h
    rw [h1, h2]; simp [Vec.magSq]
  · obtain ⟨h1, h2⟩ := contact_of_ne hM a b h
    rw [h1, h2]; exact mag_mul_self hM _

theorem contactDistance_pos {M : JSMath K} (hM : M.SqrtExact) (a b : Sphere K) :
    0 < contactDistance M a b := by
  by_cases h : a.position = b.position
  · rw [(contact_of_eq hM a b h).2]; norm_num
  · rw [(contact_of_ne hM a b h).2]
    have hne : Vec.mag M (Vec.sub b.position a.position) ≠ 0 := by
      intro h0
      rw [mag_eq_zero_iff hM, magSq_eq_zero_iff, sub_eq_zero_vec_iff] at h0
      exact h h0
    exact lt_of_le_of_ne (mag_nonneg hM _) (Ne.symm hne)

theorem contactNormal_components {M : JSMath K} (hM : M.SqrtExact) (a b : Sphere K) :
    contactNormal M a b =
      ⟨(contactDelta M a b).x / contactDistance M a b,
       (contactDelta M a b).y / contactDistance M a b⟩ := by
  have hd := (contactDistance_pos hM a b).ne'
  simp [contactNormal, Vec.div, hd]

theorem contactNormal_unit {M : JSMath K} (hM : M.SqrtExact) (a b : Sphere K) :
    Vec.dot (contactNormal M a b) (contactNormal M a b) = 1 := by
  have hd := (contactDistance_pos hM a b).ne'
  have hsq := contactDistance_mul_self hM a b
  rw [contactNormal_components hM]
  unfold Vec.magSq at hsq
  simp only [Vec.dot]
  field_simp
  linarith

theorem contactDelta_eq_mult {M : JSMath K} (hM : M.SqrtExact) (a b : Sphere K) :
    contactDelta M a b = Vec.mult (contactNormal M a b) (contactDistance M a b) := by
  have hd := (contactDistance_pos hM a b).ne'
  rw [contactNormal_components hM]
  apply Vec.ext <;> simp [Vec.mult] <;> field_simp

/-! ## One visit of a pair -/

theorem resolvePair_position_fst (M : JSMath K) (cfg : Config K) (a b : Sphere K)
    (h : PairOverlaps M a b) :
    (resolvePair M cfg a b).1.position =
      Vec.add a.position (Vec.mult (contactNormal M a b)
        (-(a.radius + b.radius - contactDistance M a b) * (b.mass / (a.mass + b.mass)))) := by
  unfold PairOverlaps at h
  unfold resolvePair
  simp only [h, and_self, if_true]
  split_ifs <;> rfl

theorem resolvePair_position_snd (M : JSMath K) (cfg : Config K) (a b : Sphere K)
    (h : PairOverlaps M a b) :
    (resolvePair M cfg a b).2.position =
      Vec.add b.position (Vec.mult (contactNormal M a b)
        ((a.radius + b.radius - contactDistance M a b) * (a.mass / (a.mass + b.mass)))) := by
  unfold PairOverlaps at h
  unfold resolvePair
  simp only [h, and_self, if_true]
  split_ifs <;> rfl

theorem resolvePair_velocity_approaching (M : JSMath K) (cfg : Config K) (a b : Sphere K)
    (h : PairOverlaps M a b)
    (hs : Vec.dot (Vec.sub b.velocity a.velocity) (contactNormal M a b) < 0) :
    (resolvePair M cfg a b).1.velocity =
        Vec.sub a.velocity (Vec.div (Vec.mult (contactNormal M a b)
          (impulseMagnitude cfg a b
            (Vec.dot (Vec.sub b.velocity a.velocity) (contactNormal M a b)))) a.mass) ∧
      (resolvePair M cfg a b).2.velocity =
        Vec.add b.velocity (Vec.div (Vec.mult (contactNormal M a b)
          (impulseMagnitude cfg a b
            (Vec.dot (Vec.sub b.velocity a.velocity) (contactNormal M a b)))) b.mass) := by
  unfold PairOverlaps at h
  unfold resolvePair
  simp only [h, and_self, if_true, hs]

theorem resolvePair_velocity_separating (M : JSMath K) (cfg : Config K) (a b : Sphere K)
    (hs : ¬ Vec.dot (Vec.sub b.velocity a.velocity) (contactNormal M a b) < 0) :
    (resolvePair M cfg a b).1.velocity = a.velocity ∧
      (resolvePair M cfg a b).2.velocity = b.velocity := by
  unfold resolvePair
  by_cases h : contactDistance M a b < a.radius + b.radius ∧ contactDistance M a b > 0
  · simp only [h, and_self, if_true, hs, if_false]
  · simp only [h, if_false, and_self]

theorem resolvePair_no_overlap (M : JSMath K) (cfg : Config K) (a b : Sphere K)
    (h : ¬ PairOverlaps M a b) : resolvePair M cfg a b = (a, b) := by
  unfold PairOverlaps at h
  unfold resolvePair
  simp only [h, if_false]

theorem pairOverlaps_of_distance {M : JSMath K} (hM : M.SqrtExact) (a b : Sphere K)
    (h0 : 0 < Vec.mag M (Vec.sub b.position a.position))
    (hlt : Vec.mag M (Vec.sub b.position a.position) < a.radius + b.radius) :
    a.position ≠ b.position ∧ PairOverlaps M a b ∧
      contactDelta M a b = Vec.sub b.position a.position ∧
      contactDistance M a b = Vec.mag M (Vec.sub b.position a.position) := by
  have hne : a.position ≠ b.position := by
    intro h
    have : Vec.mag M (Vec.sub b.position a.position) = 0 := by
      rw [mag_eq_zero_iff hM, magSq_eq_zero_iff, sub_eq_zero_vec_iff]; exact h
    exact h0.ne' this
  obtain ⟨h1, h2⟩ := contact_of_ne hM a b hne
  refine ⟨hne, ⟨?_, ?_⟩, h1, h2⟩
  · rw [h2]; exact hlt
  · rw [h2]; exact h0

/-- After the visit of an overlapping pair with positive masses at distinct positions the
vector from centre `i` to centre `j` is the contact normal scaled by `radius_i + radius_j`. -/
theorem resolvePair_separation {M : JSMath K} (hM : M.SqrtExact) (cfg : Config K)
    (a b : Sphere K) (hma : 0 < a.mass) (hmb : 0 < b.mass) (hp : a.position ≠ b.position)
    (h : PairOverlaps M a b) :
    Vec.sub (resolvePair M cfg a b).2.position (resolvePair M cfg a b).1.position =
      Vec.mult (contactNormal M a b) (a.radius + b.radius) := by
  rw [resolvePair_position_fst M cfg a b h, resolvePair_position_snd M cfg a b h]
  have hd := contactDelta_eq_mult hM a b
  have hx : b.position.x - a.position.x = (Vec.sub b.position a.position).x := rfl
  have hy : b.position.y - a.position.y = (Vec.sub b.position a.position).y := rfl
  have hT : a.mass + b.mass ≠ 0 := by positivity
  obtain ⟨h1, h2⟩ := contact_of_ne hM a b hp
  rw [h1] at hd
  have hdx : b.position.x - a.position.x
      = (contactNormal M a b).x * contactDistance M a b := by
    rw [hx, hd]; simp [Vec.mult]
  have hdy : b.position.y - a.position.y
      = (contactNormal M a b).y * contactDistance M a b := by
    rw [hy, hd]; simp [Vec.mult]
  apply Vec.ext
  · simp only [Vec.sub, Vec.add, Vec.mult]
    have : b.position.x = a.position.x + (contactNormal M a b).x * contactDistance M a b := by
      linarith
    rw [this]; field_simp; ring
  · simp only [Vec.sub, Vec.add, Vec.mult]
    have : b.position.y = a.position.y + (contactNormal M a b).y * contactDistance M a b := by
      linarith
    rw [this]; field_simp; ring

theorem mag_mult_unit {M : JSMath K} (hM : M.SqrtExact) (n : Vec K) (hn : Vec.dot n n = 1)
    (c : K) (hc : 0 ≤ c) : Vec.mag M (Vec.mult n c) = c := by
  have : Vec.magSq (Vec.mult n c) = c * c := by
    unfold Vec.dot at hn
    simp only [Vec.magSq, Vec.mult]
    calc n.x * c * (n.x * c) + n.y * c * (n.y * c)
        = (n.x * n.x + n.y * n.y) * (c * c) := by ring
      _ = c * c := by rw [hn, one_mul]
  unfold Vec.mag
  rw [this]
  exact sqrt_of_mul_self hM hc

theorem resolvePair_velocity_formula (M : JSMath K) (cfg : Config K) (a b : Sphere K)
    (hma : 0 < a.mass) (hmb : 0 < b.mass) (h : PairOverlaps M a b)
    (hs : speedAlongNormal M a b < 0) :
    (resolvePair M cfg a b).1.velocity =
        Vec.sub a.velocity (Vec.mult (contactNormal M a b)
          (impulseMagnitude cfg a b (speedAlongNormal M a b) / a.mass)) ∧
      (resolvePair M cfg a b).2.velocity =
        Vec.add b.velocity (Vec.mult (contactNormal M a b)
          (impulseMagnitude cfg a b (speedAlongNormal M a b) / b.mass)) := by
  obtain ⟨h1, h2⟩ := resolvePair_velocity_approaching M cfg a b h hs
  rw [h1, h2]
  unfold speedAlongNormal
  constructor
  · apply Vec.ext <;> simp [Vec.sub, Vec.div, Vec.mult, hma.ne'] <;> ring
  · apply Vec.ext <;> simp [Vec.add, Vec.div, Vec.mult, hmb.ne'] <;> ring

theorem real_sqrtExact : (JSMath.mk Real.sqrt Real.cos Real.sin Real.pi).SqrtExact := by
  intro x hx
  exact ⟨Real.sqrt_nonneg x, Real.mul_self_sqrt hx⟩

theorem scenario_distance :
    Vec.mag (JSMath.mk Real.sqrt Real.cos Real.sin Real.pi)
      (Vec.sub (scenarioBodyB ℝ).position (scenarioBodyA ℝ).position) = 3 / 2 := by
  have h : Vec.magSq (Vec.sub (scenarioBodyB ℝ).position (scenarioBodyA ℝ).position)
      = (3 / 2) * (3 / 2) := by
    simp [Vec.magSq, Vec.sub, scenarioBodyA, scenarioBodyB]
  unfold Vec.mag
  rw [h]
  exact sqrt_of_mul_self real_sqrtExact (by norm_num)

theorem scenario_contact :
    contactDistance (JSMath.mk Real.sqrt Real.cos Real.sin Real.pi)
        (scenarioBodyA ℝ) (scenarioBodyB ℝ) = 3 / 2 ∧
      contactNormal (JSMath.mk Real.sqrt Real.cos Real.sin Real.pi)
        (scenarioBodyA ℝ) (scenarioBodyB ℝ) = ⟨1, 0⟩ := by
  have hne : (scenarioBodyA ℝ).position ≠ (scenarioBodyB ℝ).position := by
    intro h
    have := congrArg Vec.x h
    norm_num [scenarioBodyA, scenarioBodyB] at this
  obtain ⟨h1, h2⟩ := contact_of_ne real_sqrtExact _ _ hne
  rw [scenario_distance] at h2
  refine ⟨h2, ?_⟩
  rw [contactNormal_components real_sqrtExact, h1, h2]
  apply Vec.ext <;> norm_num [Vec.sub, scenarioBodyA, scenarioBodyB]

/-! ## Claims on the pairwise resolver -/

/-- C1. Equal positive masses, overlapping (`0 < distance < radius_i + radius_j`),
approaching, `sphereRestitution = 1`: the visit of the pair swaps the velocity components
along the contact normal and leaves the tangential parts as they were. -/
theorem equal_mass_elastic_swap {M : JSMath K} (hM : M.SqrtExact) (cfg : Config K)
    (a b : Sphere K) (hm : 0 < a.mass) (hmass : a.mass = b.mass)
    (h0 : 0 < Vec.mag M (Vec.sub b.position a.position))
    (hlt : Vec.mag M (Vec.sub b.position a.position) < a.radius + b.radius)
    (happ : speedAlongNormal M a b < 0) (he : cfg.sphereRestitution = 1) :
    Vec.dot (resolvePair M cfg a b).1.velocity (contactNormal M a b)
        = Vec.dot b.velocity (contactNormal M a b) ∧
      Vec.dot (resolvePair M cfg a b).2.velocity (contactNormal M a b)
        = Vec.dot a.velocity (contactNormal M a b) ∧
      tangentialPart (resolvePair M cfg a b).1.velocity (contactNormal M a b)
        = tangentialPart a.velocity (contactNormal M a b) ∧
      tangentialPart (resolvePair M cfg a b).2.velocity (contactNormal M a b)
        = tangentialPart b.velocity (contactNormal M a b) := by
  obtain ⟨-, hov, -, -⟩ := pairOverlaps_of_distance hM a b h0 hlt
  have hmb : 0 < b.mass := hmass ▸ hm
  obtain ⟨h1, h2⟩ := resolvePair_velocity_formula M cfg a b hm hmb hov happ
  have hn := contactNormal_unit hM a b
  have hJa : impulseMagnitude cfg a b (speedAlongNormal M a b) / a.mass
      = -speedAlongNormal M a b := by
    unfold impulseMagnitude
    rw [he, ← hmass]
    field_simp
    ring
  have hJb : impulseMagnitude cfg a b (speedAlongNormal M a b) / b.mass
      = -speedAlongNormal M a b := by
    rw [← hmass]; exact hJa
  rw [h1, h2, hJa, hJb]
  have hn' : (contactNormal M a b).x * (contactNormal M a b).x
      + (contactNormal M a b).y * (contactNormal M a b).y = 1 := hn
  unfold speedAlongNormal
  generalize contactNormal M a b = n at hn' ⊢
  refine ⟨?_, ?_, ?_, ?_⟩
  · simp only [Vec.dot, Vec.sub, Vec.mult]
    linear_combination
      ((b.velocity.x - a.velocity.x) * n.x + (b.velocity.y - a.velocity.y) * n.y) * hn'
  · simp only [Vec.dot, Vec.sub, Vec.add, Vec.mult]
    linear_combination
      (-((b.velocity.x - a.velocity.x) * n.x + (b.velocity.y - a.velocity.y) * n.y)) * hn'
  · apply Vec.ext
    · simp only [tangentialPart, Vec.dot, Vec.sub, Vec.mult]
      linear_combination
        (-n.x * ((b.velocity.x - a.velocity.x) * n.x + (b.velocity.y - a.velocity.y) * n.y))
          * hn'
    · simp only [tangentialPart, Vec.dot, Vec.sub, Vec.mult]
      linear_combination
        (-n.y * ((b.velocity.x - a.velocity.x) * n.x + (b.velocity.y - a.velocity.y) * n.y))
          * hn'
  · apply Vec.ext
    · simp only [tangentialPart, Vec.dot, Vec.sub, Vec.add, Vec.mult]
      linear_combination
        (n.x * ((b.velocity.x - a.velocity.x) * n.x + (b.velocity.y - a.velocity.y) * n.y))
          * hn'
    · simp only [tangentialPart, Vec.dot, Vec.sub, Vec.add, Vec.mult]
      linear_combination
        (n.y * ((b.velocity.x - a.velocity.x) * n.x + (b.velocity.y - a.velocity.y) * n.y))
          * hn'

theorem scenario_overlaps :
    PairOverlaps (JSMath.mk Real.sqrt Real.cos Real.sin Real.pi)
      (scenarioBodyA ℝ) (scenarioBodyB ℝ) := by
  unfold PairOverlaps
  rw [scenario_contact.1]
  norm_num [scenarioBodyA, scenarioBodyB]

theorem scenario_approaching :
    speedAlongNormal (JSMath.mk Real.sqrt Real.cos Real.sin Real.pi)
      (scenarioBodyA ℝ) (scenarioBodyB ℝ) = -2 := by
  unfold speedAlongNormal
  rw [scenario_contact.2]
  norm_num [Vec.dot, Vec.sub, scenarioBodyA, scenarioBodyB]

/-- Witness of C1: masses 1 and 1, positions `(0,0)` and `(1.5,0)`, radius 1 each,
velocities `(1,0)` and `(-1,0)`, restitution 1 give the velocities `(-1,0)` and `(1,0)`. -/
theorem equal_mass_elastic_swap_witness :
    speedAlongNormal (JSMath.mk Real.sqrt Real.cos Real.sin Real.pi)
        (scenarioBodyA ℝ) (scenarioBodyB ℝ) < 0 ∧
      (resolvePair (JSMath.mk Real.sqrt Real.cos Real.sin Real.pi)
        (scenarioConfig ℝ (4 / 5) 1 0) (scenarioBodyA ℝ) (scenarioBodyB ℝ)).1.velocity
          = ⟨-1, 0⟩ ∧
      (resolvePair (JSMath.mk Real.sqrt Real.cos Real.sin Real.pi)
        (scenarioConfig ℝ (4 / 5) 1 0) (scenarioBodyA ℝ) (scenarioBodyB ℝ)).2.velocity
          = ⟨1, 0⟩ := by
  have happ : speedAlongNormal (JSMath.mk Real.sqrt Real.cos Real.sin Real.pi)
      (scenarioBodyA ℝ) (scenarioBodyB ℝ) < 0 := by
    rw [scenario_approaching]; norm_num
  have H := equal_mass_elastic_swap real_sqrtExact (scenarioConfig ℝ (4 / 5) 1 0)
    (scenarioBodyA ℝ) (scenarioBodyB ℝ) (by norm_num [scenarioBodyA]) rfl
    (by rw [scenario_distance]; norm_num)
    (by rw [scenario_distance]; norm_num [scenarioBodyA, scenarioBodyB]) happ rfl
  rw [scenario_contact.2] at H
  obtain ⟨H1, H2, H3, H4⟩ := H
  refine ⟨happ, ?_, ?_⟩
  · have hy := congrArg Vec.y H3
    apply Vec.ext
    · simpa [Vec.dot, scenarioBodyB] using H1
    · simpa [tangentialPart, Vec.dot, Vec.sub, Vec.mult, scenarioBodyA] using hy
  · have hy := congrArg Vec.y H4
    apply Vec.ext
    · simpa [Vec.dot, scenarioBodyA] using H2
    · simpa [tangentialPart, Vec.dot, Vec.sub, Vec.mult, scenarioBodyB] using hy

/-- C2. For a pair with positive masses whose centres are at a distance `d` with
`0 < d < radius_i + radius_j` (so the positions are distinct), the distance between the
two centres right after the visit of the pair is `radius_i + radius_j`. -/
theorem pair_overlap_fully_corrected {M : JSMath K} (hM : M.SqrtExact) (cfg : Config K)
    (a b : Sphere K) (hma : 0 < a.mass) (hmb : 0 < b.mass)
    (h0 : 0 < Vec.mag M (Vec.sub b.position a.position))
    (hlt : Vec.mag M (Vec.sub b.position a.position) < a.radius + b.radius) :
    Vec.mag M (Vec.sub (resolvePair M cfg a b).2.position (resolvePair M cfg a b).1.position)
      = a.radius + b.radius := by
  obtain ⟨hne, hov, -, -⟩ := pairOverlaps_of_distance hM a b h0 hlt
  rw [resolvePair_separation hM cfg a b hma hmb hne hov]
  exact mag_mult_unit hM _ (contactNormal_unit hM a b) _ (le_of_lt (lt_trans h0 hlt))

/-- Witness of C2: the centres `(0,0)` and `(1.5,0)` with radius 1 each end at distance 2. -/
theorem pair_overlap_fully_corrected_witness :
    Vec.mag (JSMath.mk Real.sqrt Real.cos Real.sin Real.pi)
        (Vec.sub (scenarioBodyB ℝ).position (scenarioBodyA ℝ).position) = 3 / 2 ∧
      Vec.mag (JSMath.mk Real.sqrt Real.cos Real.sin Real.pi)
        (Vec.sub
          (resolvePair (JSMath.mk Real.sqrt Real.cos Real.sin Real.pi)
            (scenarioConfig ℝ (4 / 5) 1 0) (scenarioBodyA ℝ) (scenarioBodyB ℝ)).2.position
          (resolvePair (JSMath.mk Real.sqrt Real.cos Real.sin Real.pi)
            (scenarioConfig ℝ (4 / 5) 1 0) (scenarioBodyA ℝ) (scenarioBodyB ℝ)).1.position)
        = 2 := by
  refine ⟨scenario_distance, ?_⟩
  have H := pair_overlap_fully_corrected real_sqrtExact (scenarioConfig ℝ (4 / 5) 1 0)
    (scenarioBodyA ℝ) (scenarioBodyB ℝ) (by norm_num [scenarioBodyA])
    (by norm_num [scenarioBodyB]) (by rw [scenario_distance]; norm_num)
    (by rw [scenario_distance]; norm_num [scenarioBodyA, scenarioBodyB])
  rw [H]
  norm_num [scenarioBodyA, scenarioBodyB]

/-- C9. For a pair with positive masses at distance `d`, `0 < d < radius_i + radius_j`, and
any `sphereRestitution = e`: with `s = (v_j − v_i)·n` and
`J = −(1+e)·s / (1/m_i + 1/m_j)`, if `s < 0` the visit gives `v_i' = v_i − (J/m_i)·n`,
`v_j' = v_j + (J/m_j)·n` and `(v_j' − v_i')·n = −e·s`; if `s ≥ 0` both velocities are
unchanged. -/
theorem pair_restitution_law {M : JSMath K} (hM : M.SqrtExact) (cfg : Config K)
    (a b : Sphere K) (hma : 0 < a.mass) (hmb : 0 < b.mass)
    (h0 : 0 < Vec.mag M (Vec.sub b.position a.position))
    (hlt : Vec.mag M (Vec.sub b.position a.position) < a.radius + b.radius) :
    (speedAlongNormal M a b < 0 →
      (resolvePair M cfg a b).1.velocity =
          Vec.sub a.velocity (Vec.mult (contactNormal M a b)
            (-(1 + cfg.sphereRestitution) * speedAlongNormal M a b
              / (1 / a.mass + 1 / b.mass) / a.mass)) ∧
        (resolvePair M cfg a b).2.velocity =
          Vec.add b.velocity (Vec.mult (contactNormal M a b)
            (-(1 + cfg.sphereRestitution) * speedAlongNormal M a b
              / (1 / a.mass + 1 / b.mass) / b.mass)) ∧
        Vec.dot (Vec.sub (resolvePair M cfg a b).2.velocity (resolvePair M cfg a b).1.velocity)
            (contactNormal M a b)
          = -cfg.sphereRestitution * speedAlongNormal M a b) ∧
      (¬ speedAlongNormal M a b < 0 →
        (resolvePair M cfg a b).1.velocity = a.velocity ∧
          (resolvePair M cfg a b).2.velocity = b.velocity) := by
  obtain ⟨-, hov, -, -⟩ := pairOverlaps_of_distance hM a b h0 hlt
  refine ⟨fun hs => ?_, fun hs => resolvePair_velocity_separating M cfg a b hs⟩
  obtain ⟨h1, h2⟩ := resolvePair_velocity_formula M cfg a b hma hmb hov hs
  refine ⟨h1, h2, ?_⟩
  rw [h1, h2]
  have hn : (contactNormal M a b).x * (contactNormal M a b).x
      + (contactNormal M a b).y * (contactNormal M a b).y = 1 := contactNormal_unit hM a b
  have hsum : impulseMagnitude cfg a b (speedAlongNormal M a b) / a.mass
      + impulseMagnitude cfg a b (speedAlongNormal M a b) / b.mass
        = -(1 + cfg.sphereRestitution) * speedAlongNormal M a b := by
    unfold impulseMagnitude
    have hma' := hma.ne'
    have hmb' := hmb.ne'
    have hT : b.mass + a.mass ≠ 0 := by positivity
    field_simp
    ring
  have hs' : speedAlongNormal M a b
      = (b.velocity.x - a.velocity.x) * (contactNormal M a b).x
        + (b.velocity.y - a.velocity.y) * (contactNormal M a b).y := rfl
  generalize impulseMagnitude cfg a b (speedAlongNormal M a b) / a.mass = ja at hsum ⊢
  generalize impulseMagnitude cfg a b (speedAlongNormal M a b) / b.mass = jb at hsum ⊢
  generalize speedAlongNormal M a b = sp at hsum hs' ⊢
  generalize contactNormal M a b = n at hn hs' ⊢
  simp only [Vec.dot, Vec.sub, Vec.add, Vec.mult]
  linear_combination (ja + jb) * hn + hsum - hs'

/-- Witness of C9: the two-body scenario with restitution `1/2`; the relative normal speed
`-2` becomes `1`. -/
theorem pair_restitution_law_witness :
    Vec.dot
        (Vec.sub
          (resolvePair (JSMath.mk Real.sqrt Real.cos Real.sin Real.pi)
            (scenarioConfig ℝ (4 / 5) (1 / 2) 0) (scenarioBodyA ℝ) (scenarioBodyB ℝ)).2.velocity
          (resolvePair (JSMath.mk Real.sqrt Real.cos Real.sin Real.pi)
            (scenarioConfig ℝ (4 / 5) (1 / 2) 0) (scenarioBodyA ℝ) (scenarioBodyB ℝ)).1.velocity)
        (contactNormal (JSMath.mk Real.sqrt Real.cos Real.sin Real.pi)
          (scenarioBodyA ℝ) (scenarioBodyB ℝ)) = 1 := by
  have H := (pair_restitution_law real_sqrtExact (scenarioConfig ℝ (4 / 5) (1 / 2) 0)
    (scenarioBodyA ℝ) (scenarioBodyB ℝ) (by norm_num [scenarioBodyA])
    (by norm_num [scenarioBodyB]) (by rw [scenario_distance]; norm_num)
    (by rw [scenario_distance]; norm_num [scenarioBodyA, scenarioBodyB])).1
    (by rw [scenario_approaching]; norm_num)
  rw [H.2.2, scenario_approaching]
  norm_num [scenarioConfig]

/-- C10. For a pair with positive masses for which the overlap branch is entered, with
`overlap = radius_i + radius_j − distance` and `n` the contact normal (a unit vector):
body `i` is displaced by `−overlap·(m_j/(m_i+m_j))·n`, body `j` by
`+overlap·(m_i/(m_i+m_j))·n`; the heavier body moves no farther than the lighter one, and
`m_i·position_i + m_j·position_j` is unchanged. -/
theorem pair_correction_split {M : JSMath K} (hM : M.SqrtExact) (cfg : Config K)
    (a b : Sphere K) (hma : 0 < a.mass) (hmb : 0 < b.mass) (h : PairOverlaps M a b) :
    Vec.dot (contactNormal M a b) (contactNormal M a b) = 1 ∧
      Vec.sub (resolvePair M cfg a b).1.position a.position =
        Vec.mult (contactNormal M a b)
          (-(a.radius + b.radius - contactDistance M a b) * (b.mass / (a.mass + b.mass))) ∧
      Vec.sub (resolvePair M cfg a b).2.position b.position =
        Vec.mult (contactNormal M a b)
          ((a.radius + b.radius - contactDistance M a b) * (a.mass / (a.mass + b.mass))) ∧
      (b.mass ≤ a.mass →
        Vec.magSq (Vec.sub (resolvePair M cfg a b).1.position a.position)
          ≤ Vec.magSq (Vec.sub (resolvePair M cfg a b).2.position b.position)) ∧
      (a.mass ≤ b.mass →
        Vec.magSq (Vec.sub (resolvePair M cfg a b).2.position b.position)
          ≤ Vec.magSq (Vec.sub (resolvePair M cfg a b).1.position a.position)) ∧
      Vec.add (Vec.mult (resolvePair M cfg a b).1.position a.mass)
          (Vec.mult (resolvePair M cfg a b).2.position b.mass)
        = Vec.add (Vec.mult a.position a.mass) (Vec.mult b.position b.mass) := by
  have hn : (contactNormal M a b).x * (contactNormal M a b).x
      + (contactNormal M a b).y * (contactNormal M a b).y = 1 := contactNormal_unit hM a b
  have hT : 0 < a.mass + b.mass := by positivity
  have hov : 0 < a.radius + b.radius - contactDistance M a b := by
    have := h.1; linarith
  rw [resolvePair_position_fst M cfg a b h, resolvePair_position_snd M cfg a b h]
  have e1 : ∀ (p : Vec K) (c : K), Vec.sub (Vec.add p (Vec.mult (contactNormal M a b) c)) p
      = Vec.mult (contactNormal M a b) c := by
    intro p c; apply Vec.ext <;> simp [Vec.sub, Vec.add, Vec.mult]
  have e2 : ∀ c : K, Vec.magSq (Vec.mult (contactNormal M a b) c) = c * c := by
    intro c
    simp only [Vec.magSq, Vec.mult]
    linear_combination (c * c) * hn
  have hsq : ∀ m1 m2 : K, 0 ≤ m1 → m1 ≤ m2 →
      (a.radius + b.radius - contactDistance M a b) * (m1 / (a.mass + b.mass))
        ≤ (a.radius + b.radius - contactDistance M a b) * (m2 / (a.mass + b.mass)) := by
    intro m1 m2 _ h12
    apply mul_le_mul_of_nonneg_left _ hov.le
    exact div_le_div_of_nonneg_right h12 hT.le
  have hnn : ∀ m1 : K, 0 ≤ m1 →
      0 ≤ (a.radius + b.radius - contactDistance M a b) * (m1 / (a.mass + b.mass)) := by
    intro m1 h1
    exact mul_nonneg hov.le (div_nonneg h1 hT.le)
  refine ⟨contactNormal_unit hM a b, e1 _ _, e1 _ _, fun hle => ?_, fun hle => ?_, ?_⟩
  · rw [e1, e1, e2, e2]
    have := hsq _ _ hmb.le hle
    have h1 := hnn _ hmb.le
    nlinarith
  · rw [e1, e1, e2, e2]
    have := hsq _ _ hma.le hle
    have h1 := hnn _ hma.le
    nlinarith
  · have hT' := hT.ne'
    apply Vec.ext
    · simp only [Vec.add, Vec.mult]; field_simp; ring
    · simp only [Vec.add, Vec.mult]; field_simp; ring

/-- Witness of C10: in the two-body scenario body `i` moves from `(0,0)` to `(-1/4, 0)` and
body `j` from `(3/2,0)` to `(7/4, 0)`. -/
theorem pair_correction_split_witness :
    (resolvePair (JSMath.mk Real.sqrt Real.cos Real.sin Real.pi)
        (scenarioConfig ℝ (4 / 5) 1 0) (scenarioBodyA ℝ) (scenarioBodyB ℝ)).1.position
        = ⟨-1 / 4, 0⟩ ∧
      (resolvePair (JSMath.mk Real.sqrt Real.cos Real.sin Real.pi)
        (scenarioConfig ℝ (4 / 5) 1 0) (scenarioBodyA ℝ) (scenarioBodyB ℝ)).2.position
        = ⟨7 / 4, 0⟩ := by
  have H := pair_correction_split real_sqrtExact (scenarioConfig ℝ (4 / 5) 1 0)
    (scenarioBodyA ℝ) (scenarioBodyB ℝ) (by norm_num [scenarioBodyA])
    (by norm_num [scenarioBodyB]) scenario_overlaps
  obtain ⟨-, H1, H2, -⟩ := H
  rw [scenario_contact.1, scenario_contact.2] at H1 H2
  have h1x := congrArg Vec.x H1
  have h1y := congrArg Vec.y H1
  have h2x := congrArg Vec.x H2
  have h2y := congrArg Vec.y H2
  have hAp : (scenarioBodyA ℝ).position = ⟨0, 0⟩ := rfl
  have hBp : (scenarioBodyB ℝ).position = ⟨3 / 2, 0⟩ := rfl
  have hAr : (scenarioBodyA ℝ).radius = 1 := rfl
  have hBr : (scenarioBodyB ℝ).radius = 1 := rfl
  have hAm : (scenarioBodyA ℝ).mass = 1 := rfl
  have hBm : (scenarioBodyB ℝ).mass = 1 := rfl
  simp only [Vec.sub, Vec.mult, hAp, hBp, hAr, hBr, hAm, hBm] at h1x h1y h2x h2y
  constructor
  · apply Vec.ext
    · show _ = (-1 / 4 : ℝ); linarith
    · show _ = (0 : ℝ); linarith
  · apply Vec.ext
    · show _ = (7 / 4 : ℝ); linarith
    · show _ = (0 : ℝ); linarith

/-! ## Integrator -/

theorem updateSpheres_loop_getElem? (M : JSMath K) (cfg : Config K) (hexagon : Hexagon K)
    (dt : K) (spheres : List (Sphere K)) (n i : Nat) :
    ((List.range n).foldl (fun ss k => updateSphereAt M cfg hexagon dt ss k) spheres)[i]? =
      if i < n then
        (spheres[i]?).map fun s => keepSphereInsideHexagon M cfg hexagon (integrateSphere cfg dt s)
      else spheres[i]? := by
  induction n generalizing i with
  | zero => simp
  | succ n ih =>
    rw [List.range_succ, List.foldl_append]
    simp only [List.foldl_cons, List.foldl_nil]
    generalize hss : (List.range n).foldl
      (fun ss k => updateSphereAt M cfg hexagon dt ss k) spheres = ss at ih
    have hn : ss[n]? = spheres[n]? := by rw [ih n]; simp
    unfold updateSphereAt
    cases hx : ss[n]? with
    | none =>
      simp only []
      rw [ih i]
      by_cases hi : i < n
      · simp [hi, Nat.lt_succ_of_lt hi]
      · by_cases hin : i = n
        · subst hin; rw [← hn, hx]; simp
        · have : ¬ i < n + 1 := by omega
          simp [hi, this]
    | some x =>
      simp only []
      rw [List.getElem?_set']
      by_cases hin : n = i
      · subst hin
        rw [hx, ← hn, hx]; simp
      · rw [if_neg hin, ih i]
        by_cases hi : i < n
        · simp [hi, Nat.lt_succ_of_lt hi]
        · have : ¬ i < n + 1 := by omega
          simp [hi, this]

theorem updateSpheres_eq_map (M : JSMath K) (cfg : Config K) (hexagon : Hexagon K)
    (dt : K) (spheres : List (Sphere K)) :
    updateSpheres M cfg hexagon dt spheres =
      spheres.map fun s => keepSphereInsideHexagon M cfg hexagon (integrateSphere cfg dt s) := by
  apply List.ext_getElem?
  intro i
  unfold updateSpheres
  rw [updateSpheres_loop_getElem?, List.getElem?_map]
  by_cases hi : i < spheres.length
  · simp [hi]
  · simp [hi, List.getElem?_eq_none (Nat.le_of_not_lt hi)]

/-- C7. For every body and timestep `dt` the integrator part of `updateSpheres` sets
`velocity' = (velocity + (0, gravity·dt))·max(0, 1 − airResistance·dt)·max(0, 1 − friction·dt)`
and then `position' = position + velocity'·dt`, leaving radius and mass alone; and the result
of `updateSpheres` at index `k` is a function of the body at index `k` (and `dt`, the
configuration and the hexagon) only: the list is mapped body by body. -/
theorem integrator_order (M : JSMath K) (cfg : Config K) (hexagon : Hexagon K) (dt : K)
    (spheres : List (Sphere K)) (s : Sphere K) :
    (integrateSphere cfg dt s).velocity =
        Vec.mult (Vec.mult (Vec.add s.velocity ⟨0, cfg.gravity * dt⟩)
          (max 0 (1 - cfg.airResistance * dt))) (max 0 (1 - cfg.friction * dt)) ∧
      (integrateSphere cfg dt s).position =
        Vec.add s.position (Vec.mult (integrateSphere cfg dt s).velocity dt) ∧
      (integrateSphere cfg dt s).radius = s.radius ∧
      (integrateSphere cfg dt s).mass = s.mass ∧
      updateSpheres M cfg hexagon dt spheres =
        spheres.map fun b => keepSphereInsideHexagon M cfg hexagon (integrateSphere cfg dt b) := by
  refine ⟨?_, rfl, rfl, rfl, updateSpheres_eq_map M cfg hexagon dt spheres⟩
  apply Vec.ext <;> simp [integrateSphere, Vec.add, Vec.mult, Vec.createVector]

/-! ## One edge of the wall resolver -/

theorem normalize_unit {M : JSMath K} (hM : M.SqrtExact) (v : Vec K) (hv : Vec.magSq v ≠ 0) :
    Vec.dot (Vec.normalize M v) (Vec.normalize M v) = 1 := by
  have hne : Vec.mag M v ≠ 0 := fun h => hv ((mag_eq_zero_iff hM v).mp h)
  have hsq := mag_mul_self hM v
  unfold Vec.magSq at hsq
  unfold Vec.normalize
  simp only [hne, ne_eq, not_false_eq_true, if_true, Vec.dot, Vec.mult]
  field_simp
  linarith

theorem edgeNormal_unit {M : JSMath K} (hM : M.SqrtExact) (p1 p2 : Vec K)
    (h : EdgeProper p1 p2) :
    Vec.dot (edgeNormal M p1 p2) (edgeNormal M p1 p2) = 1 :=
  normalize_unit hM _ h

theorem wallEdge_skip (M : JSMath K) (cfg : Config K) (hexagon : Hexagon K) (p1 p2 : Vec K)
    (s : Sphere K) (h : ¬ EdgeProper p1 p2) : wallEdge M cfg hexagon p1 p2 s = s := by
  unfold EdgeProper at h
  unfold wallEdge
  simp only [not_not] at h
  simp only [h, if_true]

theorem wallEdge_clear (M : JSMath K) (cfg : Config K) (hexagon : Hexagon K) (p1 p2 : Vec K)
    (s : Sphere K) (h : ¬ penetration M p1 p2 s > 0) : wallEdge M cfg hexagon p1 p2 s = s := by
  unfold wallEdge
  dsimp only
  split_ifs <;> rfl

theorem wallEdge_position (M : JSMath K) (cfg : Config K) (hexagon : Hexagon K)
    (p1 p2 : Vec K) (s : Sphere K) (he : EdgeProper p1 p2) (h : penetration M p1 p2 s > 0) :
    (wallEdge M cfg hexagon p1 p2 s).position =
      Vec.add s.position (Vec.mult (edgeNormal M p1 p2) (-penetration M p1 p2 s)) := by
  unfold EdgeProper at he
  unfold wallEdge
  simp only [he, if_false, h, if_true]
  split_ifs <;> rfl

theorem wallEdge_velocity_hit (M : JSMath K) (cfg : Config K) (hexagon : Hexagon K)
    (p1 p2 : Vec K) (s : Sphere K) (he : EdgeProper p1 p2) (h : penetration M p1 p2 s > 0)
    (hv : Vec.dot (Vec.sub s.velocity (wallVelocity cfg hexagon p1 p2 s)) (edgeNormal M p1 p2)
      > 0) :
    (wallEdge M cfg hexagon p1 p2 s).velocity =
      Vec.add (wallVelocity cfg hexagon p1 p2 s)
        (Vec.add
          (Vec.mult (edgeNormal M p1 p2)
            (-cfg.wallRestitution *
              Vec.dot (Vec.sub s.velocity (wallVelocity cfg hexagon p1 p2 s))
                (edgeNormal M p1 p2)))
          (Vec.mult
            (tangentialPart (Vec.sub s.velocity (wallVelocity cfg hexagon p1 p2 s))
              (edgeNormal M p1 p2))
            (max 0 (1 - cfg.friction)))) := by
  unfold EdgeProper at he
  unfold wallEdge
  simp only [he, if_false, h, if_true, hv]
  rfl

theorem wallEdge_velocity_miss (M : JSMath K) (cfg : Config K) (hexagon : Hexagon K)
    (p1 p2 : Vec K) (s : Sphere K)
    (hv : ¬ Vec.dot (Vec.sub s.velocity (wallVelocity cfg hexagon p1 p2 s))
      (edgeNormal M p1 p2) > 0) :
    (wallEdge M cfg hexagon p1 p2 s).velocity = s.velocity := by
  unfold wallEdge
  dsimp only
  split_ifs <;> rfl

theorem wallEdge_radius_mass (M : JSMath K) (cfg : Config K) (hexagon : Hexagon K)
    (p1 p2 : Vec K) (s : Sphere K) :
    (wallEdge M cfg hexagon p1 p2 s).radius = s.radius ∧
      (wallEdge M cfg hexagon p1 p2 s).mass = s.mass := by
  unfold wallEdge
  dsimp only
  split_ifs <;> exact ⟨rfl, rfl⟩

/-- C8. For a body that penetrates a non-skipped edge, with `n` the unit outward normal the
code computes, `w = (−ω·r.y, ω·r.x)` the wall velocity at the contact point (`r` = closest
point of the edge to the body centre minus the hexagon centre, `ω = rotationSpeed`): if
`(v − w)·n > 0` then `(v' − w)·n = −wallRestitution·((v − w)·n)` and the tangential part of
`v' − w` is `max(0, 1 − friction)` times the tangential part of `v − w`; otherwise the
velocity is unchanged. -/
theorem wall_velocity_response {M : JSMath K} (hM : M.SqrtExact) (cfg : Config K)
    (hexagon : Hexagon K) (p1 p2 : Vec K) (s : Sphere K) (he : EdgeProper p1 p2)
    (hpen : penetration M p1 p2 s > 0) :
    Vec.dot (edgeNormal M p1 p2) (edgeNormal M p1 p2) = 1 ∧
      wallVelocity cfg hexagon p1 p2 s =
        ⟨-cfg.rotationSpeed * (Vec.sub (closestPointOnSegment p1 p2 s.position) hexagon.center).y,
          cfg.rotationSpeed * (Vec.sub (closestPointOnSegment p1 p2 s.position) hexagon.center).x⟩ ∧
      (Vec.dot (Vec.sub s.velocity (wallVelocity cfg hexagon p1 p2 s)) (edgeNormal M p1 p2) > 0 →
        Vec.dot (Vec.sub (wallEdge M cfg hexagon p1 p2 s).velocity
            (wallVelocity cfg hexagon p1 p2 s)) (edgeNormal M p1 p2)
          = -cfg.wallRestitution *
              Vec.dot (Vec.sub s.velocity (wallVelocity cfg hexagon p1 p2 s))
                (edgeNormal M p1 p2) ∧
        tangentialPart (Vec.sub (wallEdge M cfg hexagon p1 p2 s).velocity
            (wallVelocity cfg hexagon p1 p2 s)) (edgeNormal M p1 p2)
          = Vec.mult (tangentialPart (Vec.sub s.velocity (wallVelocity cfg hexagon p1 p2 s))
              (edgeNormal M p1 p2)) (max 0 (1 - cfg.friction))) ∧
      (¬ Vec.dot (Vec.sub s.velocity (wallVelocity cfg hexagon p1 p2 s)) (edgeNormal M p1 p2)
          > 0 →
        (wallEdge M cfg hexagon p1 p2 s).velocity = s.velocity) := by
  have hn : (edgeNormal M p1 p2).x * (edgeNormal M p1 p2).x
      + (edgeNormal M p1 p2).y * (edgeNormal M p1 p2).y = 1 := edgeNormal_unit hM p1 p2 he
  refine ⟨edgeNormal_unit hM p1 p2 he, rfl, fun hv => ?_,
    fun hv => wallEdge_velocity_miss M cfg hexagon p1 p2 s hv⟩
  rw [wallEdge_velocity_hit M cfg hexagon p1 p2 s he hpen hv]
  generalize wallVelocity cfg hexagon p1 p2 s = w
  generalize edgeNormal M p1 p2 = n at hn
  generalize max 0 (1 - cfg.friction) = ts
  generalize cfg.wallRestitution = e
  constructor
  · simp only [Vec.dot, Vec.sub, Vec.add, Vec.mult, tangentialPart]
    linear_combination
      (-e * ((s.velocity.x - w.x) * n.x + (s.velocity.y - w.y) * n.y)
        - ts * ((s.velocity.x - w.x) * n.x + (s.velocity.y - w.y) * n.y)) * hn
  · apply Vec.ext
    · simp only [Vec.dot, Vec.sub, Vec.add, Vec.mult, tangentialPart]
      linear_combination
        (e * n.x * ((s.velocity.x - w.x) * n.x + (s.velocity.y - w.y) * n.y)
          + ts * n.x * ((s.velocity.x - w.x) * n.x + (s.velocity.y - w.y) * n.y)) * hn
    · simp only [Vec.dot, Vec.sub, Vec.add, Vec.mult, tangentialPart]
      linear_combination
        (e * n.y * ((s.velocity.x - w.x) * n.x + (s.velocity.y - w.y) * n.y)
          + ts * n.y * ((s.velocity.x - w.x) * n.x + (s.velocity.y - w.y) * n.y)) * hn

theorem spin_edgeNormal :
    edgeNormal (JSMath.mk Real.sqrt Real.cos Real.sin Real.pi) (⟨0, 0⟩ : Vec ℝ) ⟨0, 1⟩
      = ⟨1, 0⟩ := by
  simp [edgeNormal, Vec.normalize, Vec.mag, Vec.magSq, Vec.createVector, Vec.sub, Vec.mult]

theorem spin_wallVelocity :
    wallVelocity (spinConfig ℝ) (spinHexagon ℝ) (⟨0, 0⟩ : Vec ℝ) ⟨0, 1⟩ (spinBody ℝ)
      = ⟨-1 / 2, 1⟩ := by
  simp only [wallVelocity, closestPointOnSegment, spinConfig, spinHexagon, spinBody, Vec.sub,
    Vec.magSq, Vec.dot, Vec.add, Vec.mult, Vec.createVector]
  norm_num [constrain]

/-- Witness of C8: edge `(0,0) → (0,1)` (unit outward normal `(1,0)`), hexagon centre
`(-1,0)`, `rotationSpeed = 1`, `wallRestitution = 0.8`, `friction = 0.5`, body of radius 1 at
`(0, 1/2)` with velocity `(1, 2)`: the wall velocity is `(-1/2, 1)` and the new velocity is
`(-17/10, 3/2)`. -/
theorem wall_velocity_response_witness :
    (wallEdge (JSMath.mk Real.sqrt Real.cos Real.sin Real.pi) (spinConfig ℝ) (spinHexagon ℝ)
      ⟨0, 0⟩ ⟨0, 1⟩ (spinBody ℝ)).velocity = ⟨-17 / 10, 3 / 2⟩ := by
  have H := wall_velocity_response real_sqrtExact (spinConfig ℝ) (spinHexagon ℝ)
    ⟨0, 0⟩ ⟨0, 1⟩ (spinBody ℝ)
    (by simp [EdgeProper, Vec.magSq, Vec.createVector, Vec.sub])
    (by
      unfold penetration
      rw [spin_edgeNormal]
      norm_num [Vec.dot, Vec.sub, spinBody])
  rw [spin_edgeNormal, spin_wallVelocity] at H
  obtain ⟨-, -, H1, -⟩ := H
  have hv : (spinBody ℝ).velocity = ⟨1, 2⟩ := rfl
  have hf : (spinConfig ℝ).friction = 1 / 2 := rfl
  have he : (spinConfig ℝ).wallRestitution = 4 / 5 := rfl
  have hmax : max (0 : ℝ) (1 - 1 / 2) = 1 / 2 := by
    rw [max_eq_right (by norm_num)]; norm_num
  rw [hv, hf, he, hmax] at H1
  obtain ⟨Hn, Ht⟩ := H1 (by norm_num [Vec.dot, Vec.sub])
  have hy := congrArg Vec.y Ht
  simp only [Vec.dot, Vec.sub, Vec.mult, tangentialPart] at Hn hy
  apply Vec.ext
  · show _ = (-17 / 10 : ℝ); linarith
  · show _ = (3 / 2 : ℝ); linarith

/-! ## The hexagon of radius 100 at angle 0 -/

theorem cos_two_thirds_pi : Real.cos (Real.pi / 3 * 2) = -1 / 2 := by
  have : Real.pi / 3 * 2 = Real.pi - Real.pi / 3 := by ring
  rw [this, Real.cos_pi_sub, Real.cos_pi_div_three]; norm_num

theorem sin_two_thirds_pi : Real.sin (Real.pi / 3 * 2) = Real.sqrt 3 / 2 := by
  have : Real.pi / 3 * 2 = Real.pi - Real.pi / 3 := by ring
  rw [this, Real.sin_pi_sub, Real.sin_pi_div_three]

theorem cos_three_thirds_pi : Real.cos (Real.pi / 3 * 3) = -1 := by
  have : Real.pi / 3 * 3 = Real.pi := by ring
  rw [this, Real.cos_pi]

theorem sin_three_thirds_pi : Real.sin (Real.pi / 3 * 3) = 0 := by
  have : Real.pi / 3 * 3 = Real.pi := by ring
  rw [this, Real.sin_pi]

theorem cos_four_thirds_pi : Real.cos (Real.pi / 3 * 4) = -1 / 2 := by
  have : Real.pi / 3 * 4 = Real.pi / 3 + Real.pi := by ring
  rw [this, Real.cos_add_pi, Real.cos_pi_div_three]; norm_num

theorem sin_four_thirds_pi : Real.sin (Real.pi / 3 * 4) = -(Real.sqrt 3 / 2) := by
  have : Real.pi / 3 * 4 = Real.pi / 3 + Real.pi := by ring
  rw [this, Real.sin_add_pi, Real.sin_pi_div_three]

theorem cos_five_thirds_pi : Real.cos (Real.pi / 3 * 5) = 1 / 2 := by
  have : Real.pi / 3 * 5 = 2 * Real.pi - Real.pi / 3 := by ring
  rw [this, Real.cos_two_pi_sub, Real.cos_pi_div_three]

theorem sin_five_thirds_pi : Real.sin (Real.pi / 3 * 5) = -(Real.sqrt 3 / 2) := by
  have : Real.pi / 3 * 5 = 2 * Real.pi - Real.pi / 3 := by ring
  rw [this, Real.sin_two_pi_sub, Real.sin_pi_div_three]

theorem getHexagonVertices_hex100 :
    getHexagonVertices (JSMath.mk Real.sqrt Real.cos Real.sin Real.pi) (hex100 ℝ)
      = hex100Vertices (Real.sqrt 3) := by
  simp only [getHexagonVertices, hex100, hex100Vertices, List.range, List.range.loop, List.map,
    Vec.createVector]
  simp only [Nat.cast_zero, Nat.cast_one, Nat.cast_ofNat, zero_add, mul_zero, mul_one,
    Real.cos_zero, Real.sin_zero, Real.cos_pi_div_three, Real.sin_pi_div_three,
    cos_two_thirds_pi, sin_two_thirds_pi, cos_three_thirds_pi, sin_three_thirds_pi,
    cos_four_thirds_pi, sin_four_thirds_pi, cos_five_thirds_pi, sin_five_thirds_pi]
  norm_num
  ring

theorem sqrt_three_mul_self : Real.sqrt 3 * Real.sqrt 3 = 3 :=
  Real.mul_self_sqrt (by norm_num)

theorem sqrt_three_pos : 0 < Real.sqrt 3 := Real.sqrt_pos.mpr (by norm_num)

theorem wallEdges_hex100 (M : JSMath K) (cfg : Config K) (hexagon : Hexagon K) (r3 : K)
    (s : Sphere K) :
    wallEdges M cfg hexagon (hex100Vertices r3) (List.range (hex100Vertices r3).length) s =
      wallEdge M cfg hexagon ⟨50, -(50 * r3)⟩ ⟨100, 0⟩
        (wallEdge M cfg hexagon ⟨-50, -(50 * r3)⟩ ⟨50, -(50 * r3)⟩
          (wallEdge M cfg hexagon ⟨-100, 0⟩ ⟨-50, -(50 * r3)⟩
            (wallEdge M cfg hexagon ⟨-50, 50 * r3⟩ ⟨-100, 0⟩
              (wallEdge M cfg hexagon ⟨50, 50 * r3⟩ ⟨-50, 50 * r3⟩
                (wallEdge M cfg hexagon ⟨100, 0⟩ ⟨50, 50 * r3⟩ s))))) := by
  simp [wallEdges, wallEdgeAt, hex100Vertices, List.range, List.range.loop]

theorem normalize_of_magSq {M : JSMath K} (hM : M.SqrtExact) (v : Vec K) (L : K) (hL : 0 < L)
    (h : Vec.magSq v = L * L) : Vec.normalize M v = ⟨v.x / L, v.y / L⟩ := by
  have hm : Vec.mag M v = L := by
    unfold Vec.mag; rw [h]; exact sqrt_of_mul_self hM hL.le
  unfold Vec.normalize
  simp only [hm, ne_eq, hL.ne', not_false_eq_true, if_true, Vec.mult]
  apply Vec.ext <;> simp [div_eq_mul_inv]

theorem edgeNormal_hex100 {M : JSMath K} (hM : M.SqrtExact) (r3 : K) (h3 : r3 * r3 = 3) :
    edgeNormal M (⟨100, 0⟩ : Vec K) ⟨50, 50 * r3⟩ = ⟨r3 / 2, 1 / 2⟩ ∧
    edgeNormal M (⟨50, 50 * r3⟩ : Vec K) ⟨-50, 50 * r3⟩ = ⟨0, 1⟩ ∧
    edgeNormal M (⟨-50, 50 * r3⟩ : Vec K) ⟨-100, 0⟩ = ⟨-r3 / 2, 1 / 2⟩ ∧
    edgeNormal M (⟨-100, 0⟩ : Vec K) ⟨-50, -(50 * r3)⟩ = ⟨-r3 / 2, -1 / 2⟩ ∧
    edgeNormal M (⟨-50, -(50 * r3)⟩ : Vec K) ⟨50, -(50 * r3)⟩ = ⟨0, -1⟩ ∧
    edgeNormal M (⟨50, -(50 * r3)⟩ : Vec K) ⟨100, 0⟩ = ⟨r3 / 2, -1 / 2⟩ := by
  have key : ∀ v : Vec K, Vec.magSq v = 100 * 100 →
      Vec.normalize M v = ⟨v.x / 100, v.y / 100⟩ :=
    fun v hv => normalize_of_magSq hM v 100 (by norm_num) hv
  refine ⟨?_, ?_, ?_, ?_, ?_, ?_⟩
  all_goals
    unfold edgeNormal
    dsimp only
    rw [key _ (by
      simp only [Vec.magSq, Vec.createVector, Vec.sub]
      first | ring1 | linear_combination 2500 * h3)]
    apply Vec.ext <;> simp only [Vec.createVector, Vec.sub] <;> ring

theorem edgeProper_hex100 (r3 : K) (h3 : r3 * r3 = 3) :
    EdgeProper (⟨100, 0⟩ : Vec K) ⟨50, 50 * r3⟩ ∧
    EdgeProper (⟨50, 50 * r3⟩ : Vec K) ⟨-50, 50 * r3⟩ ∧
    EdgeProper (⟨-50, 50 * r3⟩ : Vec K) ⟨-100, 0⟩ ∧
    EdgeProper (⟨-100, 0⟩ : Vec K) ⟨-50, -(50 * r3)⟩ ∧
    EdgeProper (⟨-50, -(50 * r3)⟩ : Vec K) ⟨50, -(50 * r3)⟩ ∧
    EdgeProper (⟨50, -(50 * r3)⟩ : Vec K) ⟨100, 0⟩ := by
  refine ⟨?_, ?_, ?_, ?_, ?_, ?_⟩
  all_goals
    unfold EdgeProper
    have : ∀ v : Vec K, Vec.magSq v = 100 * 100 → Vec.magSq v ≠ 0 := by
      intro v hv; rw [hv]; norm_num
    apply this
    simp only [Vec.magSq, Vec.createVector, Vec.sub]
    first | ring1 | linear_combination 2500 * h3

/-! ## The wall scenario -/

theorem wallVelocity_still (cfg : Config K) (hexagon : Hexagon K) (p1 p2 : Vec K)
    (s : Sphere K) (h : cfg.rotationSpeed = 0) : wallVelocity cfg hexagon p1 p2 s = ⟨0, 0⟩ := by
  simp [wallVelocity, h, Vec.createVector]

theorem penetration_eq (M : JSMath K) (p1 p2 : Vec K) (s : Sphere K) (n : Vec K)
    (hn : edgeNormal M p1 p2 = n) :
    penetration M p1 p2 s
      = (s.position.x - p1.x) * n.x + (s.position.y - p1.y) * n.y + s.radius := by
  simp [penetration, hn, Vec.dot, Vec.sub]

theorem r3_bounds (r3 : K) (h3 : r3 * r3 = 3) (hpos : 0 < r3) : 17 / 10 < r3 ∧ r3 < 9 / 5 := by
  constructor
  · by_contra h
    push_neg at h
    nlinarith
  · by_contra h
    push_neg at h
    nlinarith

set_option maxHeartbeats 1000000 in
theorem wall_scenario_generic {M : JSMath K} (hM : M.SqrtExact) (r3 : K) (h3 : r3 * r3 = 3)
    (hpos : 0 < r3) (cfg : Config K) (hexagon : Hexagon K) (s : Sphere K)
    (hω : cfg.rotationSpeed = 0) (he : cfg.wallRestitution = 4 / 5) (hf : 0 ≤ cfg.friction)
    (hp : s.position = ⟨98, 0⟩) (hv : s.velocity = ⟨50, 0⟩) (hr : s.radius = 5) :
    (wallEdges M cfg hexagon (hex100Vertices r3) (List.range (hex100Vertices r3).length)
        s).velocity.x < 0 ∧
      (wallEdges M cfg hexagon (hex100Vertices r3) (List.range (hex100Vertices r3).length)
        s).position.x ≤ 95 := by
  obtain ⟨hb1, hb2⟩ := r3_bounds r3 h3 hpos
  obtain ⟨n0, n1, n2, n3, n4, n5⟩ := edgeNormal_hex100 hM r3 h3
  obtain ⟨e0, e1, e2, e3, e4, e5⟩ := edgeProper_hex100 r3 h3
  have hts0 : 0 ≤ max 0 (1 - cfg.friction) := le_max_left _ _
  have hts1 : max 0 (1 - cfg.friction) ≤ 1 := max_le (by norm_num) (by linarith)
  rw [wallEdges_hex100]
  -- edge 0
  have pen0 : penetration M ⟨100, 0⟩ ⟨50, 50 * r3⟩ s = 5 - r3 := by
    rw [penetration_eq M _ _ s _ n0, hp, hr]; simp only []; ring
  have hpen0 : penetration M ⟨100, 0⟩ ⟨50, 50 * r3⟩ s > 0 := by rw [pen0]; linarith
  have vn0 : Vec.dot (Vec.sub s.velocity (wallVelocity cfg hexagon ⟨100, 0⟩ ⟨50, 50 * r3⟩ s))
      (edgeNormal M ⟨100, 0⟩ ⟨50, 50 * r3⟩) = 25 * r3 := by
    rw [wallVelocity_still _ _ _ _ _ hω, n0, hv]; simp only [Vec.dot, Vec.sub]; ring
  have hvn0 : Vec.dot (Vec.sub s.velocity (wallVelocity cfg hexagon ⟨100, 0⟩ ⟨50, 50 * r3⟩ s))
      (edgeNormal M ⟨100, 0⟩ ⟨50, 50 * r3⟩) > 0 := by rw [vn0]; linarith
  have P1 := wallEdge_position M cfg hexagon _ _ s e0 hpen0
  have V1 := wallEdge_velocity_hit M cfg hexagon _ _ s e0 hpen0 hvn0
  have R1 := (wallEdge_radius_mass M cfg hexagon ⟨100, 0⟩ ⟨50, 50 * r3⟩ s).1
  rw [vn0, wallVelocity_still _ _ _ _ _ hω, he, hv] at V1
  rw [pen0, hp] at P1
  rw [n0] at P1 V1
  rw [hr] at R1
  generalize wallEdge M cfg hexagon ⟨100, 0⟩ ⟨50, 50 * r3⟩ s = s1 at P1 V1 R1 ⊢
  generalize htsd : max 0 (1 - cfg.friction) = ts at hts0 hts1 V1
  have P1x : s1.position.x = 199 / 2 - 5 / 2 * r3 := by
    rw [P1]; simp only [Vec.add, Vec.mult]; linear_combination (1 / 2 : K) * h3
  have P1y : s1.position.y = -5 / 2 + r3 / 2 := by
    rw [P1]; simp only [Vec.add, Vec.mult]; ring
  have V1x : s1.velocity.x = -30 + 25 / 2 * ts := by
    rw [V1]; simp only [Vec.add, Vec.mult, Vec.sub, Vec.dot, tangentialPart]
    linear_combination (-10 - 25 / 2 * ts) * h3
  have V1y : s1.velocity.y = -10 * r3 - 25 / 2 * r3 * ts := by
    rw [V1]; simp only [Vec.add, Vec.mult, Vec.sub, Vec.dot, tangentialPart]
    ring
  -- edges 1 to 4 are clear
  have c1 : ¬ penetration M ⟨50, 50 * r3⟩ ⟨-50, 50 * r3⟩ s1 > 0 := by
    rw [penetration_eq M _ _ s1 _ n1, P1x, P1y, R1]; simp only [gt_iff_lt, not_lt]; linarith [h3]
  have c2 : ¬ penetration M ⟨-50, 50 * r3⟩ ⟨-100, 0⟩ s1 > 0 := by
    rw [penetration_eq M _ _ s1 _ n2, P1x, P1y, R1]; simp only [gt_iff_lt, not_lt]; linarith [h3]
  have c3 : ¬ penetration M ⟨-100, 0⟩ ⟨-50, -(50 * r3)⟩ s1 > 0 := by
    rw [penetration_eq M _ _ s1 _ n3, P1x, P1y, R1]; simp only [gt_iff_lt, not_lt]; linarith [h3]
  have c4 : ¬ penetration M ⟨-50, -(50 * r3)⟩ ⟨50, -(50 * r3)⟩ s1 > 0 := by
    rw [penetration_eq M _ _ s1 _ n4, P1x, P1y, R1]; simp only [gt_iff_lt, not_lt]; linarith [h3]
  rw [wallEdge_clear M cfg hexagon _ _ s1 c1, wallEdge_clear M cfg hexagon _ _ s1 c2,
    wallEdge_clear M cfg hexagon _ _ s1 c3, wallEdge_clear M cfg hexagon _ _ s1 c4]
  -- edge 5
  have pen5 : penetration M ⟨50, -(50 * r3)⟩ ⟨100, 0⟩ s1 = 5 / 2 - r3 / 2 := by
    rw [penetration_eq M _ _ s1 _ n5, P1x, P1y, R1]; simp only []
    linear_combination (-5 / 4 : K) * h3
  have hpen5 : penetration M ⟨50, -(50 * r3)⟩ ⟨100, 0⟩ s1 > 0 := by rw [pen5]; linarith
  have P6 := wallEdge_position M cfg hexagon _ _ s1 e5 hpen5
  rw [pen5, n5] at P6
  have P6x : (wallEdge M cfg hexagon ⟨50, -(50 * r3)⟩ ⟨100, 0⟩ s1).position.x
      = 401 / 4 - 15 / 4 * r3 := by
    rw [P6]; simp only [Vec.add, Vec.mult]; rw [P1x]
    linear_combination (1 / 4 : K) * h3
  have vn5 : Vec.dot (Vec.sub s1.velocity (wallVelocity cfg hexagon ⟨50, -(50 * r3)⟩ ⟨100, 0⟩ s1))
      (edgeNormal M ⟨50, -(50 * r3)⟩ ⟨100, 0⟩) = r3 * (-10 + 25 / 2 * ts) := by
    rw [wallVelocity_still _ _ _ _ _ hω, n5]; simp only [Vec.dot, Vec.sub]; rw [V1x, V1y]; ring
  refine ⟨?_, by rw [P6x]; linarith⟩
  by_cases hts : 4 / 5 < ts
  · have hvn5 : Vec.dot (Vec.sub s1.velocity
        (wallVelocity cfg hexagon ⟨50, -(50 * r3)⟩ ⟨100, 0⟩ s1))
        (edgeNormal M ⟨50, -(50 * r3)⟩ ⟨100, 0⟩) > 0 := by
      rw [vn5]; exact mul_pos hpos (by linarith)
    have V6 := wallEdge_velocity_hit M cfg hexagon _ _ s1 e5 hpen5 hvn5
    rw [he, htsd] at V6
    rw [V6, wallVelocity_still _ _ _ _ _ hω, n5]
    simp only [Vec.add, Vec.mult, Vec.sub, Vec.dot, tangentialPart]
    rw [V1x, V1y]
    have hneg : 12 - 30 * ts - 25 / 4 * (ts * ts) < 0 := by
      have := mul_nonneg hts0 hts0
      linarith
    refine lt_of_eq_of_lt ?_ hneg
    linear_combination (4 - 25 / 4 * (ts * ts)) * h3
  · have hvn5 : ¬ Vec.dot (Vec.sub s1.velocity
        (wallVelocity cfg hexagon ⟨50, -(50 * r3)⟩ ⟨100, 0⟩ s1))
        (edgeNormal M ⟨50, -(50 * r3)⟩ ⟨100, 0⟩) > 0 := by
      rw [vn5]; push_neg at hts ⊢
      exact mul_nonpos_of_nonneg_of_nonpos hpos.le (by linarith)
    rw [wallEdge_velocity_miss M cfg hexagon _ _ s1 hvn5, V1x]
    linarith

/-- C3. Hexagon of radius 100 centred at `(0,0)` at angle 0, `rotationSpeed = 0`,
`wallRestitution = 0.8`, any `friction ≥ 0`: one call of `keepSphereInsideHexagon` on a body
of radius 5 at `(98, 0)` with velocity `(50, 0)` leaves it with negative horizontal velocity
and `position.x ≤ 95`. -/
theorem wall_scenario (cfg : Config ℝ) (s : Sphere ℝ) (hω : cfg.rotationSpeed = 0)
    (he : cfg.wallRestitution = 4 / 5) (hf : 0 ≤ cfg.friction)
    (hp : s.position = ⟨98, 0⟩) (hv : s.velocity = ⟨50, 0⟩) (hr : s.radius = 5) :
    (keepSphereInsideHexagon (JSMath.mk Real.sqrt Real.cos Real.sin Real.pi) cfg (hex100 ℝ)
        s).velocity.x < 0 ∧
      (keepSphereInsideHexagon (JSMath.mk Real.sqrt Real.cos Real.sin Real.pi) cfg (hex100 ℝ)
        s).position.x ≤ 95 := by
  unfold keepSphereInsideHexagon
  dsimp only
  rw [getHexagonVertices_hex100]
  exact wall_scenario_generic real_sqrtExact (Real.sqrt 3) sqrt_three_mul_self sqrt_three_pos
    cfg (hex100 ℝ) s hω he hf hp hv hr

/-- Witness of C3 with `friction = 0`. -/
theorem wall_scenario_witness :
    (keepSphereInsideHexagon (JSMath.mk Real.sqrt Real.cos Real.sin Real.pi)
        (scenarioConfig ℝ (4 / 5) 1 0) (hex100 ℝ) (wallScenarioBody ℝ)).velocity.x < 0 ∧
      (keepSphereInsideHexagon (JSMath.mk Real.sqrt Real.cos Real.sin Real.pi)
        (scenarioConfig ℝ (4 / 5) 1 0) (hex100 ℝ) (wallScenarioBody ℝ)).position.x ≤ 95 :=
  wall_scenario (scenarioConfig ℝ (4 / 5) 1 0) (wallScenarioBody ℝ) rfl rfl
    (by norm_num [scenarioConfig]) rfl rfl rfl

/-! ## Frames without contact -/

theorem wallEdgeAt_of_clear (M : JSMath K) (cfg : Config K) (hexagon : Hexagon K)
    (s : Sphere K) (h : ClearOfWalls M hexagon s) (i : Nat) :
    wallEdgeAt M cfg hexagon (getHexagonVertices M hexagon) s i = s := by
  unfold wallEdgeAt
  split
  · rename_i p1 p2 h1 h2
    by_cases he : EdgeProper p1 p2
    · exact wallEdge_clear M cfg hexagon p1 p2 s (not_lt.mpr (h i p1 p2 h1 h2 he))
    · exact wallEdge_skip M cfg hexagon p1 p2 s he
  · rfl

theorem keepSphere_of_clear (M : JSMath K) (cfg : Config K) (hexagon : Hexagon K)
    (s : Sphere K) (h : ClearOfWalls M hexagon s) :
    keepSphereInsideHexagon M cfg hexagon s = s := by
  unfold keepSphereInsideHexagon wallEdges
  dsimp only
  generalize List.range (getHexagonVertices M hexagon).length = is
  induction is with
  | nil => rfl
  | cons i is ih =>
    rw [List.foldl_cons, wallEdgeAt_of_clear M cfg hexagon s h i]
    exact ih

theorem resolveSphereCollisions_singleton (M : JSMath K) (cfg : Config K) (s : Sphere K) :
    resolveSphereCollisions M cfg [s] = [s] := by
  simp [resolveSphereCollisions, resolveRow, List.range, List.range.loop]

theorem integrateSphere_free (cfg : Config K) (dt : K) (s : Sphere K)
    (hg : cfg.gravity = 0) (hf : cfg.friction = 0) (ha : cfg.airResistance = 0) :
    integrateSphere cfg dt s = { s with position := Vec.add s.position (Vec.mult s.velocity dt) } := by
  have hv : Vec.mult (Vec.mult (Vec.add s.velocity (Vec.mult (Vec.createVector (0 : K) 0) dt))
      (max 0 (1 - 0 * dt))) (max 0 (1 - 0 * dt)) = s.velocity := by
    apply Vec.ext <;> simp [Vec.add, Vec.mult, Vec.createVector]
  unfold integrateSphere
  simp only [hg, hf, ha, hv]

theorem physicsStep_single_clear (M : JSMath K) (cfg : Config K) (dt : K) (hexagon : Hexagon K)
    (s : Sphere K) (hg : cfg.gravity = 0) (hf : cfg.friction = 0) (ha : cfg.airResistance = 0)
    (h : ClearOfWalls M (updateHexagon cfg dt hexagon) (integrateSphere cfg dt s)) :
    physicsStep M cfg dt ⟨hexagon, [s]⟩ =
      ⟨updateHexagon cfg dt hexagon,
        [{ s with position := Vec.add s.position (Vec.mult s.velocity dt) }]⟩ := by
  unfold physicsStep
  rw [integrateSphere_free cfg dt s hg hf ha] at h
  simp only [updateSpheres_eq_map, List.map, integrateSphere_free cfg dt s hg hf ha,
    keepSphere_of_clear M cfg _ _ h, resolveSphereCollisions_singleton]

/-- C6. With `gravity = 0`, `friction = 0`, `airResistance = 0`, for a single body that
after each position update penetrates no edge of the hexagon of that frame: after the frames
with timesteps `dt_1 … dt_N` the velocity (and radius, mass) is unchanged and the position is
the initial position plus `velocity·(dt_1 + … + dt_N)`. -/
theorem uniform_motion (M : JSMath K) (cfg : Config K) (hg : cfg.gravity = 0)
    (hf : cfg.friction = 0) (ha : cfg.airResistance = 0) (hexagon : Hexagon K) (s : Sphere K)
    (dts : List K) (h : ClearAlong M cfg ⟨hexagon, [s]⟩ dts) :
    (physicsSteps M cfg dts ⟨hexagon, [s]⟩).spheres =
      [{ s with position := Vec.add s.position (Vec.mult s.velocity dts.sum) }] := by
  induction dts generalizing hexagon s with
  | nil =>
    simp only [physicsSteps, List.foldl_nil, List.sum_nil]
    congr 1
    have : Vec.add s.position (Vec.mult s.velocity 0) = s.position := by
      apply Vec.ext <;> simp [Vec.add, Vec.mult]
    rw [this]
  | cons dt dts ih =>
    obtain ⟨h1, h2⟩ := h
    have hc := h1 s (List.mem_singleton.mpr rfl)
    have hstep := physicsStep_single_clear M cfg dt hexagon s hg hf ha hc
    simp only [physicsSteps, List.foldl_cons] at ih ⊢
    rw [hstep] at h2 ⊢
    rw [ih _ _ h2]
    congr 1
    have : Vec.add (Vec.add s.position (Vec.mult s.velocity dt)) (Vec.mult s.velocity dts.sum)
        = Vec.add s.position (Vec.mult s.velocity (dt :: dts).sum) := by
      apply Vec.ext <;> simp [Vec.add, Vec.mult] <;> ring
    simp only [this]

theorem clearOfWalls_hex100 {M : JSMath K} (hM : M.SqrtExact) (r3 : K) (h3 : r3 * r3 = 3)
    (hexagon : Hexagon K) (hvs : getHexagonVertices M hexagon = hex100Vertices r3)
    (s : Sphere K)
    (h0 : (s.position.x - 100) * (r3 / 2) + s.position.y * (1 / 2) + s.radius ≤ 0)
    (h1 : s.position.y - 50 * r3 + s.radius ≤ 0)
    (h2 : (s.position.x + 50) * (-r3 / 2) + (s.position.y - 50 * r3) * (1 / 2) + s.radius ≤ 0)
    (h3' : (s.position.x + 100) * (-r3 / 2) + s.position.y * (-1 / 2) + s.radius ≤ 0)
    (h4 : -(s.position.y + 50 * r3) + s.radius ≤ 0)
    (h5 : (s.position.x - 50) * (r3 / 2) + (s.position.y + 50 * r3) * (-1 / 2) + s.radius ≤ 0) :
    ClearOfWalls M hexagon s := by
  obtain ⟨n0, n1, n2, n3, n4, n5⟩ := edgeNormal_hex100 hM r3 h3
  intro i p1 p2 hp1 hp2 _
  rw [hvs] at hp1 hp2
  have hi : i < 6 := by
    by_contra hge
    have : (hex100Vertices r3)[i]? = none :=
      List.getElem?_eq_none (by simp [hex100Vertices]; omega)
    rw [this] at hp1
    exact Option.noConfusion hp1
  interval_cases i <;>
    simp [hex100Vertices] at hp1 hp2 <;>
    subst hp1 <;> subst hp2
  · rw [penetration_eq M _ _ s _ n0]; simp only []; linarith
  · rw [penetration_eq M _ _ s _ n1]; simp only []; linarith
  · rw [penetration_eq M _ _ s _ n2]; simp only []; linarith
  · rw [penetration_eq M _ _ s _ n3]; simp only []; linarith
  · rw [penetration_eq M _ _ s _ n4]; simp only []; linarith
  · rw [penetration_eq M _ _ s _ n5]; simp only []; linarith

theorem updateHexagon_still (cfg : Config K) (dt : K) (hexagon : Hexagon K)
    (h : cfg.rotationSpeed = 0) : updateHexagon cfg dt hexagon = hexagon := by
  simp [updateHexagon, h]

theorem clearOfWalls_hex100_real (s : Sphere ℝ)
    (hx : |s.position.x| ≤ 40) (hy : |s.position.y| ≤ 40) (hr : s.radius ≤ 5) :
    ClearOfWalls (JSMath.mk Real.sqrt Real.cos Real.sin Real.pi) (hex100 ℝ) s := by
  obtain ⟨hb1, hb2⟩ := r3_bounds (Real.sqrt 3) sqrt_three_mul_self sqrt_three_pos
  obtain ⟨hx1, hx2⟩ := abs_le.mp hx
  obtain ⟨hy1, hy2⟩ := abs_le.mp hy
  apply clearOfWalls_hex100 real_sqrtExact (Real.sqrt 3) sqrt_three_mul_self (hex100 ℝ)
    getHexagonVertices_hex100 s
  all_goals nlinarith

/-- Witness of C6: two frames of `dt = 1/20` move the body from `(0,0)` to `(1,0)` with
velocity `(10, 0)`. -/
theorem uniform_motion_witness :
    (physicsSteps (JSMath.mk Real.sqrt Real.cos Real.sin Real.pi) (scenarioConfig ℝ (4 / 5) 1 0)
        [1 / 20, 1 / 20] ⟨hex100 ℝ, [driftBody ℝ]⟩).spheres
      = [{ driftBody ℝ with position := ⟨1, 0⟩ }] := by
  have hstep : ∀ (s : Sphere ℝ) (dt : ℝ),
      |(Vec.add s.position (Vec.mult s.velocity dt)).x| ≤ 40 →
      |(Vec.add s.position (Vec.mult s.velocity dt)).y| ≤ 40 → s.radius ≤ 5 →
      ClearOfWalls (JSMath.mk Real.sqrt Real.cos Real.sin Real.pi)
        (updateHexagon (scenarioConfig ℝ (4 / 5) 1 0) dt (hex100 ℝ))
        (integrateSphere (scenarioConfig ℝ (4 / 5) 1 0) dt s) := by
    intro s dt hx hy hr
    rw [updateHexagon_still _ _ _ rfl, integrateSphere_free _ _ _ rfl rfl rfl]
    exact clearOfWalls_hex100_real _ hx hy hr
  have H := uniform_motion (JSMath.mk Real.sqrt Real.cos Real.sin Real.pi)
    (scenarioConfig ℝ (4 / 5) 1 0) rfl rfl rfl (hex100 ℝ) (driftBody ℝ) [1 / 20, 1 / 20]
    (by
      refine ⟨?_, ?_, trivial⟩
      · intro s hs
        rw [List.mem_singleton] at hs
        subst hs
        apply hstep <;> norm_num [driftBody, Vec.add, Vec.mult, abs_le]
      · rw [physicsStep_single_clear _ _ _ _ _ rfl rfl rfl
          (by apply hstep <;> norm_num [driftBody, Vec.add, Vec.mult, abs_le])]
        intro s hs
        simp only [updateHexagon_still _ _ _ (rfl : (scenarioConfig ℝ (4 / 5) 1 0).rotationSpeed = 0)] at hs ⊢
        rw [List.mem_singleton] at hs
        subst hs
        rw [integrateSphere_free _ _ _ rfl rfl rfl]
        apply clearOfWalls_hex100_real <;> norm_num [driftBody, Vec.add, Vec.mult, abs_le])
  rw [H]
  congr 1
  norm_num [driftBody, Vec.add, Vec.mult]

/-! ## Kinetic energy -/

theorem resolvePair_mass_radius (M : JSMath K) (cfg : Config K) (a b : Sphere K) :
    (resolvePair M cfg a b).1.mass = a.mass ∧ (resolvePair M cfg a b).2.mass = b.mass ∧
      (resolvePair M cfg a b).1.radius = a.radius ∧
      (resolvePair M cfg a b).2.radius = b.radius := by
  unfold resolvePair
  dsimp only
  split_ifs <;> exact ⟨rfl, rfl, rfl, rfl⟩

theorem impulse_sum (cfg : Config K) (a b : Sphere K) (hma : 0 < a.mass) (hmb : 0 < b.mass)
    (sp : K) :
    impulseMagnitude cfg a b sp / a.mass + impulseMagnitude cfg a b sp / b.mass
      = -(1 + cfg.sphereRestitution) * sp := by
  unfold impulseMagnitude
  have hma' := hma.ne'
  have hmb' := hmb.ne'
  have hT : b.mass + a.mass ≠ 0 := by positivity
  field_simp
  ring

/-- Exact change of the kinetic energy of a pair in one visit, approaching case. -/
theorem resolvePair_energy_change {M : JSMath K} (hM : M.SqrtExact) (cfg : Config K)
    (a b : Sphere K) (hma : 0 < a.mass) (hmb : 0 < b.mass) (h : PairOverlaps M a b)
    (hs : speedAlongNormal M a b < 0) :
    kineticEnergy (resolvePair M cfg a b).1 + kineticEnergy (resolvePair M cfg a b).2
      = kineticEnergy a + kineticEnergy b
        - 1 / 2 * (1 - cfg.sphereRestitution * cfg.sphereRestitution)
          * (a.mass * b.mass / (a.mass + b.mass))
          * (speedAlongNormal M a b * speedAlongNormal M a b) := by
  obtain ⟨h1, h2⟩ := resolvePair_velocity_formula M cfg a b hma hmb h hs
  obtain ⟨m1, m2, -, -⟩ := resolvePair_mass_radius M cfg a b
  have hn : (contactNormal M a b).x * (contactNormal M a b).x
      + (contactNormal M a b).y * (contactNormal M a b).y = 1 := contactNormal_unit hM a b
  have hsum := impulse_sum cfg a b hma hmb (speedAlongNormal M a b)
  have hJa : a.mass * (impulseMagnitude cfg a b (speedAlongNormal M a b) / a.mass)
      = impulseMagnitude cfg a b (speedAlongNormal M a b) := by
    field_simp
  have hJb : b.mass * (impulseMagnitude cfg a b (speedAlongNormal M a b) / b.mass)
      = impulseMagnitude cfg a b (speedAlongNormal M a b) := by
    field_simp
  have hJ : impulseMagnitude cfg a b (speedAlongNormal M a b)
      = -(1 + cfg.sphereRestitution) * speedAlongNormal M a b
        * (a.mass * b.mass / (a.mass + b.mass)) := by
    unfold impulseMagnitude
    have hma' := hma.ne'
    have hmb' := hmb.ne'
    have hT : a.mass + b.mass ≠ 0 := by positivity
    have hne : 1 / a.mass + 1 / b.mass ≠ 0 := by positivity
    rw [div_eq_iff hne]
    field_simp
    ring
  have hs' : speedAlongNormal M a b
      = (b.velocity.x - a.velocity.x) * (contactNormal M a b).x
        + (b.velocity.y - a.velocity.y) * (contactNormal M a b).y := rfl
  unfold kineticEnergy
  rw [h1, h2, m1, m2]
  generalize impulseMagnitude cfg a b (speedAlongNormal M a b) / a.mass = ja at hsum hJa ⊢
  generalize impulseMagnitude cfg a b (speedAlongNormal M a b) / b.mass = jb at hsum hJb ⊢
  generalize impulseMagnitude cfg a b (speedAlongNormal M a b) = J at hJa hJb hJ
  generalize a.mass * b.mass / (a.mass + b.mass) = μ at hJ ⊢
  generalize speedAlongNormal M a b = sp at hsum hs' hJ ⊢
  generalize contactNormal M a b = n at hn hs' ⊢
  generalize cfg.sphereRestitution = e at hsum hJ ⊢
  simp only [Vec.magSq, Vec.sub, Vec.add, Vec.mult]
  linear_combination
    (-(a.velocity.x * n.x + a.velocity.y * n.y) + 1 / 2 * ja * (n.x * n.x + n.y * n.y)) * hJa
    + ((b.velocity.x * n.x + b.velocity.y * n.y) + 1 / 2 * jb * (n.x * n.x + n.y * n.y)) * hJb
    + (1 / 2 * J * (ja + jb)) * hn - J * hs' + (1 / 2 * J) * hsum
    + (1 / 2 * sp * (1 - e)) * hJ

theorem resolvePair_energy_le {M : JSMath K} (hM : M.SqrtExact) (cfg : Config K)
    (a b : Sphere K) (hma : 0 < a.mass) (hmb : 0 < b.mass)
    (he1 : -1 ≤ cfg.sphereRestitution) (he2 : cfg.sphereRestitution ≤ 1) :
    kineticEnergy (resolvePair M cfg a b).1 + kineticEnergy (resolvePair M cfg a b).2
      ≤ kineticEnergy a + kineticEnergy b := by
  by_cases hs : speedAlongNormal M a b < 0
  · by_cases h : PairOverlaps M a b
    · rw [resolvePair_energy_change hM cfg a b hma hmb h hs]
      have h1 : 0 ≤ 1 - cfg.sphereRestitution * cfg.sphereRestitution := by nlinarith
      have h2 : 0 ≤ a.mass * b.mass / (a.mass + b.mass) := by positivity
      have h3 : 0 ≤ speedAlongNormal M a b * speedAlongNormal M a b := mul_self_nonneg _
      have := mul_nonneg (mul_nonneg h1 h2) h3
      linarith
    · rw [resolvePair_no_overlap M cfg a b h]
  · obtain ⟨h1, h2⟩ := resolvePair_velocity_separating M cfg a b hs
    obtain ⟨m1, m2, -, -⟩ := resolvePair_mass_radius M cfg a b
    unfold kineticEnergy
    rw [h1, h2, m1, m2]


theorem sum_map_set {α : Type} (f : α → K) (l : List α) (i : Nat) (x y : α)
    (h : l[i]? = some y) : ((l.set i x).map f).sum = (l.map f).sum - f y + f x := by
  induction l generalizing i with
  | nil => simp at h
  | cons z zs ih =>
    cases i with
    | zero =>
      simp at h
      subst h
      simp only [List.set, List.map_cons, List.sum_cons]
      ring
    | succ i =>
      simp at h
      simp only [List.set, List.map_cons, List.sum_cons]
      rw [ih i h]
      ring

theorem resolvePairAt_energy {M : JSMath K} (hM : M.SqrtExact) (cfg : Config K)
    (he1 : -1 ≤ cfg.sphereRestitution) (he2 : cfg.sphereRestitution ≤ 1)
    (ss : List (Sphere K)) (i j : Nat) (hij : i ≠ j) (hm : MassesPositive ss) :
    totalKineticEnergy (resolvePairAt M cfg ss i j) ≤ totalKineticEnergy ss ∧
      MassesPositive (resolvePairAt M cfg ss i j) ∧
      (resolvePairAt M cfg ss i j).length = ss.length := by
  unfold resolvePairAt
  split
  · rename_i a b ha hb
    have hma : 0 < a.mass := hm a (List.getElem?_mem ha)
    have hmb : 0 < b.mass := hm b (List.getElem?_mem hb)
    obtain ⟨m1, m2, -, -⟩ := resolvePair_mass_radius M cfg a b
    refine ⟨?_, ?_, by simp⟩
    · have hb' : (ss.set i (resolvePair M cfg a b).1)[j]? = some b := by
        rw [List.getElem?_set_ne hij]; exact hb
      unfold totalKineticEnergy
      rw [sum_map_set kineticEnergy _ j _ b hb', sum_map_set kineticEnergy _ i _ a ha]
      have := resolvePair_energy_le hM cfg a b hma hmb he1 he2
      linarith
    · intro s hs
      rcases List.mem_or_eq_of_mem_set hs with h | h
      · rcases List.mem_or_eq_of_mem_set h with h' | h'
        · exact hm s h'
        · rw [h', m1]; exact hma
      · rw [h, m2]; exact hmb
  · exact ⟨le_refl _, hm, rfl⟩

theorem resolveRow_loop_energy {M : JSMath K} (hM : M.SqrtExact) (cfg : Config K)
    (he1 : -1 ≤ cfg.sphereRestitution) (he2 : cfg.sphereRestitution ≤ 1) (i : Nat)
    (js : List Nat) (hjs : ∀ j ∈ js, i ≠ j) (ss : List (Sphere K)) (hm : MassesPositive ss) :
    totalKineticEnergy (js.foldl (fun ss j => resolvePairAt M cfg ss i j) ss)
        ≤ totalKineticEnergy ss ∧
      MassesPositive (js.foldl (fun ss j => resolvePairAt M cfg ss i j) ss) ∧
      (js.foldl (fun ss j => resolvePairAt M cfg ss i j) ss).length = ss.length := by
  induction js generalizing ss with
  | nil => exact ⟨le_refl _, hm, rfl⟩
  | cons j js ih =>
    simp only [List.foldl_cons]
    obtain ⟨h1, h2, h3⟩ := resolvePairAt_energy hM cfg he1 he2 ss i j
      (hjs j (List.mem_cons_self _ _)) hm
    obtain ⟨k1, k2, k3⟩ := ih (fun j' hj' => hjs j' (List.mem_cons_of_mem _ hj')) _ h2
    exact ⟨le_trans k1 h1, k2, k3.trans h3⟩

theorem resolveRow_energy {M : JSMath K} (hM : M.SqrtExact) (cfg : Config K)
    (he1 : -1 ≤ cfg.sphereRestitution) (he2 : cfg.sphereRestitution ≤ 1) (i : Nat)
    (ss : List (Sphere K)) (hm : MassesPositive ss) :
    totalKineticEnergy (resolveRow M cfg ss i) ≤ totalKineticEnergy ss ∧
      MassesPositive (resolveRow M cfg ss i) ∧ (resolveRow M cfg ss i).length = ss.length := by
  unfold resolveRow
  apply resolveRow_loop_energy hM cfg he1 he2 i _ _ ss hm
  intro j hj
  rw [List.mem_range'_1] at hj
  omega

theorem resolveSphereCollisions_energy {M : JSMath K} (hM : M.SqrtExact) (cfg : Config K)
    (he1 : -1 ≤ cfg.sphereRestitution) (he2 : cfg.sphereRestitution ≤ 1)
    (ss : List (Sphere K)) (hm : MassesPositive ss) :
    totalKineticEnergy (resolveSphereCollisions M cfg ss) ≤ totalKineticEnergy ss := by
  unfold resolveSphereCollisions
  generalize List.range ss.length = is
  suffices h : ∀ (l : List (Sphere K)), MassesPositive l →
      totalKineticEnergy (is.foldl (fun ss i => resolveRow M cfg ss i) l)
        ≤ totalKineticEnergy l from h ss hm
  induction is with
  | nil => intro l _; exact le_refl _
  | cons i is ih =>
    intro l hl
    simp only [List.foldl_cons]
    obtain ⟨h1, h2, -⟩ := resolveRow_energy hM cfg he1 he2 i l hl
    exact le_trans (ih _ h2) h1

theorem wallEdge_speed_le {M : JSMath K} (hM : M.SqrtExact) (cfg : Config K)
    (hexagon : Hexagon K) (p1 p2 : Vec K) (s : Sphere K) (hω : cfg.rotationSpeed = 0)
    (hf : cfg.friction = 0) (he1 : -1 ≤ cfg.wallRestitution) (he2 : cfg.wallRestitution ≤ 1) :
    Vec.magSq (wallEdge M cfg hexagon p1 p2 s).velocity ≤ Vec.magSq s.velocity := by
  by_cases he : EdgeProper p1 p2
  · by_cases hpen : penetration M p1 p2 s > 0
    · by_cases hv : Vec.dot (Vec.sub s.velocity (wallVelocity cfg hexagon p1 p2 s))
          (edgeNormal M p1 p2) > 0
      · have hn : (edgeNormal M p1 p2).x * (edgeNormal M p1 p2).x
            + (edgeNormal M p1 p2).y * (edgeNormal M p1 p2).y = 1 := edgeNormal_unit hM p1 p2 he
        have hts : max (0 : K) (1 - 0) = 1 := by simp
        rw [wallEdge_velocity_hit M cfg hexagon p1 p2 s he hpen hv,
          wallVelocity_still cfg hexagon p1 p2 s hω, hf, hts]
        generalize edgeNormal M p1 p2 = n at hn
        generalize cfg.wallRestitution = e at he1 he2
        have key : Vec.magSq (Vec.add (⟨0, 0⟩ : Vec K)
            (Vec.add (Vec.mult n (-e * Vec.dot (Vec.sub s.velocity ⟨0, 0⟩) n))
              (Vec.mult (tangentialPart (Vec.sub s.velocity ⟨0, 0⟩) n) 1)))
            = Vec.magSq s.velocity
              - (1 - e * e) * ((s.velocity.x * n.x + s.velocity.y * n.y)
                * (s.velocity.x * n.x + s.velocity.y * n.y)) := by
          simp only [Vec.magSq, Vec.add, Vec.mult, Vec.sub, Vec.dot, tangentialPart]
          linear_combination
            ((1 + e) * (1 + e) * ((s.velocity.x * n.x + s.velocity.y * n.y)
              * (s.velocity.x * n.x + s.velocity.y * n.y))) * hn
        rw [key]
        have h1 : 0 ≤ 1 - e * e := by nlinarith
        have := mul_nonneg h1 (mul_self_nonneg (s.velocity.x * n.x + s.velocity.y * n.y))
        linarith
      · rw [wallEdge_velocity_miss M cfg hexagon p1 p2 s hv]
    · rw [wallEdge_clear M cfg hexagon p1 p2 s hpen]
  · rw [wallEdge_skip M cfg hexagon p1 p2 s he]

theorem keepSphere_energy {M : JSMath K} (hM : M.SqrtExact) (cfg : Config K)
    (hexagon : Hexagon K) (s : Sphere K) (hω : cfg.rotationSpeed = 0)
    (hf : cfg.friction = 0) (he1 : -1 ≤ cfg.wallRestitution) (he2 : cfg.wallRestitution ≤ 1) :
    (keepSphereInsideHexagon M cfg hexagon s).mass = s.mass ∧
      Vec.magSq (keepSphereInsideHexagon M cfg hexagon s).velocity ≤ Vec.magSq s.velocity := by
  unfold keepSphereInsideHexagon wallEdges
  dsimp only
  generalize List.range (getHexagonVertices M hexagon).length = is
  generalize getHexagonVertices M hexagon = vs
  suffices h : ∀ t : Sphere K,
      (is.foldl (fun s i => wallEdgeAt M cfg hexagon vs s i) t).mass = t.mass ∧
      Vec.magSq (is.foldl (fun s i => wallEdgeAt M cfg hexagon vs s i) t).velocity
        ≤ Vec.magSq t.velocity from h s
  induction is with
  | nil => intro t; exact ⟨rfl, le_refl _⟩
  | cons i is ih =>
    intro t
    simp only [List.foldl_cons]
    obtain ⟨h1, h2⟩ := ih (wallEdgeAt M cfg hexagon vs t i)
    have hstep : (wallEdgeAt M cfg hexagon vs t i).mass = t.mass ∧
        Vec.magSq (wallEdgeAt M cfg hexagon vs t i).velocity ≤ Vec.magSq t.velocity := by
      unfold wallEdgeAt
      split
      · exact ⟨(wallEdge_radius_mass M cfg hexagon _ _ t).2,
          wallEdge_speed_le hM cfg hexagon _ _ t hω hf he1 he2⟩
      · exact ⟨rfl, le_refl _⟩
    exact ⟨h1.trans hstep.1, le_trans h2 hstep.2⟩

theorem updateSpheres_energy {M : JSMath K} (hM : M.SqrtExact) (cfg : Config K)
    (hexagon : Hexagon K) (dt : K) (hg : cfg.gravity = 0) (hω : cfg.rotationSpeed = 0)
    (hf : cfg.friction = 0) (ha : cfg.airResistance = 0) (he1 : -1 ≤ cfg.wallRestitution)
    (he2 : cfg.wallRestitution ≤ 1) (ss : List (Sphere K)) (hm : MassesPositive ss) :
    totalKineticEnergy (updateSpheres M cfg hexagon dt ss) ≤ totalKineticEnergy ss ∧
      MassesPositive (updateSpheres M cfg hexagon dt ss) := by
  rw [updateSpheres_eq_map]
  have hone : ∀ s : Sphere K,
      (keepSphereInsideHexagon M cfg hexagon (integrateSphere cfg dt s)).mass = s.mass ∧
      Vec.magSq (keepSphereInsideHexagon M cfg hexagon (integrateSphere cfg dt s)).velocity
        ≤ Vec.magSq s.velocity := by
    intro s
    have := keepSphere_energy hM cfg hexagon (integrateSphere cfg dt s) hω hf he1 he2
    rw [integrateSphere_free cfg dt s hg hf ha] at this ⊢
    exact this
  constructor
  · unfold totalKineticEnergy
    induction ss with
    | nil => simp
    | cons s ss ih =>
      simp only [List.map_cons, List.sum_cons]
      have hs : 0 < s.mass := hm s (List.mem_cons_self _ _)
      have h1 := ih (fun t ht => hm t (List.mem_cons_of_mem _ ht))
      obtain ⟨k1, k2⟩ := hone s
      have : kineticEnergy (keepSphereInsideHexagon M cfg hexagon (integrateSphere cfg dt s))
          ≤ kineticEnergy s := by
        unfold kineticEnergy
        rw [k1]
        exact mul_le_mul_of_nonneg_left k2 (by positivity)
      linarith
  · intro t ht
    rw [List.mem_map] at ht
    obtain ⟨s, hs, rfl⟩ := ht
    rw [(hone s).1]
    exact hm s hs

/-- C5, amended. With `gravity = 0`, `rotationSpeed = 0`, `friction = 0`,
`airResistance = 0`, both restitutions in `[-1, 1]` and positive masses, the total kinetic
energy after one full physics step is not greater than before the step. -/
theorem energy_nonincrease {M : JSMath K} (hM : M.SqrtExact) (cfg : Config K) (dt : K)
    (st : State K) (hg : cfg.gravity = 0) (hω : cfg.rotationSpeed = 0)
    (hf : cfg.friction = 0) (ha : cfg.airResistance = 0)
    (hw1 : -1 ≤ cfg.wallRestitution) (hw2 : cfg.wallRestitution ≤ 1)
    (hs1 : -1 ≤ cfg.sphereRestitution) (hs2 : cfg.sphereRestitution ≤ 1)
    (hm : MassesPositive st.spheres) :
    totalKineticEnergy (physicsStep M cfg dt st).spheres ≤ totalKineticEnergy st.spheres := by
  unfold physicsStep
  dsimp only
  obtain ⟨h1, h2⟩ := updateSpheres_energy hM cfg (updateHexagon cfg dt st.hexagon) dt hg hω hf ha
    hw1 hw2 st.spheres hm
  exact le_trans (resolveSphereCollisions_energy hM cfg hs1 hs2 _ h2) h1

theorem gravity_step :
    (physicsStep (JSMath.mk Real.sqrt Real.cos Real.sin Real.pi) (gravityConfig ℝ) (1 / 20)
        ⟨hex100 ℝ, [restBody ℝ]⟩).spheres
      = [{ restBody ℝ with velocity := ⟨0, 1 / 2⟩, position := ⟨0, 1 / 40⟩ }] := by
  have hi : integrateSphere (gravityConfig ℝ) (1 / 20) (restBody ℝ)
      = { restBody ℝ with velocity := ⟨0, 1 / 2⟩, position := ⟨0, 1 / 40⟩ } := by
    simp only [integrateSphere, gravityConfig, restBody, Vec.add, Vec.mult, Vec.createVector]
    norm_num
  have hc : ClearOfWalls (JSMath.mk Real.sqrt Real.cos Real.sin Real.pi) (hex100 ℝ)
      { restBody ℝ with velocity := ⟨0, 1 / 2⟩, position := ⟨0, 1 / 40⟩ } := by
    apply clearOfWalls_hex100_real <;> norm_num [restBody, abs_le]
  unfold physicsStep
  simp only [updateSpheres_eq_map, List.map, hi,
    updateHexagon_still (gravityConfig ℝ) (1 / 20) (hex100 ℝ) rfl,
    keepSphere_of_clear _ _ _ _ hc, resolveSphereCollisions_singleton]

/-- C5 as stated fails: restitutions 1, no friction, no drag, gravity 10; a body at rest at
the centre has kinetic energy 0 before the step and `25/8` after it. -/
theorem energy_gravity_counterexample :
    (gravityConfig ℝ).wallRestitution ≤ 1 ∧ (gravityConfig ℝ).sphereRestitution ≤ 1 ∧
      (gravityConfig ℝ).friction = 0 ∧ (gravityConfig ℝ).airResistance = 0 ∧
      MassesPositive [restBody ℝ] ∧
      totalKineticEnergy [restBody ℝ] <
        totalKineticEnergy
          (physicsStep (JSMath.mk Real.sqrt Real.cos Real.sin Real.pi) (gravityConfig ℝ)
            (1 / 20) ⟨hex100 ℝ, [restBody ℝ]⟩).spheres := by
  refine ⟨by norm_num [gravityConfig], by norm_num [gravityConfig], rfl, rfl, ?_, ?_⟩
  · intro s hs
    rw [List.mem_singleton] at hs
    subst hs
    norm_num [restBody]
  · rw [gravity_step]
    norm_num [totalKineticEnergy, kineticEnergy, Vec.magSq, restBody]

/-- Witness of the amended C5: the two-body scenario inside the hexagon of radius 100 has
kinetic energy 1 before the step and at most 1 after it. -/
theorem energy_nonincrease_witness :
    totalKineticEnergy
        (physicsStep (JSMath.mk Real.sqrt Real.cos Real.sin Real.pi)
          (scenarioConfig ℝ (4 / 5) 1 0) (1 / 20)
          ⟨hex100 ℝ, [scenarioBodyA ℝ, scenarioBodyB ℝ]⟩).spheres ≤ 1 := by
  have H := energy_nonincrease real_sqrtExact (scenarioConfig ℝ (4 / 5) 1 0) (1 / 20)
    ⟨hex100 ℝ, [scenarioBodyA ℝ, scenarioBodyB ℝ]⟩ rfl rfl rfl rfl
    (by norm_num [scenarioConfig]) (by norm_num [scenarioConfig])
    (by norm_num [scenarioConfig]) (by norm_num [scenarioConfig])
    (by
      intro s hs
      simp only [List.mem_cons, List.mem_singleton, List.not_mem_nil, or_false] at hs
      rcases hs with h | h <;> subst h <;> norm_num [scenarioBodyA, scenarioBodyB])
  refine le_trans H ?_
  norm_num [totalKineticEnergy, kineticEnergy, Vec.magSq, scenarioBodyA, scenarioBodyB]

/-! ## Containment -/

theorem getHexagonVertices_length (M : JSMath K) (hexagon : Hexagon K) :
    (getHexagonVertices M hexagon).length = 6 := by
  unfold getHexagonVertices
  rw [List.length_map, List.length_range]

theorem wallEdge_penetration_le {M : JSMath K} (hM : M.SqrtExact) (cfg : Config K)
    (hexagon : Hexagon K) (p1 p2 : Vec K) (s : Sphere K) (he : EdgeProper p1 p2) :
    penetration M p1 p2 (wallEdge M cfg hexagon p1 p2 s) ≤ 0 := by
  by_cases hpen : penetration M p1 p2 s > 0
  · have hn : (edgeNormal M p1 p2).x * (edgeNormal M p1 p2).x
        + (edgeNormal M p1 p2).y * (edgeNormal M p1 p2).y = 1 := edgeNormal_unit hM p1 p2 he
    have hP := wallEdge_position M cfg hexagon p1 p2 s he hpen
    have hR := (wallEdge_radius_mass M cfg hexagon p1 p2 s).1
    have h0 : penetration M p1 p2 (wallEdge M cfg hexagon p1 p2 s) = 0 := by
      rw [penetration_eq M p1 p2 _ _ rfl, hP, hR]
      have hpe := penetration_eq M p1 p2 s _ rfl
      generalize penetration M p1 p2 s = pen at hpe
      generalize edgeNormal M p1 p2 = n at hn hpe
      simp only [Vec.add, Vec.mult]
      linear_combination (-pen) * hn - hpe
    rw [h0]
  · rw [wallEdge_clear M cfg hexagon p1 p2 s hpen]
    exact not_lt.mp hpen

theorem wallEdges_prefix_penetration {M : JSMath K} (hM : M.SqrtExact) (cfg : Config K)
    (hexagon : Hexagon K) (vs : List (Vec K)) (k : Nat) (p1 p2 : Vec K)
    (h1 : vs[k]? = some p1) (h2 : vs[(k + 1) % vs.length]? = some p2) (he : EdgeProper p1 p2)
    (s : Sphere K) :
    penetration M p1 p2 (wallEdges M cfg hexagon vs (List.range (k + 1)) s) ≤ 0 := by
  unfold wallEdges
  rw [List.range_succ, List.foldl_append]
  simp only [List.foldl_cons, List.foldl_nil]
  generalize List.foldl (fun s i => wallEdgeAt M cfg hexagon vs s i) s (List.range k) = t
  have : wallEdgeAt M cfg hexagon vs t k = wallEdge M cfg hexagon p1 p2 t := by
    unfold wallEdgeAt
    rw [h1, h2]
  rw [this]
  exact wallEdge_penetration_le hM cfg hexagon p1 p2 t he

theorem keepSphere_last_edge {M : JSMath K} (hM : M.SqrtExact) (cfg : Config K)
    (hexagon : Hexagon K) (p1 p2 : Vec K)
    (h1 : (getHexagonVertices M hexagon)[5]? = some p1)
    (h2 : (getHexagonVertices M hexagon)[0]? = some p2) (he : EdgeProper p1 p2)
    (s : Sphere K) :
    penetration M p1 p2 (keepSphereInsideHexagon M cfg hexagon s) ≤ 0 := by
  unfold keepSphereInsideHexagon
  dsimp only
  have hl := getHexagonVertices_length M hexagon
  rw [hl]
  apply wallEdges_prefix_penetration hM cfg hexagon _ 5 p1 p2 h1 _ he
  rw [hl]
  exact h2

/-- C4, amended. With exact square roots, for every state, configuration and timestep:
(a) for every body and every edge `k` that the wall pass does not skip, right after the wall
pass against the hexagon of the frame has processed the edges `0 … k` the signed distance of
the centre to the line of edge `k` along the outward normal is at most `−radius`;
(b) after a full physics step in which `resolveSphereCollisions` changes nothing, every body's
signed distance to the line of the last edge (vertex 5 → vertex 0) is at most `−radius`. -/
theorem containment_last_edge {M : JSMath K} (hM : M.SqrtExact) (cfg : Config K) (dt : K)
    (st : State K)
    (hquiet : resolveSphereCollisions M cfg
        (updateSpheres M cfg (updateHexagon cfg dt st.hexagon) dt st.spheres)
      = updateSpheres M cfg (updateHexagon cfg dt st.hexagon) dt st.spheres) :
    (∀ (s : Sphere K) (k : Nat) (p1 p2 : Vec K),
        (getHexagonVertices M (physicsStep M cfg dt st).hexagon)[k]? = some p1 →
        (getHexagonVertices M (physicsStep M cfg dt st).hexagon)[(k + 1) %
          (getHexagonVertices M (physicsStep M cfg dt st).hexagon).length]? = some p2 →
        EdgeProper p1 p2 →
        penetration M p1 p2
          (wallEdges M cfg (physicsStep M cfg dt st).hexagon
            (getHexagonVertices M (physicsStep M cfg dt st).hexagon) (List.range (k + 1)) s)
          ≤ 0) ∧
      ∀ s ∈ (physicsStep M cfg dt st).spheres, ∀ p1 p2 : Vec K,
        (getHexagonVertices M (physicsStep M cfg dt st).hexagon)[5]? = some p1 →
        (getHexagonVertices M (physicsStep M cfg dt st).hexagon)[0]? = some p2 →
        EdgeProper p1 p2 → penetration M p1 p2 s ≤ 0 := by
  refine ⟨fun s k p1 p2 h1 h2 he =>
    wallEdges_prefix_penetration hM cfg _ _ k p1 p2 h1 h2 he s, ?_⟩
  intro s hs p1 p2 h1 h2 he
  have hsp : (physicsStep M cfg dt st).spheres
      = updateSpheres M cfg (updateHexagon cfg dt st.hexagon) dt st.spheres := hquiet
  have hhex : (physicsStep M cfg dt st).hexagon = updateHexagon cfg dt st.hexagon := rfl
  rw [hsp, updateSpheres_eq_map, List.mem_map] at hs
  obtain ⟨s0, -, rfl⟩ := hs
  rw [hhex] at h1 h2
  exact keepSphere_last_edge hM cfg _ p1 p2 h1 h2 he _

theorem insideEdge_of_len {M : JSMath K} (hM : M.SqrtExact) (p1 p2 p : Vec K) (pad L : K)
    (hL : 0 < L)
    (h : Vec.magSq (Vec.createVector (Vec.sub p2 p1).y (-(Vec.sub p2 p1).x)) = L * L) :
    insideEdge M p1 p2 p pad = true ↔
      (p.x - p1.x) * ((p2.y - p1.y) / L) + (p.y - p1.y) * (-(p2.x - p1.x) / L) ≤ -pad := by
  have hm : Vec.mag M (Vec.createVector (Vec.sub p2 p1).y (-(Vec.sub p2 p1).x)) = L := by
    unfold Vec.mag; rw [h]; exact sqrt_of_mul_self hM hL.le
  unfold insideEdge
  simp only [hm, hL.ne', if_false]
  simp only [Vec.div, hL.ne', if_false, Vec.dot, Vec.sub, Vec.createVector]
  split_ifs with hc
  · simp only [Bool.false_eq_true, false_iff, not_le]
    exact hc
  · simp only [true_iff]
    exact not_lt.mp hc

theorem isInsideHexagon_hex100 {M : JSMath K} (hM : M.SqrtExact) (r3 : K) (h3 : r3 * r3 = 3)
    (hexagon : Hexagon K) (hvs : getHexagonVertices M hexagon = hex100Vertices r3)
    (p : Vec K) (pad : K) :
    isInsideHexagon M hexagon p pad = true ↔
      ((p.x - 100) * (r3 / 2) + p.y * (1 / 2) ≤ -pad ∧
        p.y - 50 * r3 ≤ -pad ∧
        (p.x + 50) * (-r3 / 2) + (p.y - 50 * r3) * (1 / 2) ≤ -pad ∧
        (p.x + 100) * (-r3 / 2) + p.y * (-1 / 2) ≤ -pad ∧
        -(p.y + 50 * r3) ≤ -pad ∧
        (p.x - 50) * (r3 / 2) + (p.y + 50 * r3) * (-1 / 2) ≤ -pad) := by
  have key : ∀ p1 p2 : Vec K,
      Vec.magSq (Vec.createVector (Vec.sub p2 p1).y (-(Vec.sub p2 p1).x)) = 100 * 100 →
      (insideEdge M p1 p2 p pad = true ↔
        (p.x - p1.x) * ((p2.y - p1.y) / 100) + (p.y - p1.y) * (-(p2.x - p1.x) / 100) ≤ -pad) :=
    fun p1 p2 h => insideEdge_of_len hM p1 p2 p pad 100 (by norm_num) h
  unfold isInsideHexagon
  dsimp only
  rw [hvs]
  simp only [hex100Vertices, List.length_cons, List.length_nil, List.range, List.range.loop,
    List.all_cons, List.all_nil, Bool.and_true, Bool.and_eq_true, insideEdgeAt]
  norm_num
  rw [key _ _ (by simp only [Vec.magSq, Vec.createVector, Vec.sub]; linear_combination 2500 * h3),
    key _ _ (by simp only [Vec.magSq, Vec.createVector, Vec.sub]; ring1),
    key _ _ (by simp only [Vec.magSq, Vec.createVector, Vec.sub]; linear_combination 2500 * h3),
    key _ _ (by simp only [Vec.magSq, Vec.createVector, Vec.sub]; linear_combination 2500 * h3),
    key _ _ (by simp only [Vec.magSq, Vec.createVector, Vec.sub]; ring1),
    key _ _ (by simp only [Vec.magSq, Vec.createVector, Vec.sub]; linear_combination 2500 * h3)]
  simp only []
  constructor
  · rintro ⟨a0, a1, a2, a3, a4, a5⟩
    refine ⟨?_, ?_, ?_, ?_, ?_, ?_⟩ <;> linarith
  · rintro ⟨a0, a1, a2, a3, a4, a5⟩
    refine ⟨?_, ?_, ?_, ?_, ?_, ?_⟩ <;> linarith

theorem r3_fine_bounds (r3 : K) (h3 : r3 * r3 = 3) (hpos : 0 < r3) :
    173 / 100 < r3 ∧ r3 < 7 / 4 := by
  constructor
  · by_contra h
    push_neg at h
    nlinarith
  · by_contra h
    push_neg at h
    nlinarith

theorem crowd_contact :
    contactDistance (JSMath.mk Real.sqrt Real.cos Real.sin Real.pi)
        (crowdLow ℝ) (crowdHigh ℝ) = 1 ∧
      contactNormal (JSMath.mk Real.sqrt Real.cos Real.sin Real.pi)
        (crowdLow ℝ) (crowdHigh ℝ) = ⟨0, 1⟩ := by
  have hne : (crowdLow ℝ).position ≠ (crowdHigh ℝ).position := by
    intro h
    have := congrArg Vec.y h
    norm_num [crowdLow, crowdHigh] at this
  obtain ⟨h1, h2⟩ := contact_of_ne real_sqrtExact _ _ hne
  have hd : Vec.mag (JSMath.mk Real.sqrt Real.cos Real.sin Real.pi)
      (Vec.sub (crowdHigh ℝ).position (crowdLow ℝ).position) = 1 := by
    have h : Vec.magSq (Vec.sub (crowdHigh ℝ).position (crowdLow ℝ).position) = 1 * 1 := by
      norm_num [Vec.magSq, Vec.sub, crowdLow, crowdHigh]
    unfold Vec.mag
    rw [h]
    exact sqrt_of_mul_self real_sqrtExact (by norm_num)
  rw [hd] at h2
  refine ⟨h2, ?_⟩
  rw [contactNormal_components real_sqrtExact, h1, h2]
  apply Vec.ext <;> norm_num [Vec.sub, crowdLow, crowdHigh]

theorem crowd_step :
    (physicsStep (JSMath.mk Real.sqrt Real.cos Real.sin Real.pi) (scenarioConfig ℝ (4 / 5) 1 0)
        (1 / 20) ⟨hex100 ℝ, [crowdLow ℝ, crowdHigh ℝ]⟩)
      = ⟨hex100 ℝ,
          [(resolvePair (JSMath.mk Real.sqrt Real.cos Real.sin Real.pi)
              (scenarioConfig ℝ (4 / 5) 1 0) (crowdLow ℝ) (crowdHigh ℝ)).1,
            (resolvePair (JSMath.mk Real.sqrt Real.cos Real.sin Real.pi)
              (scenarioConfig ℝ (4 / 5) 1 0) (crowdLow ℝ) (crowdHigh ℝ)).2]⟩ := by
  obtain ⟨hb1, hb2⟩ := r3_fine_bounds (Real.sqrt 3) sqrt_three_mul_self sqrt_three_pos
  have hlow : integrateSphere (scenarioConfig ℝ (4 / 5) 1 0) (1 / 20) (crowdLow ℝ)
      = crowdLow ℝ := by
    rw [integrateSphere_free _ _ _ rfl rfl rfl]
    simp [crowdLow, Vec.add, Vec.mult]
  have hhigh : integrateSphere (scenarioConfig ℝ (4 / 5) 1 0) (1 / 20) (crowdHigh ℝ)
      = crowdHigh ℝ := by
    rw [integrateSphere_free _ _ _ rfl rfl rfl]
    simp [crowdHigh, Vec.add, Vec.mult]
  have clow : ClearOfWalls (JSMath.mk Real.sqrt Real.cos Real.sin Real.pi) (hex100 ℝ)
      (crowdLow ℝ) := by
    apply clearOfWalls_hex100 real_sqrtExact (Real.sqrt 3) sqrt_three_mul_self (hex100 ℝ)
      getHexagonVertices_hex100 <;> norm_num [crowdLow] <;> linarith
  have chigh : ClearOfWalls (JSMath.mk Real.sqrt Real.cos Real.sin Real.pi) (hex100 ℝ)
      (crowdHigh ℝ) := by
    apply clearOfWalls_hex100 real_sqrtExact (Real.sqrt 3) sqrt_three_mul_self (hex100 ℝ)
      getHexagonVertices_hex100 <;> norm_num [crowdHigh] <;> linarith
  unfold physicsStep
  simp only [updateSpheres_eq_map, List.map, hlow, hhigh,
    updateHexagon_still (scenarioConfig ℝ (4 / 5) 1 0) (1 / 20) (hex100 ℝ) rfl,
    keepSphere_of_clear _ _ _ _ clow, keepSphere_of_clear _ _ _ _ chigh]
  simp [resolveSphereCollisions, resolveRow, resolvePairAt, List.range, List.range.loop,
    List.range']

/-- C4 as stated fails: in the hexagon of radius 100 two bodies of radius 5 (masses 40 and
15) at rest at `(0, 80)` and `(0, 81)` both pass the padded inside test; after one physics
step the pairwise correction has pushed the second one to `(0, 963/11)`, beyond the edge
`y = 50·√3`: the inside test fails there with the body's radius as padding and even with
padding 0. -/
theorem containment_counterexample :
    (∀ s ∈ [crowdLow ℝ, crowdHigh ℝ], 0 < s.radius ∧ s.radius < 50 * Real.sqrt 3 ∧
        isInsideHexagon (JSMath.mk Real.sqrt Real.cos Real.sin Real.pi) (hex100 ℝ)
          s.position s.radius = true) ∧
      ∃ s ∈ (physicsStep (JSMath.mk Real.sqrt Real.cos Real.sin Real.pi)
          (scenarioConfig ℝ (4 / 5) 1 0) (1 / 20)
          ⟨hex100 ℝ, [crowdLow ℝ, crowdHigh ℝ]⟩).spheres,
        s.position = ⟨0, 963 / 11⟩ ∧
        isInsideHexagon (JSMath.mk Real.sqrt Real.cos Real.sin Real.pi)
          (physicsStep (JSMath.mk Real.sqrt Real.cos Real.sin Real.pi)
            (scenarioConfig ℝ (4 / 5) 1 0) (1 / 20)
            ⟨hex100 ℝ, [crowdLow ℝ, crowdHigh ℝ]⟩).hexagon
          s.position s.radius = false ∧
        isInsideHexagon (JSMath.mk Real.sqrt Real.cos Real.sin Real.pi)
          (physicsStep (JSMath.mk Real.sqrt Real.cos Real.sin Real.pi)
            (scenarioConfig ℝ (4 / 5) 1 0) (1 / 20)
            ⟨hex100 ℝ, [crowdLow ℝ, crowdHigh ℝ]⟩).hexagon
          s.position 0 = false := by
  obtain ⟨hb1, hb2⟩ := r3_fine_bounds (Real.sqrt 3) sqrt_three_mul_self sqrt_three_pos
  constructor
  · intro s hs
    simp only [List.mem_cons, List.mem_singleton, List.not_mem_nil, or_false] at hs
    rcases hs with h | h <;> subst h
    · refine ⟨by norm_num [crowdLow], by norm_num [crowdLow]; linarith, ?_⟩
      rw [isInsideHexagon_hex100 real_sqrtExact (Real.sqrt 3) sqrt_three_mul_self (hex100 ℝ)
        getHexagonVertices_hex100]
      norm_num [crowdLow]
      refine ⟨?_, ?_, ?_, ?_, ?_, ?_⟩ <;> linarith
    · refine ⟨by norm_num [crowdHigh], by norm_num [crowdHigh]; linarith, ?_⟩
      rw [isInsideHexagon_hex100 real_sqrtExact (Real.sqrt 3) sqrt_three_mul_self (hex100 ℝ)
        getHexagonVertices_hex100]
      norm_num [crowdHigh]
      refine ⟨?_, ?_, ?_, ?_, ?_, ?_⟩ <;> linarith
  · rw [crowd_step]
    refine ⟨_, List.mem_cons_of_mem _ (List.mem_singleton.mpr rfl), ?_⟩
    have hov : PairOverlaps (JSMath.mk Real.sqrt Real.cos Real.sin Real.pi)
        (crowdLow ℝ) (crowdHigh ℝ) := by
      unfold PairOverlaps
      rw [crowd_contact.1]
      norm_num [crowdLow, crowdHigh]
    have hP := resolvePair_position_snd (JSMath.mk Real.sqrt Real.cos Real.sin Real.pi)
      (scenarioConfig ℝ (4 / 5) 1 0) (crowdLow ℝ) (crowdHigh ℝ) hov
    rw [crowd_contact.1, crowd_contact.2] at hP
    have hpos : (resolvePair (JSMath.mk Real.sqrt Real.cos Real.sin Real.pi)
        (scenarioConfig ℝ (4 / 5) 1 0) (crowdLow ℝ) (crowdHigh ℝ)).2.position
        = ⟨0, 963 / 11⟩ := by
      rw [hP]
      apply Vec.ext <;> norm_num [Vec.add, Vec.mult, crowdLow, crowdHigh]
    have hrad := (resolvePair_mass_radius (JSMath.mk Real.sqrt Real.cos Real.sin Real.pi)
      (scenarioConfig ℝ (4 / 5) 1 0) (crowdLow ℝ) (crowdHigh ℝ)).2.2.2
    rw [hpos, hrad]
    refine ⟨rfl, ?_, ?_⟩
    · rw [Bool.eq_false_iff]
      intro hin
      rw [isInsideHexagon_hex100 real_sqrtExact (Real.sqrt 3) sqrt_three_mul_self (hex100 ℝ)
        getHexagonVertices_hex100] at hin
      obtain ⟨-, h1, -⟩ := hin
      norm_num [crowdHigh] at h1
      linarith
    · rw [Bool.eq_false_iff]
      intro hin
      rw [isInsideHexagon_hex100 real_sqrtExact (Real.sqrt 3) sqrt_three_mul_self (hex100 ℝ)
        getHexagonVertices_hex100] at hin
      obtain ⟨-, h1, -⟩ := hin
      norm_num at h1
      linarith

/-- Witness of the amended C4: one body (the wall scenario body), one step of `dt = 1/20`;
afterwards it is at least its radius inside the last edge `(50, −50√3) → (100, 0)`. -/
theorem containment_last_edge_witness :
    penetration (JSMath.mk Real.sqrt Real.cos Real.sin Real.pi)
      ⟨50, -(50 * Real.sqrt 3)⟩ ⟨100, 0⟩
      (keepSphereInsideHexagon (JSMath.mk Real.sqrt Real.cos Real.sin Real.pi)
        (scenarioConfig ℝ (4 / 5) 1 0) (hex100 ℝ)
        (integrateSphere (scenarioConfig ℝ (4 / 5) 1 0) (1 / 20) (wallScenarioBody ℝ))) ≤ 0 := by
  have hhex : updateHexagon (scenarioConfig ℝ (4 / 5) 1 0) (1 / 20) (hex100 ℝ) = hex100 ℝ :=
    updateHexagon_still _ _ _ rfl
  have hquiet : resolveSphereCollisions (JSMath.mk Real.sqrt Real.cos Real.sin Real.pi)
      (scenarioConfig ℝ (4 / 5) 1 0)
      (updateSpheres (JSMath.mk Real.sqrt Real.cos Real.sin Real.pi)
        (scenarioConfig ℝ (4 / 5) 1 0)
        (updateHexagon (scenarioConfig ℝ (4 / 5) 1 0) (1 / 20)
          (State.mk (hex100 ℝ) [wallScenarioBody ℝ]).hexagon) (1 / 20)
        (State.mk (hex100 ℝ) [wallScenarioBody ℝ]).spheres)
      = updateSpheres (JSMath.mk Real.sqrt Real.cos Real.sin Real.pi)
        (scenarioConfig ℝ (4 / 5) 1 0)
        (updateHexagon (scenarioConfig ℝ (4 / 5) 1 0) (1 / 20)
          (State.mk (hex100 ℝ) [wallScenarioBody ℝ]).hexagon) (1 / 20)
        (State.mk (hex100 ℝ) [wallScenarioBody ℝ]).spheres := by
    rw [updateSpheres_eq_map]
    exact resolveSphereCollisions_singleton _ _ _
  have hsp : (physicsStep (JSMath.mk Real.sqrt Real.cos Real.sin Real.pi)
      (scenarioConfig ℝ (4 / 5) 1 0) (1 / 20) ⟨hex100 ℝ, [wallScenarioBody ℝ]⟩).spheres
      = [keepSphereInsideHexagon (JSMath.mk Real.sqrt Real.cos Real.sin Real.pi)
          (scenarioConfig ℝ (4 / 5) 1 0) (hex100 ℝ)
          (integrateSphere (scenarioConfig ℝ (4 / 5) 1 0) (1 / 20) (wallScenarioBody ℝ))] := by
    unfold physicsStep
    simp only [updateSpheres_eq_map, List.map, hhex, resolveSphereCollisions_singleton]
  have H := (containment_last_edge real_sqrtExact (scenarioConfig ℝ (4 / 5) 1 0) (1 / 20)
    ⟨hex100 ℝ, [wallScenarioBody ℝ]⟩ hquiet).2 _
      (by rw [hsp]; exact List.mem_singleton.mpr rfl)
  have hh : (physicsStep (JSMath.mk Real.sqrt Real.cos Real.sin Real.pi)
      (scenarioConfig ℝ (4 / 5) 1 0) (1 / 20) ⟨hex100 ℝ, [wallScenarioBody ℝ]⟩).hexagon
      = hex100 ℝ := hhex
  rw [hh, getHexagonVertices_hex100] at H
  exact H _ _ (by simp [hex100Vertices]) (by simp [hex100Vertices])
    (edgeProper_hex100 (Real.sqrt 3) sqrt_three_mul_self).2.2.2.2.2

/-! ## One-edge correction, coincident bodies, pair energy -/

/-- C16. For every edge the wall pass does not skip (its normal `n` is then a unit vector)
and every body with `penetration = (position − edgeStart)·n + radius > 0`, the body is moved
by exactly `penetration` along `−n`, its radius is kept, and right after this edge's
correction its signed distance to the edge line is exactly `−radius` (penetration 0); a body
with penetration `≤ 0` has neither position nor velocity changed by that edge. -/
theorem wall_position_correction {M : JSMath K} (hM : M.SqrtExact) (cfg : Config K)
    (hexagon : Hexagon K) (p1 p2 : Vec K) (s : Sphere K) (he : EdgeProper p1 p2) :
    Vec.dot (edgeNormal M p1 p2) (edgeNormal M p1 p2) = 1 ∧
      (penetration M p1 p2 s > 0 →
        (wallEdge M cfg hexagon p1 p2 s).position =
            Vec.add s.position (Vec.mult (edgeNormal M p1 p2) (-penetration M p1 p2 s)) ∧
          (wallEdge M cfg hexagon p1 p2 s).radius = s.radius ∧
          penetration M p1 p2 (wallEdge M cfg hexagon p1 p2 s) = 0 ∧
          Vec.dot (Vec.sub (wallEdge M cfg hexagon p1 p2 s).position p1) (edgeNormal M p1 p2)
            = -s.radius) ∧
      (¬ penetration M p1 p2 s > 0 →
        (wallEdge M cfg hexagon p1 p2 s).position = s.position ∧
          (wallEdge M cfg hexagon p1 p2 s).velocity = s.velocity) := by
  have hn : (edgeNormal M p1 p2).x * (edgeNormal M p1 p2).x
      + (edgeNormal M p1 p2).y * (edgeNormal M p1 p2).y = 1 := edgeNormal_unit hM p1 p2 he
  refine ⟨edgeNormal_unit hM p1 p2 he, fun hpen => ?_, fun hpen => ?_⟩
  · have hP := wallEdge_position M cfg hexagon p1 p2 s he hpen
    have hR := (wallEdge_radius_mass M cfg hexagon p1 p2 s).1
    have hd : Vec.dot (Vec.sub (wallEdge M cfg hexagon p1 p2 s).position p1)
        (edgeNormal M p1 p2) = -s.radius := by
      rw [hP]
      have hpe := penetration_eq M p1 p2 s _ rfl
      generalize penetration M p1 p2 s = pen at hpe
      generalize edgeNormal M p1 p2 = n at hn hpe
      simp only [Vec.dot, Vec.sub, Vec.add, Vec.mult]
      linear_combination (-pen) * hn - hpe
    refine ⟨hP, hR, ?_, hd⟩
    unfold penetration
    dsimp only
    rw [hd, hR]
    ring
  · rw [wallEdge_clear M cfg hexagon p1 p2 s hpen]
    exact ⟨rfl, rfl⟩

/-- Witness of C16: edge `(0,0) → (0,1)` with normal `(1,0)`; the body of radius 1 at
`(0, 1/2)` has penetration 1 and is moved to `(-1, 1/2)`. -/
theorem wall_position_correction_witness :
    (wallEdge (JSMath.mk Real.sqrt Real.cos Real.sin Real.pi) (spinConfig ℝ) (spinHexagon ℝ)
      ⟨0, 0⟩ ⟨0, 1⟩ (spinBody ℝ)).position = ⟨-1, 1 / 2⟩ := by
  have hpen : penetration (JSMath.mk Real.sqrt Real.cos Real.sin Real.pi)
      ⟨0, 0⟩ ⟨0, 1⟩ (spinBody ℝ) = 1 := by
    unfold penetration
    rw [spin_edgeNormal]
    norm_num [Vec.dot, Vec.sub, spinBody]
  have H := (wall_position_correction real_sqrtExact (spinConfig ℝ) (spinHexagon ℝ)
    ⟨0, 0⟩ ⟨0, 1⟩ (spinBody ℝ)
    (by simp [EdgeProper, Vec.magSq, Vec.createVector, Vec.sub])).2.1
    (by rw [hpen]; norm_num)
  rw [H.1, hpen, spin_edgeNormal]
  apply Vec.ext <;> norm_num [Vec.add, Vec.mult, spinBody]

/-- C17. Two bodies at exactly the same position, positive masses,
`radius_i + radius_j > 0.0001`: every divisor of the pair visit (`distance = 0.0001`,
`totalMass`, the two masses, `1/mass_i + 1/mass_j`) is non-zero, the normal is `(1, 0)`, body
`i` moves toward `−x` and body `j` toward `+x` with `y` unchanged, and the centres end at
distance `radius_i + radius_j − 0.0001`. -/
theorem coincident_bodies {M : JSMath K} (hM : M.SqrtExact) (cfg : Config K)
    (a b : Sphere K) (hp : a.position = b.position) (hma : 0 < a.mass) (hmb : 0 < b.mass)
    (hr : a.radius + b.radius > 1 / 10000) :
    contactDistance M a b = 1 / 10000 ∧ contactDistance M a b ≠ 0 ∧
      a.mass + b.mass ≠ 0 ∧ a.mass ≠ 0 ∧ b.mass ≠ 0 ∧ 1 / a.mass + 1 / b.mass ≠ 0 ∧
      contactNormal M a b = ⟨1, 0⟩ ∧
      (resolvePair M cfg a b).1.position.x < a.position.x ∧
      (resolvePair M cfg a b).1.position.y = a.position.y ∧
      b.position.x < (resolvePair M cfg a b).2.position.x ∧
      (resolvePair M cfg a b).2.position.y = b.position.y ∧
      Vec.mag M (Vec.sub (resolvePair M cfg a b).2.position (resolvePair M cfg a b).1.position)
        = a.radius + b.radius - 1 / 10000 := by
  obtain ⟨h1, h2⟩ := contact_of_eq hM a b hp
  have hn : contactNormal M a b = ⟨1, 0⟩ := by
    rw [contactNormal_components hM, h1, h2]; simp
  have hov : PairOverlaps M a b := by
    unfold PairOverlaps; rw [h2]; exact ⟨hr, by norm_num⟩
  have hT : 0 < a.mass + b.mass := by positivity
  have hP1 := resolvePair_position_fst M cfg a b hov
  have hP2 := resolvePair_position_snd M cfg a b hov
  rw [h2, hn] at hP1 hP2
  have ho : 0 < a.radius + b.radius - 1 / 10000 := by linarith
  have hca : 0 < (a.radius + b.radius - 1 / 10000) * (b.mass / (a.mass + b.mass)) :=
    mul_pos ho (div_pos hmb hT)
  have hcb : 0 < (a.radius + b.radius - 1 / 10000) * (a.mass / (a.mass + b.mass)) :=
    mul_pos ho (div_pos hma hT)
  refine ⟨h2, by rw [h2]; norm_num, hT.ne', hma.ne', hmb.ne', by positivity, hn,
    ?_, ?_, ?_, ?_, ?_⟩
  · rw [hP1]; simp only [Vec.add, Vec.mult]; linarith
  · rw [hP1]; simp [Vec.add, Vec.mult]
  · rw [hP2]; simp only [Vec.add, Vec.mult]; linarith
  · rw [hP2]; simp [Vec.add, Vec.mult]
  · have hsub : Vec.sub (resolvePair M cfg a b).2.position (resolvePair M cfg a b).1.position
        = Vec.mult (⟨1, 0⟩ : Vec K) (a.radius + b.radius - 1 / 10000) := by
      rw [hP1, hP2, hp]
      have hT' := hT.ne'
      apply Vec.ext
      · simp only [Vec.sub, Vec.add, Vec.mult]; field_simp; ring
      · simp only [Vec.sub, Vec.add, Vec.mult]; ring
    rw [hsub]
    exact mag_mult_unit hM _ (by simp [Vec.dot]) _ ho.le

/-- Witness of C17: two copies of the first scenario body (radius 1 each) end at distance
`1.9999`. -/
theorem coincident_bodies_witness :
    Vec.mag (JSMath.mk Real.sqrt Real.cos Real.sin Real.pi)
        (Vec.sub
          (resolvePair (JSMath.mk Real.sqrt Real.cos Real.sin Real.pi)
            (scenarioConfig ℝ (4 / 5) 1 0) (scenarioBodyA ℝ) (scenarioBodyA ℝ)).2.position
          (resolvePair (JSMath.mk Real.sqrt Real.cos Real.sin Real.pi)
            (scenarioConfig ℝ (4 / 5) 1 0) (scenarioBodyA ℝ) (scenarioBodyA ℝ)).1.position)
      = 19999 / 10000 := by
  have H := coincident_bodies real_sqrtExact (scenarioConfig ℝ (4 / 5) 1 0)
    (scenarioBodyA ℝ) (scenarioBodyA ℝ) rfl (by norm_num [scenarioBodyA])
    (by norm_num [scenarioBodyA]) (by norm_num [scenarioBodyA])
  rw [H.2.2.2.2.2.2.2.2.2.2.2]
  norm_num [scenarioBodyA]

/-- C20. For every pair with positive masses and `0 ≤ e ≤ 1` (`e = sphereRestitution`) the
visit of the pair does not increase `½·m_i·|v_i|² + ½·m_j·|v_j|²`; when the pair is resolved
(overlap branch entered) and approaching, the change is exactly
`−½·(1 − e²)·(m_i·m_j/(m_i+m_j))·((v_j − v_i)·n)²`; otherwise the energy is unchanged; with
`e = 1` it is always unchanged. -/
theorem pair_energy_bound {M : JSMath K} (hM : M.SqrtExact) (cfg : Config K)
    (a b : Sphere K) (hma : 0 < a.mass) (hmb : 0 < b.mass)
    (he0 : 0 ≤ cfg.sphereRestitution) (he1 : cfg.sphereRestitution ≤ 1) :
    kineticEnergy (resolvePair M cfg a b).1 + kineticEnergy (resolvePair M cfg a b).2
        ≤ kineticEnergy a + kineticEnergy b ∧
      (PairOverlaps M a b → speedAlongNormal M a b < 0 →
        kineticEnergy (resolvePair M cfg a b).1 + kineticEnergy (resolvePair M cfg a b).2
          = kineticEnergy a + kineticEnergy b
            - 1 / 2 * (1 - cfg.sphereRestitution * cfg.sphereRestitution)
              * (a.mass * b.mass / (a.mass + b.mass))
              * (speedAlongNormal M a b * speedAlongNormal M a b)) ∧
      (¬ (PairOverlaps M a b ∧ speedAlongNormal M a b < 0) →
        kineticEnergy (resolvePair M cfg a b).1 + kineticEnergy (resolvePair M cfg a b).2
          = kineticEnergy a + kineticEnergy b) ∧
      (cfg.sphereRestitution = 1 →
        kineticEnergy (resolvePair M cfg a b).1 + kineticEnergy (resolvePair M cfg a b).2
          = kineticEnergy a + kineticEnergy b) := by
  have hsame : ¬ (PairOverlaps M a b ∧ speedAlongNormal M a b < 0) →
      kineticEnergy (resolvePair M cfg a b).1 + kineticEnergy (resolvePair M cfg a b).2
        = kineticEnergy a + kineticEnergy b := by
    intro h
    by_cases hov : PairOverlaps M a b
    · have hs : ¬ speedAlongNormal M a b < 0 := fun hs => h ⟨hov, hs⟩
      obtain ⟨h1, h2⟩ := resolvePair_velocity_separating M cfg a b hs
      obtain ⟨m1, m2, -, -⟩ := resolvePair_mass_radius M cfg a b
      unfold kineticEnergy
      rw [h1, h2, m1, m2]
    · rw [resolvePair_no_overlap M cfg a b hov]
  refine ⟨resolvePair_energy_le hM cfg a b hma hmb (by linarith) he1,
    fun hov hs => resolvePair_energy_change hM cfg a b hma hmb hov hs, hsame, fun he => ?_⟩
  by_cases h : PairOverlaps M a b ∧ speedAlongNormal M a b < 0
  · rw [resolvePair_energy_change hM cfg a b hma hmb h.1 h.2, he]
    ring
  · exact hsame h

/-- Witness of C20: the two-body scenario with `e = 1/2` goes from kinetic energy 1 to
`1/4`, a change of `−½·(3/4)·(1/2)·4`. -/
theorem pair_energy_bound_witness :
    kineticEnergy (resolvePair (JSMath.mk Real.sqrt Real.cos Real.sin Real.pi)
        (scenarioConfig ℝ (4 / 5) (1 / 2) 0) (scenarioBodyA ℝ) (scenarioBodyB ℝ)).1
      + kineticEnergy (resolvePair (JSMath.mk Real.sqrt Real.cos Real.sin Real.pi)
        (scenarioConfig ℝ (4 / 5) (1 / 2) 0) (scenarioBodyA ℝ) (scenarioBodyB ℝ)).2
      = 1 / 4 := by
  have H := (pair_energy_bound real_sqrtExact (scenarioConfig ℝ (4 / 5) (1 / 2) 0)
    (scenarioBodyA ℝ) (scenarioBodyB ℝ) (by norm_num [scenarioBodyA])
    (by norm_num [scenarioBodyB]) (by norm_num [scenarioConfig])
    (by norm_num [scenarioConfig])).2.1 scenario_overlaps
    (by rw [scenario_approaching]; norm_num)
  rw [H, scenario_approaching]
  norm_num [kineticEnergy, Vec.magSq, scenarioBodyA, scenarioBodyB, scenarioConfig]

/-! ## Frame and momentum of the collision pass -/

theorem resolveSphereCollisions_induction (M : JSMath K) (cfg : Config K)
    (Inv : List (Sphere K) → Prop)
    (hstep : ∀ (l : List (Sphere K)) (i j : Nat), i < j → Inv l →
      Inv (resolvePairAt M cfg l i j))
    (ss : List (Sphere K)) (h0 : Inv ss) : Inv (resolveSphereCollisions M cfg ss) := by
  have hrow : ∀ (i : Nat) (js : List Nat), (∀ j ∈ js, i < j) → ∀ l : List (Sphere K),
      Inv l → Inv (js.foldl (fun ss j => resolvePairAt M cfg ss i j) l) := by
    intro i js
    induction js with
    | nil => intro _ l hl; exact hl
    | cons j js ih =>
      intro hjs l hl
      simp only [List.foldl_cons]
      exact ih (fun j' hj' => hjs j' (List.mem_cons_of_mem _ hj')) _
        (hstep l i j (hjs j (List.mem_cons_self _ _)) hl)
  unfold resolveSphereCollisions
  generalize List.range ss.length = is
  induction is generalizing ss with
  | nil => exact h0
  | cons i is ih =>
    simp only [List.foldl_cons]
    apply ih
    unfold resolveRow
    apply hrow i _ _ ss h0
    intro j hj
    rw [List.mem_range'_1] at hj
    omega

theorem resolvePair_of_apart (M : JSMath K) (cfg : Config K) (a b : Sphere K)
    (h : a.radius + b.radius ≤ Vec.mag M (Vec.sub b.position a.position)) :
    resolvePair M cfg a b = (a, b) := by
  apply resolvePair_no_overlap
  unfold PairOverlaps contactDistance
  dsimp only
  intro hc
  by_cases h0 : Vec.mag M (Vec.sub b.position a.position) = 0
  · rw [if_pos h0] at hc
    rw [h0] at h
    linarith [hc.1, hc.2]
  · rw [if_neg h0] at hc
    linarith [hc.1]

theorem set_set_self {α : Type} (l : List α) (i j : Nat) (a b : α)
    (ha : l[i]? = some a) (hb : l[j]? = some b) : (l.set i a).set j b = l := by
  apply List.ext_getElem?
  intro n
  rw [List.getElem?_set', List.getElem?_set']
  by_cases hj : j = n
  · subst hj
    by_cases hi : i = j
    · subst hi
      have : a = b := Option.some.inj (ha.symm.trans hb)
      subst this
      simp [ha]
    · simp [hi, hb]
  · by_cases hi : i = n
    · subst hi; simp [hj, ha]
    · simp [hi, hj]

theorem map_set_of_eq {α β : Type} (f : α → β) (l : List α) (i : Nat) (x y : α)
    (h : l[i]? = some y) (hf : f x = f y) : (l.set i x).map f = l.map f := by
  induction l generalizing i with
  | nil => simp at h
  | cons z zs ih =>
    cases i with
    | zero =>
      simp at h
      subst h
      simp [List.set, hf]
    | succ i =>
      simp at h
      simp only [List.set, List.map_cons]
      rw [ih i h]

theorem resolvePairAt_radius_mass (M : JSMath K) (cfg : Config K) (l : List (Sphere K))
    (i j : Nat) (hij : i ≠ j) :
    (resolvePairAt M cfg l i j).map (fun s => s.radius) = l.map (fun s => s.radius) ∧
      (resolvePairAt M cfg l i j).map (fun s => s.mass) = l.map (fun s => s.mass) ∧
      (resolvePairAt M cfg l i j).length = l.length := by
  unfold resolvePairAt
  split
  · rename_i a b ha hb
    obtain ⟨m1, m2, r1, r2⟩ := resolvePair_mass_radius M cfg a b
    have hb' : (l.set i (resolvePair M cfg a b).1)[j]? = some b := by
      rw [List.getElem?_set_ne hij]; exact hb
    refine ⟨?_, ?_, by simp⟩
    · rw [map_set_of_eq _ _ j _ b hb' r2, map_set_of_eq _ _ i _ a ha r1]
    · rw [map_set_of_eq _ _ j _ b hb' m2, map_set_of_eq _ _ i _ a ha m1]
  · exact ⟨rfl, rfl, rfl⟩

/-- C18. A pair whose centre distance is at least `radius_i + radius_j` is returned
unchanged by the visit; hence for a list in which no pair `i < j` overlaps,
`resolveSphereCollisions` returns the list unchanged; and for every list the length, the
radii and the masses are unchanged. -/
theorem pairwise_frame (M : JSMath K) (cfg : Config K) :
    (∀ a b : Sphere K, a.radius + b.radius ≤ Vec.mag M (Vec.sub b.position a.position) →
        resolvePair M cfg a b = (a, b)) ∧
      (∀ ss : List (Sphere K),
        (∀ (i j : Nat) (a b : Sphere K), i < j → ss[i]? = some a → ss[j]? = some b →
          a.radius + b.radius ≤ Vec.mag M (Vec.sub b.position a.position)) →
        resolveSphereCollisions M cfg ss = ss) ∧
      (∀ ss : List (Sphere K),
        (resolveSphereCollisions M cfg ss).length = ss.length ∧
        (resolveSphereCollisions M cfg ss).map (fun s => s.radius)
          = ss.map (fun s => s.radius) ∧
        (resolveSphereCollisions M cfg ss).map (fun s => s.mass)
          = ss.map (fun s => s.mass)) := by
  refine ⟨resolvePair_of_apart M cfg, fun ss hss => ?_, fun ss => ?_⟩
  · apply resolveSphereCollisions_induction M cfg (fun l => l = ss) _ ss rfl
    intro l i j hij hl
    subst hl
    unfold resolvePairAt
    split
    · rename_i a b ha hb
      rw [resolvePair_of_apart M cfg a b (hss i j a b hij ha hb)]
      exact set_set_self _ i j a b ha hb
    · rfl
  · have := resolveSphereCollisions_induction M cfg
      (fun l => l.length = ss.length ∧
        l.map (fun s => s.radius) = ss.map (fun s => s.radius) ∧
        l.map (fun s => s.mass) = ss.map (fun s => s.mass))
      (fun l i j hij hl => by
        obtain ⟨h1, h2, h3⟩ := resolvePairAt_radius_mass M cfg l i j (Nat.ne_of_lt hij)
        exact ⟨h3.trans hl.1, h1.trans hl.2.1, h2.trans hl.2.2⟩)
      ss ⟨rfl, rfl, rfl⟩
    exact this

theorem resolvePair_momentum (M : JSMath K) (cfg : Config K) (a b : Sphere K)
    (hma : 0 < a.mass) (hmb : 0 < b.mass) :
    a.mass * (resolvePair M cfg a b).1.velocity.x + b.mass * (resolvePair M cfg a b).2.velocity.x
        = a.mass * a.velocity.x + b.mass * b.velocity.x ∧
      a.mass * (resolvePair M cfg a b).1.velocity.y
          + b.mass * (resolvePair M cfg a b).2.velocity.y
        = a.mass * a.velocity.y + b.mass * b.velocity.y := by
  by_cases h : PairOverlaps M a b ∧ speedAlongNormal M a b < 0
  · obtain ⟨h1, h2⟩ := resolvePair_velocity_formula M cfg a b hma hmb h.1 h.2
    rw [h1, h2]
    have hma' := hma.ne'
    have hmb' := hmb.ne'
    constructor
    · simp only [Vec.sub, Vec.add, Vec.mult]; field_simp; ring
    · simp only [Vec.sub, Vec.add, Vec.mult]; field_simp; ring
  · by_cases hov : PairOverlaps M a b
    · have hs : ¬ speedAlongNormal M a b < 0 := fun hs => h ⟨hov, hs⟩
      obtain ⟨h1, h2⟩ := resolvePair_velocity_separating M cfg a b hs
      rw [h1, h2]; exact ⟨rfl, rfl⟩
    · rw [resolvePair_no_overlap M cfg a b hov]; exact ⟨rfl, rfl⟩

theorem resolvePairAt_momentum (M : JSMath K) (cfg : Config K) (l : List (Sphere K))
    (i j : Nat) (hij : i ≠ j) (hm : MassesPositive l) :
    totalMomentum (resolvePairAt M cfg l i j) = totalMomentum l ∧
      MassesPositive (resolvePairAt M cfg l i j) := by
  unfold resolvePairAt
  split
  · rename_i a b ha hb
    have hma : 0 < a.mass := hm a (List.getElem?_mem ha)
    have hmb : 0 < b.mass := hm b (List.getElem?_mem hb)
    obtain ⟨m1, m2, -, -⟩ := resolvePair_mass_radius M cfg a b
    obtain ⟨px, py⟩ := resolvePair_momentum M cfg a b hma hmb
    have hb' : (l.set i (resolvePair M cfg a b).1)[j]? = some b := by
      rw [List.getElem?_set_ne hij]; exact hb
    constructor
    · unfold totalMomentum
      rw [sum_map_set (fun s => s.mass * s.velocity.x) _ j _ b hb',
        sum_map_set (fun s => s.mass * s.velocity.x) _ i _ a ha,
        sum_map_set (fun s => s.mass * s.velocity.y) _ j _ b hb',
        sum_map_set (fun s => s.mass * s.velocity.y) _ i _ a ha]
      simp only [m1, m2]
      apply Vec.ext
      · simp only []; linarith
      · simp only []; linarith
    · intro s hs
      rcases List.mem_or_eq_of_mem_set hs with h | h
      · rcases List.mem_or_eq_of_mem_set h with h' | h'
        · exact hm s h'
        · rw [h', m1]; exact hma
      · rw [h, m2]; exact hmb
  · exact ⟨rfl, hm⟩

/-- C19. For every list of bodies with positive masses and every `sphereRestitution`,
`resolveSphereCollisions` leaves the total linear momentum `Σ mass·velocity` unchanged. -/
theorem momentum_conservation (M : JSMath K) (cfg : Config K) (ss : List (Sphere K))
    (hm : MassesPositive ss) :
    totalMomentum (resolveSphereCollisions M cfg ss) = totalMomentum ss := by
  have := resolveSphereCollisions_induction M cfg
    (fun l => totalMomentum l = totalMomentum ss ∧ MassesPositive l)
    (fun l i j hij hl => by
      obtain ⟨h1, h2⟩ := resolvePairAt_momentum M cfg l i j (Nat.ne_of_lt hij) hl.2
      exact ⟨h1.trans hl.1, h2⟩)
    ss ⟨rfl, hm⟩
  exact this.1

/-- Witness of C18: two bodies of radii 1 and 5 at distance 98 are returned unchanged. -/
theorem pairwise_frame_witness :
    resolveSphereCollisions (JSMath.mk Real.sqrt Real.cos Real.sin Real.pi)
        (scenarioConfig ℝ (4 / 5) 1 0) [scenarioBodyA ℝ, farBody ℝ]
      = [scenarioBodyA ℝ, farBody ℝ] := by
  apply (pairwise_frame (JSMath.mk Real.sqrt Real.cos Real.sin Real.pi)
    (scenarioConfig ℝ (4 / 5) 1 0)).2.1
  intro i j a b hij ha hb
  have hj : j < 2 := by
    by_contra hge
    have : [scenarioBodyA ℝ, farBody ℝ][j]? = none :=
      List.getElem?_eq_none (by simp; omega)
    rw [this] at hb
    exact Option.noConfusion hb
  have hi0 : i = 0 := by omega
  have hj1 : j = 1 := by omega
  subst hi0
  subst hj1
  simp at ha hb
  subst ha
  subst hb
  have hd : Vec.mag (JSMath.mk Real.sqrt Real.cos Real.sin Real.pi)
      (Vec.sub (farBody ℝ).position (scenarioBodyA ℝ).position) = 98 := by
    have h : Vec.magSq (Vec.sub (farBody ℝ).position (scenarioBodyA ℝ).position)
        = 98 * 98 := by
      norm_num [Vec.magSq, Vec.sub, farBody, scenarioBodyA]
    unfold Vec.mag
    rw [h]
    exact sqrt_of_mul_self real_sqrtExact (by norm_num)
  rw [hd]
  norm_num [farBody, scenarioBodyA]

/-- Witness of C19: the two-body scenario with `e = 1/2` has total momentum `(0, 0)` after
the collision pass, as before it. -/
theorem momentum_conservation_witness :
    totalMomentum (resolveSphereCollisions (JSMath.mk Real.sqrt Real.cos Real.sin Real.pi)
        (scenarioConfig ℝ (4 / 5) (1 / 2) 0) [scenarioBodyA ℝ, scenarioBodyB ℝ])
      = ⟨0, 0⟩ := by
  have H := momentum_conservation (JSMath.mk Real.sqrt Real.cos Real.sin Real.pi)
    (scenarioConfig ℝ (4 / 5) (1 / 2) 0) [scenarioBodyA ℝ, scenarioBodyB ℝ]
    (by
      intro s hs
      simp only [List.mem_cons, List.mem_singleton, List.not_mem_nil, or_false] at hs
      rcases hs with h | h <;> subst h <;> norm_num [scenarioBodyA, scenarioBodyB])
  rw [H]
  apply Vec.ext <;> norm_num [totalMomentum, scenarioBodyA, scenarioBodyB]

/-! ## Closest point on a segment -/

theorem sqrt_le_sqrt_of_exact {M : JSMath K} (hM : M.SqrtExact) {x y : K} (hx : 0 ≤ x)
    (hxy : x ≤ y) : M.sqrt x ≤ M.sqrt y := by
  have hy : 0 ≤ y := le_trans hx hxy
  have h1 := sqrt_nonneg_of_exact hM hx
  have h2 := sqrt_nonneg_of_exact hM hy
  have h3 := sqrt_mul_self_of_exact hM hx
  have h4 := sqrt_mul_self_of_exact hM hy
  by_contra h
  push_neg at h
  nlinarith

theorem constrain_unit (t0 : K) :
    0 ≤ constrain t0 0 1 ∧ constrain t0 0 1 ≤ 1 ∧
      ((t0 ≤ 0 ∧ constrain t0 0 1 = 0) ∨ (0 ≤ t0 ∧ t0 ≤ 1 ∧ constrain t0 0 1 = t0) ∨
        (1 ≤ t0 ∧ constrain t0 0 1 = 1)) := by
  unfold constrain
  refine ⟨le_max_right _ _, max_le (min_le_right _ _) (by norm_num), ?_⟩
  rcases le_total t0 0 with h | h
  · left
    refine ⟨h, ?_⟩
    rw [min_eq_left (by linarith), max_eq_right h]
  · rcases le_total t0 1 with h1 | h1
    · right; left
      refine ⟨h, h1, ?_⟩
      rw [min_eq_left h1, max_eq_left h]
    · right; right
      refine ⟨h1, ?_⟩
      rw [min_eq_right h1, max_eq_left (by norm_num)]

/-- C15. For all points `a`, `b`, `point`: `closestPointOnSegment(a, b, point)` is
`a + t·(b − a)` for some `t` in `[0, 1]`, it is `a` when `a = b`, and it is a nearest point of
the segment: its distance to `point` (squared, and also as `mag()` with an exact square root)
is at most that of `a + s·(b − a)` for every `s` in `[0, 1]`. -/
theorem closest_point_on_segment (a b point : Vec K) :
    (∃ t : K, 0 ≤ t ∧ t ≤ 1 ∧
        closestPointOnSegment a b point = Vec.add a (Vec.mult (Vec.sub b a) t)) ∧
      (a = b → closestPointOnSegment a b point = a) ∧
      (∀ s : K, 0 ≤ s → s ≤ 1 →
        Vec.magSq (Vec.sub (closestPointOnSegment a b point) point)
          ≤ Vec.magSq (Vec.sub (Vec.add a (Vec.mult (Vec.sub b a) s)) point)) ∧
      (∀ M : JSMath K, M.SqrtExact → ∀ s : K, 0 ≤ s → s ≤ 1 →
        Vec.mag M (Vec.sub (closestPointOnSegment a b point) point)
          ≤ Vec.mag M (Vec.sub (Vec.add a (Vec.mult (Vec.sub b a) s)) point)) := by
  have hnear : ∀ s : K, 0 ≤ s → s ≤ 1 →
      Vec.magSq (Vec.sub (closestPointOnSegment a b point) point)
        ≤ Vec.magSq (Vec.sub (Vec.add a (Vec.mult (Vec.sub b a) s)) point) := by
    intro s hs0 hs1
    unfold closestPointOnSegment
    dsimp only
    by_cases h0 : Vec.magSq (Vec.sub b a) = 0
    · rw [if_pos h0]
      have hz := (magSq_eq_zero_iff _).mp h0
      rw [hz]
      have : Vec.add a (Vec.mult (⟨0, 0⟩ : Vec K) s) = a := by
        apply Vec.ext <;> simp [Vec.add, Vec.mult]
      rw [this]
    · rw [if_neg h0]
      have hL : 0 < Vec.magSq (Vec.sub b a) :=
        lt_of_le_of_ne (magSq_nonneg _) (Ne.symm h0)
      obtain ⟨ht0, ht1, hcase⟩ :=
        constrain_unit (Vec.dot (Vec.sub point a) (Vec.sub b a) / Vec.magSq (Vec.sub b a))
      have hq : Vec.dot (Vec.sub point a) (Vec.sub b a)
          = Vec.dot (Vec.sub point a) (Vec.sub b a) / Vec.magSq (Vec.sub b a)
            * Vec.magSq (Vec.sub b a) := by
        field_simp
      generalize Vec.dot (Vec.sub point a) (Vec.sub b a) / Vec.magSq (Vec.sub b a) = t0
        at ht0 ht1 hcase hq
      generalize constrain t0 0 1 = t at ht0 ht1 hcase
      have key : ∀ r : K, Vec.magSq (Vec.sub (Vec.add a (Vec.mult (Vec.sub b a) r)) point)
          = Vec.magSq (Vec.sub point a) + Vec.magSq (Vec.sub b a) * (r * r)
            - 2 * r * Vec.dot (Vec.sub point a) (Vec.sub b a) := by
        intro r
        simp only [Vec.magSq, Vec.sub, Vec.add, Vec.mult, Vec.dot]
        ring
      rw [key t, key s, hq]
      generalize Vec.magSq (Vec.sub b a) = L at hL
      rcases hcase with ⟨h1, h2⟩ | ⟨h1, h2, h3⟩ | ⟨h1, h2⟩
      · subst h2
        nlinarith [mul_nonneg hL.le hs0, mul_nonneg (mul_nonneg hL.le hs0) hs0,
          mul_nonneg (mul_nonneg hL.le hs0) (neg_nonneg.mpr h1)]
      · subst h3
        nlinarith [mul_nonneg hL.le (mul_self_nonneg (s - t))]
      · subst h2
        have hs1' : 0 ≤ 1 - s := by linarith
        have ht' : 0 ≤ t0 - 1 := by linarith
        nlinarith [mul_nonneg hL.le hs1', mul_nonneg (mul_nonneg hL.le hs1') hs1',
          mul_nonneg (mul_nonneg hL.le hs1') ht']
  refine ⟨?_, ?_, hnear, ?_⟩
  · unfold closestPointOnSegment
    dsimp only
    by_cases h0 : Vec.magSq (Vec.sub b a) = 0
    · rw [if_pos h0]
      refine ⟨0, le_refl _, by norm_num, ?_⟩
      apply Vec.ext <;> simp [Vec.add, Vec.mult]
    · rw [if_neg h0]
      obtain ⟨ht0, ht1, -⟩ :=
        constrain_unit (Vec.dot (Vec.sub point a) (Vec.sub b a) / Vec.magSq (Vec.sub b a))
      exact ⟨_, ht0, ht1, rfl⟩
  · intro hab
    subst hab
    unfold closestPointOnSegment
    have : Vec.magSq (Vec.sub a a) = 0 := by simp [Vec.magSq, Vec.sub]
    simp only [this, if_true]
  · intro M hM s hs0 hs1
    exact sqrt_le_sqrt_of_exact hM (magSq_nonneg _) (hnear s hs0 hs1)

/-- Witness of C15: on the segment `(0,0) → (0,1)` the closest point to `(3, 5)` is the end
`(0, 1)`, no farther from `(3, 5)` than the midpoint. -/
theorem closest_point_on_segment_witness :
    closestPointOnSegment (⟨0, 0⟩ : Vec ℝ) ⟨0, 1⟩ ⟨3, 5⟩ = ⟨0, 1⟩ ∧
      Vec.magSq (Vec.sub (closestPointOnSegment (⟨0, 0⟩ : Vec ℝ) ⟨0, 1⟩ ⟨3, 5⟩) ⟨3, 5⟩)
        ≤ Vec.magSq (Vec.sub (Vec.add (⟨0, 0⟩ : Vec ℝ)
            (Vec.mult (Vec.sub ⟨0, 1⟩ ⟨0, 0⟩) (1 / 2))) ⟨3, 5⟩) := by
  refine ⟨?_, (closest_point_on_segment (⟨0, 0⟩ : Vec ℝ) ⟨0, 1⟩ ⟨3, 5⟩).2.2.1 (1 / 2)
    (by norm_num) (by norm_num)⟩
  simp only [closestPointOnSegment, Vec.sub, Vec.magSq, Vec.dot, Vec.add, Vec.mult]
  norm_num [constrain]

/-! ## The padded inside test of a regular hexagon -/

theorem regular_edge_normal (c : Vec K) (R ca sa cb sb r3 : K) (h3 : r3 * r3 = 3)
    (hcs : ca * ca + sa * sa = 1) (hcb : cb = ca * (1 / 2) - sa * (r3 / 2))
    (hsb : sb = sa * (1 / 2) + ca * (r3 / 2)) :
    Vec.createVector
        (Vec.sub (⟨c.x + R * cb, c.y + R * sb⟩ : Vec K) ⟨c.x + R * ca, c.y + R * sa⟩).y
        (-(Vec.sub (⟨c.x + R * cb, c.y + R * sb⟩ : Vec K) ⟨c.x + R * ca, c.y + R * sa⟩).x)
      = Vec.mult ⟨ca * (r3 / 2) - sa * (1 / 2), sa * (r3 / 2) + ca * (1 / 2)⟩ R ∧
    Vec.dot (⟨ca * (r3 / 2) - sa * (1 / 2), sa * (r3 / 2) + ca * (1 / 2)⟩ : Vec K)
        ⟨ca * (r3 / 2) - sa * (1 / 2), sa * (r3 / 2) + ca * (1 / 2)⟩ = 1 ∧
    Vec.magSq (Vec.createVector
        (Vec.sub (⟨c.x + R * cb, c.y + R * sb⟩ : Vec K) ⟨c.x + R * ca, c.y + R * sa⟩).y
        (-(Vec.sub (⟨c.x + R * cb, c.y + R * sb⟩ : Vec K) ⟨c.x + R * ca, c.y + R * sa⟩).x))
      = R * R ∧
    Vec.sub (Vec.mult (Vec.add (⟨c.x + R * ca, c.y + R * sa⟩ : Vec K)
        ⟨c.x + R * cb, c.y + R * sb⟩) (1 / 2)) c
      = Vec.mult ⟨ca * (r3 / 2) - sa * (1 / 2), sa * (r3 / 2) + ca * (1 / 2)⟩
          (R * (r3 / 2)) := by
  subst hcb hsb
  refine ⟨?_, ?_, ?_, ?_⟩
  · apply Vec.ext <;> simp only [Vec.createVector, Vec.sub, Vec.mult] <;> ring
  · simp only [Vec.dot]
    linear_combination (1 / 4 * (r3 * r3) + 1 / 4) * hcs + (1 / 4 : K) * h3
  · simp only [Vec.magSq, Vec.createVector, Vec.sub]
    linear_combination (R * R * (1 / 4 * (r3 * r3) + 1 / 4)) * hcs + (R * R * (1 / 4)) * h3
  · apply Vec.ext
    · simp only [Vec.sub, Vec.add, Vec.mult]
      linear_combination (-(ca * R) / 4) * h3
    · simp only [Vec.sub, Vec.add, Vec.mult]
      linear_combination (-(sa * R) / 4) * h3

theorem regular_edge_distance {M : JSMath K} (hM : M.SqrtExact) (c p : Vec K)
    (R ca sa cb sb r3 : K) (h3 : r3 * r3 = 3)
    (hcs : ca * ca + sa * sa = 1) (hcb : cb = ca * (1 / 2) - sa * (r3 / 2))
    (hsb : sb = sa * (1 / 2) + ca * (r3 / 2)) (hR : 0 < R) :
    Vec.div (Vec.createVector
        (Vec.sub (⟨c.x + R * cb, c.y + R * sb⟩ : Vec K) ⟨c.x + R * ca, c.y + R * sa⟩).y
        (-(Vec.sub (⟨c.x + R * cb, c.y + R * sb⟩ : Vec K) ⟨c.x + R * ca, c.y + R * sa⟩).x))
      (Vec.mag M (Vec.createVector
        (Vec.sub (⟨c.x + R * cb, c.y + R * sb⟩ : Vec K) ⟨c.x + R * ca, c.y + R * sa⟩).y
        (-(Vec.sub (⟨c.x + R * cb, c.y + R * sb⟩ : Vec K) ⟨c.x + R * ca, c.y + R * sa⟩).x)))
      = ⟨ca * (r3 / 2) - sa * (1 / 2), sa * (r3 / 2) + ca * (1 / 2)⟩ ∧
    edgeDistance M ⟨c.x + R * ca, c.y + R * sa⟩ ⟨c.x + R * cb, c.y + R * sb⟩ p
      = Vec.dot (Vec.sub p c) ⟨ca * (r3 / 2) - sa * (1 / 2), sa * (r3 / 2) + ca * (1 / 2)⟩
        - R * (r3 / 2) := by
  obtain ⟨hn, -, hsq, -⟩ := regular_edge_normal c R ca sa cb sb r3 h3 hcs hcb hsb
  have hmag : Vec.mag M (Vec.createVector
        (Vec.sub (⟨c.x + R * cb, c.y + R * sb⟩ : Vec K) ⟨c.x + R * ca, c.y + R * sa⟩).y
        (-(Vec.sub (⟨c.x + R * cb, c.y + R * sb⟩ : Vec K) ⟨c.x + R * ca, c.y + R * sa⟩).x))
      = R := by
    unfold Vec.mag; rw [hsq]; exact sqrt_of_mul_self hM hR.le
  have hunit : Vec.div (Vec.createVector
        (Vec.sub (⟨c.x + R * cb, c.y + R * sb⟩ : Vec K) ⟨c.x + R * ca, c.y + R * sa⟩).y
        (-(Vec.sub (⟨c.x + R * cb, c.y + R * sb⟩ : Vec K) ⟨c.x + R * ca, c.y + R * sa⟩).x))
      (Vec.mag M (Vec.createVector
        (Vec.sub (⟨c.x + R * cb, c.y + R * sb⟩ : Vec K) ⟨c.x + R * ca, c.y + R * sa⟩).y
        (-(Vec.sub (⟨c.x + R * cb, c.y + R * sb⟩ : Vec K) ⟨c.x + R * ca, c.y + R * sa⟩).x)))
      = ⟨ca * (r3 / 2) - sa * (1 / 2), sa * (r3 / 2) + ca * (1 / 2)⟩ := by
    rw [hmag, hn]
    have hR' := hR.ne'
    apply Vec.ext <;> simp only [Vec.div, hR', if_false, Vec.mult] <;> field_simp <;> ring
  refine ⟨hunit, ?_⟩
  unfold edgeDistance
  dsimp only
  rw [hunit]
  simp only [Vec.dot, Vec.sub]
  linear_combination (-(R / 2 * r3)) * hcs

theorem insideEdge_iff_distance (M : JSMath K) (p1 p2 p : Vec K) (pad : K)
    (hne : Vec.mag M (Vec.createVector (Vec.sub p2 p1).y (-(Vec.sub p2 p1).x)) ≠ 0) :
    insideEdge M p1 p2 p pad = true ↔ edgeDistance M p1 p2 p ≤ -pad := by
  unfold insideEdge edgeDistance
  simp only [hne, if_false]
  split_ifs with hc
  · simp only [Bool.false_eq_true, false_iff, not_le]
    exact hc
  · simp only [true_iff]
    exact not_lt.mp hc

theorem insideEdge_regular {M : JSMath K} (hM : M.SqrtExact) (c p : Vec K)
    (R ca sa cb sb r3 pad : K) (h3 : r3 * r3 = 3)
    (hcs : ca * ca + sa * sa = 1) (hcb : cb = ca * (1 / 2) - sa * (r3 / 2))
    (hsb : sb = sa * (1 / 2) + ca * (r3 / 2)) (hR : 0 < R) :
    insideEdge M ⟨c.x + R * ca, c.y + R * sa⟩ ⟨c.x + R * cb, c.y + R * sb⟩ p pad = true ↔
      Vec.dot (Vec.sub p c) ⟨ca * (r3 / 2) - sa * (1 / 2), sa * (r3 / 2) + ca * (1 / 2)⟩
        ≤ R * (r3 / 2) - pad := by
  obtain ⟨-, -, hsq, -⟩ := regular_edge_normal c R ca sa cb sb r3 h3 hcs hcb hsb
  have hmag : Vec.mag M (Vec.createVector
        (Vec.sub (⟨c.x + R * cb, c.y + R * sb⟩ : Vec K) ⟨c.x + R * ca, c.y + R * sa⟩).y
        (-(Vec.sub (⟨c.x + R * cb, c.y + R * sb⟩ : Vec K) ⟨c.x + R * ca, c.y + R * sa⟩).x))
      ≠ 0 := by
    unfold Vec.mag; rw [hsq, sqrt_of_mul_self hM hR.le]; exact hR.ne'
  rw [insideEdge_iff_distance M _ _ p pad hmag,
    (regular_edge_distance hM c p R ca sa cb sb r3 h3 hcs hcb hsb hR).2]
  constructor <;> intro h <;> linarith

theorem insideEdge_center {M : JSMath K} (hM : M.SqrtExact) (c : Vec K)
    (R ca sa cb sb r3 : K) (h3 : r3 * r3 = 3) (h3pos : 0 < r3)
    (hcs : ca * ca + sa * sa = 1) (hcb : cb = ca * (1 / 2) - sa * (r3 / 2))
    (hsb : sb = sa * (1 / 2) + ca * (r3 / 2)) :
    insideEdge M ⟨c.x + R * ca, c.y + R * sa⟩ ⟨c.x + R * cb, c.y + R * sb⟩ c 0 = true := by
  obtain ⟨-, -, hsq, -⟩ := regular_edge_normal c R ca sa cb sb r3 h3 hcs hcb hsb
  by_cases hR : R = 0
  · have hmag : Vec.mag M (Vec.createVector
        (Vec.sub (⟨c.x + R * cb, c.y + R * sb⟩ : Vec K) ⟨c.x + R * ca, c.y + R * sa⟩).y
        (-(Vec.sub (⟨c.x + R * cb, c.y + R * sb⟩ : Vec K) ⟨c.x + R * ca, c.y + R * sa⟩).x))
        = 0 := by
      unfold Vec.mag; rw [hsq, hR]; simp [sqrt_zero_of_exact hM]
    unfold insideEdge
    simp only [hmag, if_true]
  · have hL : 0 < |R| := abs_pos.mpr hR
    rw [insideEdge_of_len hM _ _ c 0 |R| hL (by rw [hsq, abs_mul_abs_self])]
    subst hcb hsb
    have hval : (c.x - (c.x + R * ca)) * ((c.y + R * (sa * (1 / 2) + ca * (r3 / 2))
          - (c.y + R * sa)) / |R|)
        + (c.y - (c.y + R * sa)) * (-(c.x + R * (ca * (1 / 2) - sa * (r3 / 2))
          - (c.x + R * ca)) / |R|)
        = -(R * R * (r3 / 2)) / |R| := by
      have e : (c.x - (c.x + R * ca)) * ((c.y + R * (sa * (1 / 2) + ca * (r3 / 2))
            - (c.y + R * sa)) / |R|)
          + (c.y - (c.y + R * sa)) * (-(c.x + R * (ca * (1 / 2) - sa * (r3 / 2))
            - (c.x + R * ca)) / |R|)
          = (-(R * R * (r3 / 2)) * (ca * ca + sa * sa)) / |R| := by ring
      rw [e, hcs, mul_one]
    rw [hval, neg_zero]
    apply div_nonpos_of_nonpos_of_nonneg _ hL.le
    have := mul_nonneg (mul_self_nonneg R) (by positivity : (0 : K) ≤ r3 / 2)
    linarith

theorem real_vertex_get (hexagon : Hexagon ℝ) (k : Nat) (hk : k < 6) :
    (getHexagonVertices (JSMath.mk Real.sqrt Real.cos Real.sin Real.pi) hexagon)[k]?
      = some (vertexAt (JSMath.mk Real.sqrt Real.cos Real.sin Real.pi) hexagon
          (hexagon.angle + Real.pi / 3 * (k : ℝ))) := by
  unfold getHexagonVertices vertexAt
  rw [List.getElem?_map, List.getElem?_range hk]
  rfl

theorem real_vertex_next (hexagon : Hexagon ℝ) (k : Nat) (hk : k < 6) :
    (getHexagonVertices (JSMath.mk Real.sqrt Real.cos Real.sin Real.pi) hexagon)[(k + 1) %
        (getHexagonVertices (JSMath.mk Real.sqrt Real.cos Real.sin Real.pi) hexagon).length]?
      = some (vertexAt (JSMath.mk Real.sqrt Real.cos Real.sin Real.pi) hexagon
          (hexagon.angle + Real.pi / 3 * (k : ℝ) + Real.pi / 3)) := by
  rw [getHexagonVertices_length]
  by_cases h5 : k = 5
  · subst h5
    rw [show (5 + 1) % 6 = 0 from rfl, real_vertex_get hexagon 0 (by norm_num)]
    have ha : hexagon.angle + Real.pi / 3 * ((5 : ℕ) : ℝ) + Real.pi / 3
        = hexagon.angle + Real.pi / 3 * ((0 : ℕ) : ℝ) + 2 * Real.pi := by
      push_cast; ring
    unfold vertexAt
    simp only [ha, Real.cos_add_two_pi, Real.sin_add_two_pi]
  · have hlt : k + 1 < 6 := by omega
    rw [Nat.mod_eq_of_lt hlt, real_vertex_get hexagon (k + 1) hlt]
    have ha : hexagon.angle + Real.pi / 3 * ((k + 1 : ℕ) : ℝ)
        = hexagon.angle + Real.pi / 3 * (k : ℝ) + Real.pi / 3 := by
      push_cast; ring
    rw [ha]

theorem real_rotation_sixth (α : ℝ) :
    Real.cos (α + Real.pi / 3) = Real.cos α * (1 / 2) - Real.sin α * (Real.sqrt 3 / 2) ∧
    Real.sin (α + Real.pi / 3) = Real.sin α * (1 / 2) + Real.cos α * (Real.sqrt 3 / 2) ∧
    Real.cos (α + Real.pi / 6) = Real.cos α * (Real.sqrt 3 / 2) - Real.sin α * (1 / 2) ∧
    Real.sin (α + Real.pi / 6) = Real.sin α * (Real.sqrt 3 / 2) + Real.cos α * (1 / 2) := by
  refine ⟨?_, ?_, ?_, ?_⟩
  · rw [Real.cos_add, Real.cos_pi_div_three, Real.sin_pi_div_three]
  · rw [Real.sin_add, Real.cos_pi_div_three, Real.sin_pi_div_three]
  · rw [Real.cos_add, Real.cos_pi_div_six, Real.sin_pi_div_six]
  · rw [Real.sin_add, Real.cos_pi_div_six, Real.sin_pi_div_six]

theorem real_cos_sin_unit (α : ℝ) : Real.cos α * Real.cos α + Real.sin α * Real.sin α = 1 := by
  have := Real.cos_sq_add_sin_sq α
  nlinarith

theorem real_edgeDirection (hexagon : Hexagon ℝ) (k : Nat) :
    edgeDirection (JSMath.mk Real.sqrt Real.cos Real.sin Real.pi) hexagon k
      = ⟨Real.cos (hexagon.angle + Real.pi / 3 * (k : ℝ)) * (Real.sqrt 3 / 2)
            - Real.sin (hexagon.angle + Real.pi / 3 * (k : ℝ)) * (1 / 2),
          Real.sin (hexagon.angle + Real.pi / 3 * (k : ℝ)) * (Real.sqrt 3 / 2)
            + Real.cos (hexagon.angle + Real.pi / 3 * (k : ℝ)) * (1 / 2)⟩ := by
  obtain ⟨-, -, h3, h4⟩ := real_rotation_sixth (hexagon.angle + Real.pi / 3 * (k : ℝ))
  unfold edgeDirection
  simp only [h3, h4]

theorem real_insideEdgeAt (hexagon : Hexagon ℝ) (hR : 0 < hexagon.radius) (p : Vec ℝ)
    (pad : ℝ) (k : Nat) (hk : k < 6) :
    insideEdgeAt (JSMath.mk Real.sqrt Real.cos Real.sin Real.pi)
        (getHexagonVertices (JSMath.mk Real.sqrt Real.cos Real.sin Real.pi) hexagon) p pad k
        = true ↔
      Vec.dot (Vec.sub p hexagon.center)
          (edgeDirection (JSMath.mk Real.sqrt Real.cos Real.sin Real.pi) hexagon k)
        ≤ hexagon.radius * Real.cos (Real.pi / 6) - pad := by
  obtain ⟨h1, h2, -, -⟩ := real_rotation_sixth (hexagon.angle + Real.pi / 3 * (k : ℝ))
  unfold insideEdgeAt
  rw [real_vertex_get hexagon k hk, real_vertex_next hexagon k hk, real_edgeDirection,
    Real.cos_pi_div_six]
  simp only [vertexAt, Vec.createVector]
  exact insideEdge_regular real_sqrtExact hexagon.center p hexagon.radius _ _ _ _
    (Real.sqrt 3) pad sqrt_three_mul_self (real_cos_sin_unit _) h1 h2 hR

theorem isInsideHexagon_iff_edges (M : JSMath K) (hexagon : Hexagon K) (p : Vec K) (pad : K) :
    isInsideHexagon M hexagon p pad = true ↔
      ∀ k : Nat, k < 6 → insideEdgeAt M (getHexagonVertices M hexagon) p pad k = true := by
  unfold isInsideHexagon
  dsimp only
  rw [List.all_eq_true, getHexagonVertices_length]
  constructor
  · intro h k hk
    exact h k (List.mem_range.mpr hk)
  · intro h k hk
    exact h k (List.mem_range.mp hk)

theorem real_edge_facts (hexagon : Hexagon ℝ) (hR : 0 < hexagon.radius) (p : Vec ℝ)
    (k : Nat) (hk : k < 6) (p1 p2 : Vec ℝ)
    (h1 : (getHexagonVertices (JSMath.mk Real.sqrt Real.cos Real.sin Real.pi) hexagon)[k]?
      = some p1)
    (h2 : (getHexagonVertices (JSMath.mk Real.sqrt Real.cos Real.sin Real.pi) hexagon)[(k + 1) %
        (getHexagonVertices (JSMath.mk Real.sqrt Real.cos Real.sin Real.pi) hexagon).length]?
      = some p2) :
    Vec.createVector (Vec.sub p2 p1).y (-(Vec.sub p2 p1).x)
        = Vec.mult (edgeDirection (JSMath.mk Real.sqrt Real.cos Real.sin Real.pi) hexagon k)
            hexagon.radius ∧
      Vec.div (Vec.createVector (Vec.sub p2 p1).y (-(Vec.sub p2 p1).x))
          (Vec.mag (JSMath.mk Real.sqrt Real.cos Real.sin Real.pi)
            (Vec.createVector (Vec.sub p2 p1).y (-(Vec.sub p2 p1).x)))
        = edgeDirection (JSMath.mk Real.sqrt Real.cos Real.sin Real.pi) hexagon k ∧
      Vec.dot (edgeDirection (JSMath.mk Real.sqrt Real.cos Real.sin Real.pi) hexagon k)
          (edgeDirection (JSMath.mk Real.sqrt Real.cos Real.sin Real.pi) hexagon k) = 1 ∧
      Vec.sub (Vec.mult (Vec.add p1 p2) (1 / 2)) hexagon.center
        = Vec.mult (edgeDirection (JSMath.mk Real.sqrt Real.cos Real.sin Real.pi) hexagon k)
            (hexagon.radius * Real.cos (Real.pi / 6)) ∧
      edgeDistance (JSMath.mk Real.sqrt Real.cos Real.sin Real.pi) p1 p2 p
        = Vec.dot (Vec.sub p hexagon.center)
            (edgeDirection (JSMath.mk Real.sqrt Real.cos Real.sin Real.pi) hexagon k)
          - hexagon.radius * Real.cos (Real.pi / 6) := by
  obtain ⟨c1, c2, -, -⟩ := real_rotation_sixth (hexagon.angle + Real.pi / 3 * (k : ℝ))
  rw [real_vertex_get hexagon k hk] at h1
  rw [real_vertex_next hexagon k hk] at h2
  have e1 := Option.some.inj h1
  have e2 := Option.some.inj h2
  subst e1
  subst e2
  rw [real_edgeDirection, Real.cos_pi_div_six]
  simp only [vertexAt, Vec.createVector]
  obtain ⟨a1, a2, -, a4⟩ := regular_edge_normal hexagon.center hexagon.radius _ _ _ _
    (Real.sqrt 3) sqrt_three_mul_self (real_cos_sin_unit _) c1 c2
  obtain ⟨b1, b2⟩ := regular_edge_distance real_sqrtExact hexagon.center p hexagon.radius
    _ _ _ _ (Real.sqrt 3) sqrt_three_mul_self (real_cos_sin_unit _) c1 c2 hR
  simp only [Vec.createVector] at a1 b1
  exact ⟨a1, b1, a2, a4, b2⟩

/-- C13. Over the reals, for every hexagon of radius `R > 0`, every angle, point `p` and
padding: `isInsideHexagon(p, padding)` is true iff `(p − centre)·u_k ≤ R·cos(π/6) − padding`
for the six unit directions `u_k` (angle `hexagon.angle + k·π/3 + π/6`), iff for each of the
six edges the signed distance `offset.dot(outwardNormal)` the code computes is `≤ −padding`;
for each edge the code's vector `(edge.y, −edge.x)` is `R·u_k`, its normalisation is `u_k`,
`u_k` is a unit vector, the edge midpoint is `centre + R·cos(π/6)·u_k` (so `u_k` points away
from the interior), and the signed distance is `(p − centre)·u_k − R·cos(π/6)`. -/
theorem padded_inside_test (hexagon : Hexagon ℝ) (hR : 0 < hexagon.radius) (p : Vec ℝ)
    (pad : ℝ) :
    (isInsideHexagon (JSMath.mk Real.sqrt Real.cos Real.sin Real.pi) hexagon p pad = true ↔
        ∀ k : Nat, k < 6 →
          Vec.dot (Vec.sub p hexagon.center)
              (edgeDirection (JSMath.mk Real.sqrt Real.cos Real.sin Real.pi) hexagon k)
            ≤ hexagon.radius * Real.cos (Real.pi / 6) - pad) ∧
      (isInsideHexagon (JSMath.mk Real.sqrt Real.cos Real.sin Real.pi) hexagon p pad = true ↔
        ∀ (k : Nat) (p1 p2 : Vec ℝ), k < 6 →
          (getHexagonVertices (JSMath.mk Real.sqrt Real.cos Real.sin Real.pi) hexagon)[k]?
            = some p1 →
          (getHexagonVertices (JSMath.mk Real.sqrt Real.cos Real.sin Real.pi) hexagon)[(k + 1) %
              (getHexagonVertices (JSMath.mk Real.sqrt Real.cos Real.sin Real.pi)
                hexagon).length]? = some p2 →
          edgeDistance (JSMath.mk Real.sqrt Real.cos Real.sin Real.pi) p1 p2 p ≤ -pad) ∧
      (∀ (k : Nat) (p1 p2 : Vec ℝ), k < 6 →
        (getHexagonVertices (JSMath.mk Real.sqrt Real.cos Real.sin Real.pi) hexagon)[k]?
          = some p1 →
        (getHexagonVertices (JSMath.mk Real.sqrt Real.cos Real.sin Real.pi) hexagon)[(k + 1) %
            (getHexagonVertices (JSMath.mk Real.sqrt Real.cos Real.sin Real.pi)
              hexagon).length]? = some p2 →
        Vec.createVector (Vec.sub p2 p1).y (-(Vec.sub p2 p1).x)
            = Vec.mult (edgeDirection (JSMath.mk Real.sqrt Real.cos Real.sin Real.pi) hexagon k)
                hexagon.radius ∧
          Vec.div (Vec.createVector (Vec.sub p2 p1).y (-(Vec.sub p2 p1).x))
              (Vec.mag (JSMath.mk Real.sqrt Real.cos Real.sin Real.pi)
                (Vec.createVector (Vec.sub p2 p1).y (-(Vec.sub p2 p1).x)))
            = edgeDirection (JSMath.mk Real.sqrt Real.cos Real.sin Real.pi) hexagon k ∧
          Vec.dot (edgeDirection (JSMath.mk Real.sqrt Real.cos Real.sin Real.pi) hexagon k)
              (edgeDirection (JSMath.mk Real.sqrt Real.cos Real.sin Real.pi) hexagon k) = 1 ∧
          Vec.sub (Vec.mult (Vec.add p1 p2) (1 / 2)) hexagon.center
            = Vec.mult (edgeDirection (JSMath.mk Real.sqrt Real.cos Real.sin Real.pi) hexagon k)
                (hexagon.radius * Real.cos (Real.pi / 6)) ∧
          edgeDistance (JSMath.mk Real.sqrt Real.cos Real.sin Real.pi) p1 p2 p
            = Vec.dot (Vec.sub p hexagon.center)
                (edgeDirection (JSMath.mk Real.sqrt Real.cos Real.sin Real.pi) hexagon k)
              - hexagon.radius * Real.cos (Real.pi / 6)) := by
  have hA : isInsideHexagon (JSMath.mk Real.sqrt Real.cos Real.sin Real.pi) hexagon p pad
      = true ↔ ∀ k : Nat, k < 6 →
        Vec.dot (Vec.sub p hexagon.center)
            (edgeDirection (JSMath.mk Real.sqrt Real.cos Real.sin Real.pi) hexagon k)
          ≤ hexagon.radius * Real.cos (Real.pi / 6) - pad := by
    rw [isInsideHexagon_iff_edges]
    constructor
    · intro h k hk
      exact (real_insideEdgeAt hexagon hR p pad k hk).mp (h k hk)
    · intro h k hk
      exact (real_insideEdgeAt hexagon hR p pad k hk).mpr (h k hk)
  refine ⟨hA, ?_, fun k p1 p2 hk h1 h2 => real_edge_facts hexagon hR p k hk p1 p2 h1 h2⟩
  rw [hA]
  constructor
  · intro h k p1 p2 hk h1 h2
    rw [(real_edge_facts hexagon hR p k hk p1 p2 h1 h2).2.2.2.2]
    linarith [h k hk]
  · intro h k hk
    have h1 := real_vertex_get hexagon k hk
    have h2 := real_vertex_next hexagon k hk
    have := h k _ _ hk h1 h2
    rw [(real_edge_facts hexagon hR p k hk _ _ h1 h2).2.2.2.2] at this
    linarith

/-- Witness of C13: the centre of the hexagon of radius 100 passes the test with padding
5. -/
theorem padded_inside_test_witness :
    isInsideHexagon (JSMath.mk Real.sqrt Real.cos Real.sin Real.pi) (hex100 ℝ) ⟨0, 0⟩ 5
      = true := by
  apply (padded_inside_test (hex100 ℝ) (by norm_num [hex100]) ⟨0, 0⟩ 5).1.mpr
  intro k _
  obtain ⟨hb1, hb2⟩ := r3_bounds (Real.sqrt 3) sqrt_three_mul_self sqrt_three_pos
  rw [Real.cos_pi_div_six]
  simp only [Vec.dot, Vec.sub, hex100]
  norm_num
  linarith

/-- C14. Over the reals, for every hexagon (any centre, any radius, also zero or negative,
any angle) `isInsideHexagon(hexagon.center, 0)` is true. -/
theorem center_inside (hexagon : Hexagon ℝ) :
    isInsideHexagon (JSMath.mk Real.sqrt Real.cos Real.sin Real.pi) hexagon hexagon.center 0
      = true := by
  rw [isInsideHexagon_iff_edges]
  intro k hk
  obtain ⟨c1, c2, -, -⟩ := real_rotation_sixth (hexagon.angle + Real.pi / 3 * (k : ℝ))
  unfold insideEdgeAt
  rw [real_vertex_get hexagon k hk, real_vertex_next hexagon k hk]
  simp only [vertexAt, Vec.createVector]
  exact insideEdge_center real_sqrtExact hexagon.center hexagon.radius _ _ _ _ (Real.sqrt 3)
    sqrt_three_mul_self sqrt_three_pos (real_cos_sin_unit _) c1 c2

/-! ## Placement and repositioning -/

theorem randomPointLoop_inside (M : JSMath K) (cfg : Config K) (hexagon : Hexagon K)
    (n : Nat) (draws : Nat → K) (p : Vec K)
    (h : (randomPointLoop M cfg hexagon n draws).1 = some p) :
    isInsideHexagon M hexagon p cfg.sphereRadius = true := by
  induction n generalizing draws with
  | zero => simp [randomPointLoop] at h
  | succ n ih =>
    unfold randomPointLoop at h
    dsimp only at h
    split_ifs at h with hc
    · simp only [Option.some.injEq] at h
      rw [← h]
      exact hc
    · exact ih _ h

theorem randomPointInsideHexagon_inside (M : JSMath K) (cfg : Config K) (hexagon : Hexagon K)
    (draws : Nat → K) (p : Vec K)
    (h : (randomPointInsideHexagon M cfg hexagon draws).1 = some p) :
    isInsideHexagon M hexagon p cfg.sphereRadius = true :=
  randomPointLoop_inside M cfg hexagon 200 draws p h

theorem insideEdge_eq_true_iff (M : JSMath K) (p1 p2 p : Vec K) (pad : K) :
    insideEdge M p1 p2 p pad = true ↔
      Vec.mag M (Vec.createVector (Vec.sub p2 p1).y (-(Vec.sub p2 p1).x)) = 0 ∨
        edgeDistance M p1 p2 p ≤ -pad := by
  by_cases h0 : Vec.mag M (Vec.createVector (Vec.sub p2 p1).y (-(Vec.sub p2 p1).x)) = 0
  · unfold insideEdge
    simp only [h0, if_true, true_or]
  · rw [insideEdge_iff_distance M p1 p2 p pad h0]
    simp only [h0, false_or]

theorem insideEdge_mono (M : JSMath K) (p1 p2 p : Vec K) (pad pad' : K) (hle : pad' ≤ pad)
    (h : insideEdge M p1 p2 p pad = true) : insideEdge M p1 p2 p pad' = true := by
  rw [insideEdge_eq_true_iff] at h ⊢
  rcases h with h | h
  · exact Or.inl h
  · exact Or.inr (by linarith)

theorem insideEdgeAt_mono (M : JSMath K) (vs : List (Vec K)) (p : Vec K) (pad pad' : K)
    (hle : pad' ≤ pad) (k : Nat) (h : insideEdgeAt M vs p pad k = true) :
    insideEdgeAt M vs p pad' k = true := by
  unfold insideEdgeAt at h ⊢
  cases ha : vs[k]? with
  | none => simp only []
  | some a =>
    cases hb : vs[(k + 1) % vs.length]? with
    | none => simp only []
    | some b =>
      simp only [ha, hb] at h ⊢
      exact insideEdge_mono M a b p pad pad' hle h

theorem isInsideHexagon_mono (M : JSMath K) (hexagon : Hexagon K) (p : Vec K) (pad pad' : K)
    (hle : pad' ≤ pad) (h : isInsideHexagon M hexagon p pad = true) :
    isInsideHexagon M hexagon p pad' = true := by
  rw [isInsideHexagon_iff_edges] at h ⊢
  intro k hk
  exact insideEdgeAt_mono M _ p pad pad' hle k (h k hk)

theorem repositionSphere_frame (M : JSMath K) (cfg : Config K) (hexagon : Hexagon K)
    (s : Sphere K) (draws : Nat → K) :
    RepositionFrame M cfg hexagon s (repositionSphere M cfg hexagon s draws).1 := by
  unfold repositionSphere
  by_cases hin : isInsideHexagon M hexagon s.position s.radius = false
  · rw [if_pos hin]
    cases hp : (randomPointInsideHexagon M cfg hexagon draws).1 with
    | none =>
      exact ⟨rfl, rfl, rfl, rfl, fun _ => rfl, fun h => absurd rfl h⟩
    | some q =>
      have hq := randomPointInsideHexagon_inside M cfg hexagon draws q hp
      refine ⟨rfl, rfl, rfl, rfl, fun h => ?_, fun _ => ⟨hq, fun hr => ?_⟩⟩
      · rw [hin] at h; exact absurd h (by simp)
      · exact isInsideHexagon_mono M hexagon q _ _ hr hq
  · rw [if_neg hin]
    exact ⟨rfl, rfl, rfl, rfl, fun _ => rfl, fun h => absurd rfl h⟩

/-- C12. For every body list and every sequence of random draws,
`repositionSpheresInsideHexagon` keeps the number and order of the bodies, keeps velocity,
radius, mass and colour of each, keeps the position of each body that already passes
`isInsideHexagon(position, radius)`, and every position it changes is a point that passes the
inside test with padding `config.sphereRadius` (hence with the body's own radius when that is
at most `config.sphereRadius`). -/
theorem reposition_frame (M : JSMath K) (cfg : Config K) (hexagon : Hexagon K)
    (spheres : List (Sphere K)) (draws : Nat → K) :
    (repositionSpheresInsideHexagon M cfg hexagon spheres draws).1.length = spheres.length ∧
      List.Forall₂ (RepositionFrame M cfg hexagon) spheres
        (repositionSpheresInsideHexagon M cfg hexagon spheres draws).1 := by
  induction spheres generalizing draws with
  | nil => exact ⟨rfl, List.Forall₂.nil⟩
  | cons s rest ih =>
    unfold repositionSpheresInsideHexagon
    dsimp only
    obtain ⟨h1, h2⟩ := ih (repositionSphere M cfg hexagon s draws).2
    exact ⟨by simp [h1], List.Forall₂.cons (repositionSphere_frame M cfg hexagon s draws) h2⟩

theorem nextDraw_zero : nextDraw (zeroDraws K) = (0, zeroDraws K) := rfl

theorem center_inside_cramped :
    isInsideHexagon (JSMath.mk Real.sqrt Real.cos Real.sin Real.pi) (hex100 ℝ) ⟨0, 0⟩ 60
      = true := by
  obtain ⟨hb1, hb2⟩ := r3_bounds (Real.sqrt 3) sqrt_three_mul_self sqrt_three_pos
  rw [isInsideHexagon_hex100 real_sqrtExact (Real.sqrt 3) sqrt_three_mul_self (hex100 ℝ)
    getHexagonVertices_hex100]
  refine ⟨?_, ?_, ?_, ?_, ?_, ?_⟩ <;> norm_num <;> linarith

theorem randomPointLoop_zero (n : Nat) :
    randomPointLoop (JSMath.mk Real.sqrt Real.cos Real.sin Real.pi) (crampedConfig ℝ)
        (hex100 ℝ) (n + 1) (zeroDraws ℝ)
      = (some ⟨0, 0⟩, zeroDraws ℝ) := by
  have hc : Vec.createVector
      ((hex100 ℝ).center.x
        + (randomBetween (randomUpTo (zeroDraws ℝ)
            (twoPi (JSMath.mk Real.sqrt Real.cos Real.sin Real.pi))).2 0
            ((hex100 ℝ).radius * (9 / 10))).1
          * Real.cos (randomUpTo (zeroDraws ℝ)
              (twoPi (JSMath.mk Real.sqrt Real.cos Real.sin Real.pi))).1)
      ((hex100 ℝ).center.y
        + (randomBetween (randomUpTo (zeroDraws ℝ)
            (twoPi (JSMath.mk Real.sqrt Real.cos Real.sin Real.pi))).2 0
            ((hex100 ℝ).radius * (9 / 10))).1
          * Real.sin (randomUpTo (zeroDraws ℝ)
              (twoPi (JSMath.mk Real.sqrt Real.cos Real.sin Real.pi))).1)
      = ⟨0, 0⟩ := by
    simp [randomBetween, randomUpTo, nextDraw, zeroDraws, hex100, Vec.createVector]
    norm_num
  unfold randomPointLoop
  simp only [hc]
  have h60 : (crampedConfig ℝ).sphereRadius = 60 := rfl
  rw [h60, if_pos center_inside_cramped]
  rfl

theorem randomPointInsideHexagon_zero :
    randomPointInsideHexagon (JSMath.mk Real.sqrt Real.cos Real.sin Real.pi) (crampedConfig ℝ)
        (hex100 ℝ) (zeroDraws ℝ)
      = (some ⟨0, 0⟩, zeroDraws ℝ) :=
  randomPointLoop_zero 199

theorem positionLoop_zero (spheres : List (Sphere ℝ)) (radius : ℝ) (n : Nat) :
    positionLoop (JSMath.mk Real.sqrt Real.cos Real.sin Real.pi) (crampedConfig ℝ) (hex100 ℝ)
        spheres radius n (zeroDraws ℝ)
      = (some ⟨0, 0⟩, zeroDraws ℝ) := by
  induction n with
  | zero =>
    unfold positionLoop
    exact randomPointInsideHexagon_zero
  | succ n ih =>
    unfold positionLoop
    simp only [randomPointInsideHexagon_zero]
    split_ifs
    · exact ih
    · rfl

theorem spawnSphere_zero (A : JSNumeric ℝ) (spheres : List (Sphere ℝ)) :
    ∃ b : Sphere ℝ, b.position = ⟨0, 0⟩ ∧ b.radius = 60 ∧
      spawnSphere (JSMath.mk Real.sqrt Real.cos Real.sin Real.pi) A (crampedConfig ℝ)
          (hex100 ℝ) spheres (zeroDraws ℝ)
        = (spheres ++ [b], zeroDraws ℝ) := by
  unfold spawnSphere
  simp only [positionLoop_zero]
  exact ⟨_, rfl, rfl, rfl⟩

/-- C11 fails on the code: two bodies of radius 60 are requested in the hexagon of radius
100 and every random draw is 0. Each candidate is the centre `(0, 0)`; for the second body it
is rejected 5000 times, the loop ends with `position` still set to that candidate, and the
body is added at `(0, 0)`, on top of the first one, instead of being skipped. -/
theorem placement_exhausted_body_added (A : JSNumeric ℝ) :
    (initializeSpheres (JSMath.mk Real.sqrt Real.cos Real.sin Real.pi) A (crampedConfig ℝ)
        (hex100 ℝ) (zeroDraws ℝ)).1.map (fun s => s.position) = [⟨0, 0⟩, ⟨0, 0⟩] ∧
      (initializeSpheres (JSMath.mk Real.sqrt Real.cos Real.sin Real.pi) A (crampedConfig ℝ)
        (hex100 ℝ) (zeroDraws ℝ)).1.map (fun s => s.radius) = [60, 60] ∧
      ∀ b : Sphere ℝ, b.position = ⟨0, 0⟩ → b.radius = 60 →
        isPositionValid (JSMath.mk Real.sqrt Real.cos Real.sin Real.pi) (hex100 ℝ) [b]
          ⟨0, 0⟩ 60 = false := by
  obtain ⟨b1, p1, r1, h1⟩ := spawnSphere_zero A []
  obtain ⟨b2, p2, r2, h2⟩ := spawnSphere_zero A ([] ++ [b1])
  have hinit : initializeSpheres (JSMath.mk Real.sqrt Real.cos Real.sin Real.pi) A
      (crampedConfig ℝ) (hex100 ℝ) (zeroDraws ℝ) = ([] ++ [b1] ++ [b2], zeroDraws ℝ) := by
    unfold initializeSpheres
    have hc : (crampedConfig ℝ).sphereCount = 2 := rfl
    rw [hc]
    simp only [List.range, List.range.loop, List.foldl_cons, List.foldl_nil, h1, h2]
  rw [hinit]
  refine ⟨by simp [p1, p2], by simp [r1, r2], ?_⟩
  intro b hp hr
  unfold isPositionValid
  rw [center_inside_cramped]
  have hd : Vec.dist (JSMath.mk Real.sqrt Real.cos Real.sin Real.pi) ⟨0, 0⟩ b.position = 0 := by
    rw [hp]
    simp [Vec.dist, Vec.mag, Vec.sub, Vec.magSq]
  simp [hd, hr]
  norm_num

theorem positionLoop_inside (M : JSMath K) (cfg : Config K) (hexagon : Hexagon K)
    (spheres : List (Sphere K)) (radius : K) (n : Nat) (draws : Nat → K) (p : Vec K)
    (h : (positionLoop M cfg hexagon spheres radius n draws).1 = some p) :
    isInsideHexagon M hexagon p cfg.sphereRadius = true := by
  induction n generalizing draws with
  | zero =>
    unfold positionLoop at h
    exact randomPointInsideHexagon_inside M cfg hexagon draws p h
  | succ n ih =>
    unfold positionLoop at h
    dsimp only at h
    split_ifs at h
    · exact ih _ h
    · exact randomPointInsideHexagon_inside M cfg hexagon draws p h

theorem spawnSphere_inside_count (M : JSMath K) (A : JSNumeric K) (cfg : Config K)
    (hexagon : Hexagon K) (spheres : List (Sphere K)) (draws : Nat → K)
    (hall : ∀ s ∈ spheres, s.radius = cfg.sphereRadius ∧
      isInsideHexagon M hexagon s.position s.radius = true) :
    (spawnSphere M A cfg hexagon spheres draws).1.length ≤ spheres.length + 1 ∧
      ∀ s ∈ (spawnSphere M A cfg hexagon spheres draws).1, s.radius = cfg.sphereRadius ∧
        isInsideHexagon M hexagon s.position s.radius = true := by
  unfold spawnSphere
  dsimp only
  cases hp : (positionLoop M cfg hexagon spheres cfg.sphereRadius 4999 draws).1 with
  | none => exact ⟨Nat.le_succ _, hall⟩
  | some p =>
    have hin := positionLoop_inside M cfg hexagon spheres cfg.sphereRadius 4999 draws p hp
    refine ⟨by simp, ?_⟩
    intro s hs
    simp only [List.mem_append, List.mem_singleton] at hs
    rcases hs with h | h
    · exact hall s h
    · subst h
      exact ⟨rfl, hin⟩

/-- The part of the placement contract that the code does keep: `initializeSpheres` adds at
most `sphereCount` bodies, each of radius `config.sphereRadius` at a point that passes the
padded inside test with that radius. -/
theorem initializeSpheres_inside_count (M : JSMath K) (A : JSNumeric K) (cfg : Config K)
    (hexagon : Hexagon K) (draws : Nat → K) :
    (initializeSpheres M A cfg hexagon draws).1.length ≤ cfg.sphereCount ∧
      ∀ s ∈ (initializeSpheres M A cfg hexagon draws).1, s.radius = cfg.sphereRadius ∧
        isInsideHexagon M hexagon s.position s.radius = true := by
  unfold initializeSpheres
  have key : ∀ (is : List Nat) (st : List (Sphere K) × (Nat → K)),
      (∀ s ∈ st.1, s.radius = cfg.sphereRadius ∧
        isInsideHexagon M hexagon s.position s.radius = true) →
      (is.foldl (fun st _ => spawnSphere M A cfg hexagon st.1 st.2) st).1.length
          ≤ st.1.length + is.length ∧
        ∀ s ∈ (is.foldl (fun st _ => spawnSphere M A cfg hexagon st.1 st.2) st).1,
          s.radius = cfg.sphereRadius ∧
            isInsideHexagon M hexagon s.position s.radius = true := by
    intro is
    induction is with
    | nil => intro st hst; exact ⟨le_refl _, hst⟩
    | cons i is ih =>
      intro st hst
      simp only [List.foldl_cons, List.length_cons]
      obtain ⟨h1, h2⟩ := spawnSphere_inside_count M A cfg hexagon st.1 st.2 hst
      obtain ⟨k1, k2⟩ := ih (spawnSphere M A cfg hexagon st.1 st.2) h2
      exact ⟨by omega, k2⟩
  have := key (List.range cfg.sphereCount) ([], draws) (by intro s hs; simp at hs)
  simpa using this

end HexSim
